import Mathlib

/-!
# stepguru: material registry and GLB container builder

A shallow embedding of `include/Common.hpp`, `src/GlbBuilder.cpp` and the function
`MeshShape` of `src/MeshExtractor.cpp`.

Modelling conventions
* `float` and `double` values are modelled by the rational number they denote (no NaN,
  no infinities). The `float` products and sums the repository computes itself (in
  `MaterialRegistry::pack` and for the brightness in `MeshShape`) are rounded to
  single precision by `roundF32`; the `double` arithmetic inside the CAD kernel's
  vector class is taken exactly.
* `std::size_t` values that count elements of vectors held in memory are
  natural numbers; narrowing casts to `int` and `std::uint32_t` are modelled
  by `toInt32` and `toUInt32`.
* `std::vector` is `List`, `push_back` appends at the end.
* `std::map<uint32_t,int>` is an association list: `find` is `mapFind`,
  `emplace` is `mapEmplace` (no effect when the key is present).
-/

namespace StepGuru

/-! ## Definitions: `Common.hpp` -/

/-- Result of `static_cast<int>(n)` for an unsigned size `n` (two's complement, 32 bit). -/
def toInt32 (n : Nat) : Int :=
  if n % 2 ^ 32 < 2 ^ 31 then ((n % 2 ^ 32 : Nat) : Int) else ((n % 2 ^ 32 : Nat) : Int) - 2 ^ 32

/-- Result of `static_cast<std::uint32_t>(n)`. -/
def toUInt32 (n : Nat) : Nat := n % 2 ^ 32

/-- Wrap a mathematical integer into the range of `int` (32 bit two's complement). -/
def wrapInt32 (z : Int) : Int :=
  if z % 2 ^ 32 < 2 ^ 31 then z % 2 ^ 32 else z % 2 ^ 32 - 2 ^ 32

/-- The struct `RGBA` of four float channels. -/
structure RGBA where
  r : ℚ
  g : ℚ
  b : ℚ
  a : ℚ
deriving DecidableEq

/-- Rounding of a rational to the nearest integer, halfway cases to the even
neighbour: the rounding of a significand under the default rounding mode. -/
def roundHalfEven (y : ℚ) : Int :=
  if y - ⌊y⌋ < 1 / 2 then ⌊y⌋
  else if y - ⌊y⌋ > 1 / 2 then ⌊y⌋ + 1
  else if ⌊y⌋ % 2 = 0 then ⌊y⌋ else ⌊y⌋ + 1

/-- The greatest exponent `e` among `-125 .. -126 + k` with `2^e ≤ x`, and `-126` when
there is none. -/
def expFrom (x : ℚ) : Nat → Int
  | 0 => -126
  | k + 1 => if (2 : ℚ) ^ ((k : Int) - 125) ≤ x then (k : Int) - 125 else expFrom x k

/-- The binary32 exponent of a positive value: the `e` in `-126 .. 127` with
`2^e ≤ x < 2^(e+1)`, `-126` for values below `2^-126` (subnormal range) and `127` for
values from `2^128` on. -/
def exponentF32 (x : ℚ) : Int := expFrom x 253

/-- The result of a `float` operation whose exact result is `x`: the binary32 value
nearest to `x`, halfway cases to the even significand (IEEE 754 round to nearest, 24
bit significand, gradual underflow). Results beyond the largest finite `float` are kept
finite, as the model has no infinities. -/
def roundF32 (x : ℚ) : ℚ :=
  if x = 0 then 0
  else
    (if x < 0 then -1 else 1) *
      (roundHalfEven (|x| / (2 : ℚ) ^ (exponentF32 |x| - 23)) : ℚ) *
      (2 : ℚ) ^ (exponentF32 |x| - 23)

/-- The lambda `clamp01` inside `MaterialRegistry::pack`. -/
def clamp01 (v : ℚ) : ℚ :=
  if v < 0 then 0 else if v > 1 then 1 else v

/-- The function `std::lround`: round to nearest, halfway cases away from zero. -/
def lround (x : ℚ) : Int :=
  if 0 ≤ x then ⌊x + 1 / 2⌋ else -⌊-x + 1 / 2⌋

/-- Result of `static_cast<std::uint8_t>(z)`. -/
def toUInt8 (z : Int) : Nat := (z % 256).toNat

/-- One channel of `pack`: `static_cast<uint8_t>(std::lround(clamp01(v) * 255.0f))`; the
product is a `float` product, rounded to single precision before `lround` sees it. -/
def quantize (v : ℚ) : Nat := toUInt8 (lround (roundF32 (clamp01 v * 255)))

/-- The static method `MaterialRegistry::pack`: the four quantized channels packed into
32 bits (each channel is below 256, so the shifts stay inside `std::uint32_t`). -/
def MaterialRegistry.pack (c : RGBA) : Nat :=
  (quantize c.r <<< 24) ||| (quantize c.g <<< 16) ||| (quantize c.b <<< 8) ||| quantize c.a

open MaterialRegistry (pack)

/-- The method `std::map::find`, giving the mapped value when the key is present. -/
def mapFind (m : List (Nat × Int)) (k : Nat) : Option Int :=
  match m with
  | [] => none
  | (k', v) :: rest => if k = k' then some v else mapFind rest k

/-- The method `std::map::emplace`: inserts only when the key is absent. -/
def mapEmplace (m : List (Nat × Int)) (k : Nat) (v : Int) : List (Nat × Int) :=
  match mapFind m k with
  | some _ => m
  | none => (k, v) :: m

/-- The struct `MaterialRegistry`: lookup table and colour vector. -/
structure MaterialRegistry where
  lut : List (Nat × Int)
  mats : List RGBA

namespace MaterialRegistry

/-- A default-constructed registry. -/
def empty : MaterialRegistry := ⟨[], []⟩

/-- The method `MaterialRegistry::getOrCreate`: returned index and registry afterwards. -/
def getOrCreate (reg : MaterialRegistry) (c : RGBA) : Int × MaterialRegistry :=
  let k := pack c
  match mapFind reg.lut k with
  | some v => (v, reg)
  | none =>
    let idx := toInt32 reg.mats.length
    (idx, { lut := mapEmplace reg.lut k idx, mats := reg.mats ++ [c] })

/-- The method `MaterialRegistry::materials`. -/
def materials (reg : MaterialRegistry) : List RGBA := reg.mats

/-- The registry after a sequence of `getOrCreate` calls, results discarded. -/
def afterCalls (reg : MaterialRegistry) (cs : List RGBA) : MaterialRegistry :=
  cs.foldl (fun r c => (r.getOrCreate c).2) reg

/-- The quantized keys of the stored colours, in palette order. -/
def keys (reg : MaterialRegistry) : List Nat := reg.mats.map pack

end MaterialRegistry

/-- Two colours quantize to the same four 8-bit channel values. -/
def sameQuantized (c c' : RGBA) : Prop :=
  quantize c.r = quantize c'.r ∧ quantize c.g = quantize c'.g ∧
  quantize c.b = quantize c'.b ∧ quantize c.a = quantize c'.a

/-- Invariant of a registry built by `getOrCreate`: the lookup table maps exactly the
keys of the stored colours, each to the (narrowed) position of its colour, and no key
is stored twice. -/
def RegInv (reg : MaterialRegistry) : Prop :=
  (∀ k, mapFind reg.lut k =
    if k ∈ reg.keys then some (toInt32 (reg.keys.indexOf k)) else none) ∧ reg.keys.Nodup

/-- Every channel of the colour lies in the interval from 0 to 1. -/
def inUnit (c : RGBA) : Prop :=
  (0 ≤ c.r ∧ c.r ≤ 1) ∧ (0 ≤ c.g ∧ c.g ≤ 1) ∧ (0 ≤ c.b ∧ c.b ≤ 1) ∧ (0 ≤ c.a ∧ c.a ≤ 1)

/-- Every channel of `c'` is within less than one 8-bit step of the same channel of `c`. -/
def jitterBelowStep (c c' : RGBA) : Prop :=
  |c'.r - c.r| < 1 / 255 ∧ |c'.g - c.g| < 1 / 255 ∧
  |c'.b - c.b| < 1 / 255 ∧ |c'.a - c.a| < 1 / 255

/-- Two channel values lie in the same rounding cell of the 8-bit quantizer: for some
integer `k`, the single-precision products of `v` and of `v'` with 255 both lie in the
half-open interval from `k - 1/2` to `k + 1/2`. -/
def sameCell (v v' : ℚ) : Prop :=
  ∃ k : Int, ((k : ℚ) - 1 / 2 ≤ roundF32 (v * 255) ∧ roundF32 (v * 255) < (k : ℚ) + 1 / 2) ∧
    ((k : ℚ) - 1 / 2 ≤ roundF32 (v' * 255) ∧ roundF32 (v' * 255) < (k : ℚ) + 1 / 2)

/-- Every channel of `c'` lies in the same rounding cell as the same channel of `c`. -/
def jitterWithinCell (c c' : RGBA) : Prop :=
  sameCell c.r c'.r ∧ sameCell c.g c'.g ∧ sameCell c.b c'.b ∧ sameCell c.a c'.a

/-- Reference definition, following the specification: a channel value clamped to the
interval from 0 to 1. -/
def clampUnit (v : ℚ) : ℚ := max 0 (min v 1)

/-- Reference definition, following the specification: the 8-bit value of a channel,
which is the channel clamped to the interval from 0 to 1, times 255 (a product of two
`float` values, hence a `float`), rounded to the nearest integer. -/
def quantizeRef (v : ℚ) : Nat := (⌊roundF32 (clampUnit v * 255) + 1 / 2⌋).toNat

/-- Reference definition: two colours have the same quantized key, that is each of r,
g, b, a gives the same 8-bit value. -/
def sameKeyRef (c c' : RGBA) : Prop :=
  quantizeRef c.r = quantizeRef c'.r ∧ quantizeRef c.g = quantizeRef c'.g ∧
  quantizeRef c.b = quantizeRef c'.b ∧ quantizeRef c.a = quantizeRef c'.a

/-- The struct `Vertex` of three floats. -/
structure Vertex where
  x : ℚ
  y : ℚ
  z : ℚ
deriving DecidableEq

/-- The struct `Normal` of three floats. -/
structure Normal where
  x : ℚ
  y : ℚ
  z : ℚ
deriving DecidableEq

/-- The struct `TriBucket`; `indices` holds `uint32_t` values. -/
structure TriBucket where
  vertices : List Vertex := []
  normals : List Normal := []
  indices : List Nat := []
  materialIndex : Int := -1
deriving DecidableEq

/-- The struct `EdgeBucket`; `indices` holds `uint32_t` values. -/
structure EdgeBucket where
  vertices : List Vertex := []
  indices : List Nat := []
  materialIndex : Int := -1
deriving DecidableEq

/-- The helper `pad4` on 64-bit `std::size_t`: `(n + 3) & ~size_t(3)`. -/
def pad4 (n : Nat) : Nat := ((n + 3) % 2 ^ 64) &&& (2 ^ 64 - 4)

/-- The template parameter `Vec3` of `calcMinMax`: a type with members `x`, `y`, `z`. -/
class Vec3 (V : Type) where
  x : V → ℚ
  y : V → ℚ
  z : V → ℚ

instance : Vec3 Vertex := ⟨Vertex.x, Vertex.y, Vertex.z⟩

instance : Vec3 Normal := ⟨Normal.x, Normal.y, Normal.z⟩

/-- A value of `std::array<float, 6>`. -/
structure Array6 where
  e0 : ℚ
  e1 : ℚ
  e2 : ℚ
  e3 : ℚ
  e4 : ℚ
  e5 : ℚ
deriving DecidableEq

/-- The float literal `1e-9f`: the single-precision value nearest to 1e-9. -/
def float1em9 : ℚ := 9007199 / 2 ^ 53

/-- The lambda `snap` inside `calcMinMax`. -/
def snap (x : ℚ) : ℚ := if |x| < float1em9 then 0 else x

/-- One iteration of the min/max loop of `calcMinMax`. -/
def minMaxStep {V : Type} [Vec3 V] (acc : Array6) (p : V) : Array6 :=
  { e0 := if Vec3.x p < acc.e0 then Vec3.x p else acc.e0
    e1 := if Vec3.y p < acc.e1 then Vec3.y p else acc.e1
    e2 := if Vec3.z p < acc.e2 then Vec3.z p else acc.e2
    e3 := if Vec3.x p > acc.e3 then Vec3.x p else acc.e3
    e4 := if Vec3.y p > acc.e4 then Vec3.y p else acc.e4
    e5 := if Vec3.z p > acc.e5 then Vec3.z p else acc.e5 }

/-- The template `calcMinMax`. -/
def calcMinMax {V : Type} [Vec3 V] (v : List V) (isNormal : Bool) : Array6 :=
  match v with
  | [] => ⟨0, 0, 0, 0, 0, 0⟩
  | v0 :: _ =>
    if isNormal then ⟨-1, -1, -1, 1, 1, 1⟩
    else
      let acc := v.foldl minMaxStep
        ⟨Vec3.x v0, Vec3.y v0, Vec3.z v0, Vec3.x v0, Vec3.y v0, Vec3.z v0⟩
      ⟨snap acc.e0, snap acc.e1, snap acc.e2, snap acc.e3, snap acc.e4, snap acc.e5⟩

/-- The struct `ExportStats`; the `size_t` counters are sums of sizes of vectors held
in memory and are kept as natural numbers. -/
structure ExportStats where
  vertices : Nat := 0
  triangles : Nat := 0
  lines : Nat := 0
  materials : Nat := 0
  primitives : Nat := 0
  bufferBytes : Nat := 0
  jsonBytes : Nat := 0
  totalBytes : Nat := 0
  elapsedSec : ℚ := 0
deriving DecidableEq

/-! ## Definitions: `GlbBuilder.cpp` -/

/-- The private members of class `GlbBuilder`. -/
structure GlbBuilder where
  m_triBuckets : List TriBucket := []
  m_edgeBuckets : List EdgeBucket := []
  m_materials : List RGBA := []
deriving DecidableEq

/-- The statement `if (dst.materialIndex >= 0) dst.materialIndex += matBase;` on `int`. -/
def remapMaterial (matBase : Int) (materialIndex : Int) : Int :=
  if materialIndex ≥ 0 then wrapInt32 (materialIndex + matBase) else materialIndex

/-- One iteration of the triangle loop of `addBuckets`. -/
def addTriStep (matBase : Int) (acc : List TriBucket) (b : TriBucket) : List TriBucket :=
  if b.vertices.isEmpty then acc
  else acc ++ [{ b with materialIndex := remapMaterial matBase b.materialIndex }]

/-- One iteration of the edge loop of `addBuckets`. -/
def addEdgeStep (matBase : Int) (acc : List EdgeBucket) (e : EdgeBucket) : List EdgeBucket :=
  if e.vertices.isEmpty then acc
  else acc ++ [{ e with materialIndex := remapMaterial matBase e.materialIndex }]

namespace GlbBuilder

/-- The method `GlbBuilder::addBuckets`. -/
def addBuckets (g : GlbBuilder) (tris : List TriBucket) (edges : List EdgeBucket)
    (materials : List RGBA) : GlbBuilder :=
  let matBase := toInt32 g.m_materials.length
  { m_materials := g.m_materials ++ materials
    m_triBuckets := tris.foldl (addTriStep matBase) g.m_triBuckets
    m_edgeBuckets := edges.foldl (addEdgeStep matBase) g.m_edgeBuckets }

end GlbBuilder

/-- The arguments of one `addBuckets` call. -/
structure AddCall where
  tris : List TriBucket
  edges : List EdgeBucket
  materials : List RGBA

/-- The builder after a sequence of `addBuckets` calls. -/
def GlbBuilder.afterCalls (g : GlbBuilder) (calls : List AddCall) : GlbBuilder :=
  calls.foldl (fun b call => b.addBuckets call.tris call.edges call.materials) g

/-- The material reference of a triangle bucket replaced, geometry kept. -/
def TriBucket.withMaterial (b : TriBucket) (j : Int) : TriBucket :=
  { b with materialIndex := j }

/-- The material reference of an edge bucket replaced, geometry kept. -/
def EdgeBucket.withMaterial (e : EdgeBucket) (j : Int) : EdgeBucket :=
  { e with materialIndex := j }

/-- The incoming triangle buckets that have at least one vertex, in incoming order. -/
def nonEmptyTris (tris : List TriBucket) : List TriBucket :=
  tris.filter (fun b => !b.vertices.isEmpty)

/-- The incoming edge buckets that have at least one vertex, in incoming order. -/
def nonEmptyEdges (edges : List EdgeBucket) : List EdgeBucket :=
  edges.filter (fun e => !e.vertices.isEmpty)

/-- The geometry arrays of a triangle bucket. -/
def TriBucket.geometry (b : TriBucket) : List Vertex × List Normal × List Nat :=
  (b.vertices, b.normals, b.indices)

/-- The geometry arrays of an edge bucket. -/
def EdgeBucket.geometry (e : EdgeBucket) : List Vertex × List Nat :=
  (e.vertices, e.indices)

/-- Sample data: a triangle bucket with three vertices, three normals, one triangle. -/
def sampleTri : TriBucket :=
  { vertices := [⟨0, 0, 0⟩, ⟨1, 0, 0⟩, ⟨0, 1, 0⟩]
    normals := [⟨0, 0, 1⟩, ⟨0, 0, 1⟩, ⟨0, 0, 1⟩]
    indices := [0, 1, 2]
    materialIndex := 0 }

/-- Sample data: an edge bucket with two vertices and one segment. -/
def sampleEdge : EdgeBucket :=
  { vertices := [⟨0, 0, 0⟩, ⟨1, 0, 0⟩]
    indices := [0, 1]
    materialIndex := 1 }

/-- Sample data: a triangle bucket with one vertex and no index. -/
def sampleTriNoIndex : TriBucket :=
  { vertices := [⟨1, 2, 3⟩]
    normals := []
    indices := []
    materialIndex := 0 }

/-- Sample data: one `addBuckets` call with two materials. -/
def sampleCall : AddCall :=
  { tris := [sampleTri, {}], edges := [{}, sampleEdge],
    materials := [⟨1, 0, 0, 1⟩, ⟨0, 0, 0, 1⟩] }

/-- Four bytes: the object representation of a 32-bit value. -/
structure Bytes4 where
  b0 : Nat
  b1 : Nat
  b2 : Nat
  b3 : Nat
deriving DecidableEq

/-- The four bytes in memory order. -/
def Bytes4.toList (w : Bytes4) : List Nat := [w.b0, w.b1, w.b2, w.b3]

/-- Facilities of the platform and standard library that `GlbBuilder.cpp` relies on and
that are not code of the repository: the object representation of a `float` (what
`memcpy` copies), the text `operator<<` prints for a `float`, whether `std::ofstream`
can open a path for writing, and the difference of the two clock readings. -/
structure Host where
  floatBytes : ℚ → Bytes4
  showFloat : ℚ → List Char
  canOpen : String → Bool
  elapsed : ℚ

/-- The object representation of a `std::uint32_t` (little endian). -/
def u32Bytes (n : Nat) : List Nat :=
  [n % 256, n / 256 % 256, n / 65536 % 256, n / 16777216 % 256]

/-- The constant `sizeof(Vertex)`: three floats. -/
def sizeofVertex : Nat := 12

/-- The constant `sizeof(Normal)`: three floats. -/
def sizeofNormal : Nat := 12

/-- The constant `sizeof(std::uint32_t)`. -/
def sizeofUInt32 : Nat := 4

/-- The object representation of one `Vertex`. -/
def vertexBytes (h : Host) (v : Vertex) : List Nat :=
  (h.floatBytes v.x).toList ++ (h.floatBytes v.y).toList ++ (h.floatBytes v.z).toList

/-- The object representation of one `Normal`. -/
def normalBytes (h : Host) (n : Normal) : List Nat :=
  (h.floatBytes n.x).toList ++ (h.floatBytes n.y).toList ++ (h.floatBytes n.z).toList

/-- The memory behind `vertices.data()`. -/
def verticesBytes (h : Host) (vs : List Vertex) : List Nat := vs.flatMap (vertexBytes h)

/-- The memory behind `normals.data()`. -/
def normalsBytes (h : Host) (ns : List Normal) : List Nat := ns.flatMap (normalBytes h)

/-- The memory behind `indices.data()`. -/
def indicesBytes (is : List Nat) : List Nat := is.flatMap u32Bytes

/-- The method `std::vector::resize(n, fill)` and `std::string::resize(n, fill)`. -/
def resize {α : Type} (l : List α) (n : Nat) (fill : α) : List α :=
  l.take n ++ List.replicate (n - l.length) fill

/-- The local struct `BufferView` of `writeGlb`. -/
structure BufferView where
  buffer : Nat
  byteOffset : Nat
  byteLength : Nat
  target : Int
deriving DecidableEq

/-- The local struct `Accessor` of `writeGlb`. -/
structure Accessor where
  bufferView : Int
  componentType : Int
  count : Nat
  type : String
  bounds : Array6
  hasBounds : Bool
deriving DecidableEq

/-- The local struct `Primitive` of `writeGlb`; `mode` 4 is TRIANGLES, 1 is LINES. -/
structure Primitive where
  posAcc : Int
  nrmAcc : Int
  idxAcc : Int
  material : Int
  mode : Int
deriving DecidableEq

/-- The local variables `bin`, `bufferViews`, `accessors`, `primitives` of `writeGlb`. -/
structure Layout where
  bin : List Nat := []
  bufferViews : List BufferView := []
  accessors : List Accessor := []
  primitives : List Primitive := []
deriving DecidableEq

/-- The lambda `appendBin`: the offset returned and `bin` afterwards; `data` is the
memory pointed to and `bytes` the number of bytes copied. -/
def appendBin (bin : List Nat) (data : List Nat) (bytes : Nat) : Nat × List Nat :=
  (bin.length, bin ++ data.take bytes)

/-- The expression selecting `matIndex` for a primitive. -/
def matIndexOf (materialIndex : Int) (nMaterials : Nat) : Int :=
  if materialIndex ≥ 0 ∧ materialIndex < toInt32 nMaterials then materialIndex else 0

/-- One iteration of the triangle loop of `writeGlb`. -/
def triStep (h : Host) (nMaterials : Nat) (st : Layout) (b : TriBucket) : Layout :=
  if b.vertices.isEmpty || b.indices.isEmpty then st
  else
    let pos := appendBin st.bin (verticesBytes h b.vertices) (b.vertices.length * sizeofVertex)
    let bv1 := st.bufferViews ++
      [⟨0, toUInt32 pos.1, toUInt32 (b.vertices.length * sizeofVertex), 34962⟩]
    let posBV := toInt32 (bv1.length - 1)
    let nrm := appendBin pos.2 (normalsBytes h b.normals) (b.normals.length * sizeofNormal)
    let bv2 := bv1 ++
      [⟨0, toUInt32 nrm.1, toUInt32 (b.normals.length * sizeofNormal), 34962⟩]
    let nrmBV := toInt32 (bv2.length - 1)
    let idx := appendBin nrm.2 (indicesBytes b.indices) (b.indices.length * sizeofUInt32)
    let bv3 := bv2 ++
      [⟨0, toUInt32 idx.1, toUInt32 (b.indices.length * sizeofUInt32), 34963⟩]
    let idxBV := toInt32 (bv3.length - 1)
    let vb := calcMinMax b.vertices false
    let nb := calcMinMax b.normals true
    let ac1 := st.accessors ++ [⟨posBV, 5126, toUInt32 b.vertices.length, "VEC3", vb, true⟩]
    let posAcc := toInt32 (ac1.length - 1)
    let ac2 := ac1 ++ [⟨nrmBV, 5126, toUInt32 b.normals.length, "VEC3", nb, true⟩]
    let nrmAcc := toInt32 (ac2.length - 1)
    let ac3 := ac2 ++
      [⟨idxBV, 5125, toUInt32 b.indices.length, "SCALAR", ⟨0, 0, 0, 0, 0, 0⟩, false⟩]
    let idxAcc := toInt32 (ac3.length - 1)
    let matIndex := matIndexOf b.materialIndex nMaterials
    { bin := idx.2
      bufferViews := bv3
      accessors := ac3
      primitives := st.primitives ++ [⟨posAcc, nrmAcc, idxAcc, matIndex, 4⟩] }

/-- One iteration of the line loop of `writeGlb`. -/
def edgeStep (h : Host) (nMaterials : Nat) (st : Layout) (e : EdgeBucket) : Layout :=
  if e.vertices.isEmpty || e.indices.isEmpty then st
  else
    let pos := appendBin st.bin (verticesBytes h e.vertices) (e.vertices.length * sizeofVertex)
    let bv1 := st.bufferViews ++
      [⟨0, toUInt32 pos.1, toUInt32 (e.vertices.length * sizeofVertex), 34962⟩]
    let posBV := toInt32 (bv1.length - 1)
    let idx := appendBin pos.2 (indicesBytes e.indices) (e.indices.length * sizeofUInt32)
    let bv2 := bv1 ++
      [⟨0, toUInt32 idx.1, toUInt32 (e.indices.length * sizeofUInt32), 34963⟩]
    let idxBV := toInt32 (bv2.length - 1)
    let vb := calcMinMax e.vertices false
    let ac1 := st.accessors ++ [⟨posBV, 5126, toUInt32 e.vertices.length, "VEC3", vb, true⟩]
    let posAcc := toInt32 (ac1.length - 1)
    let ac2 := ac1 ++
      [⟨idxBV, 5125, toUInt32 e.indices.length, "SCALAR", ⟨0, 0, 0, 0, 0, 0⟩, false⟩]
    let idxAcc := toInt32 (ac2.length - 1)
    let matIndex := matIndexOf e.materialIndex nMaterials
    { bin := idx.2
      bufferViews := bv2
      accessors := ac2
      primitives := st.primitives ++ [⟨posAcc, -1, idxAcc, matIndex, 1⟩] }

/-- The triangle loop followed by the line loop of `writeGlb`, before `bin` is padded. -/
def serialize (h : Host) (g : GlbBuilder) : Layout :=
  g.m_edgeBuckets.foldl (edgeStep h g.m_materials.length)
    (g.m_triBuckets.foldl (triStep h g.m_materials.length) {})

/-- The vector `bin` after `bin.resize(pad4(bin.size()), 0)`. -/
def paddedBin (h : Host) (g : GlbBuilder) : List Nat :=
  resize (serialize h g).bin (pad4 (serialize h g).bin.length) 0

/-- Text printed by `operator<<` for an unsigned integer. -/
def showNat (n : Nat) : List Char := (toString n).toList

/-- Text printed by `operator<<` for an `int`. -/
def showInt (z : Int) : List Char := (toString z).toList

/-- The shape of the four array loops of the JSON section: every item is followed by a
comma unless it is the last, then by a newline. -/
def renderItems : List (List Char) → List Char
  | [] => []
  | [x] => x ++ "\n".toList
  | x :: y :: rest => x ++ ",".toList ++ "\n".toList ++ renderItems (y :: rest)

/-- The text of one entry of the `materials` array. -/
def jsonMaterial (h : Host) (m : RGBA) : List Char :=
  "    \x7b\"pbrMetallicRoughness\": \x7b".toList ++ "\"baseColorFactor\": [".toList
    ++ h.showFloat m.r ++ ",".toList ++ h.showFloat m.g ++ ",".toList
    ++ h.showFloat m.b ++ ",".toList ++ h.showFloat m.a
    ++ "], \"metallicFactor\": 0.0, \"roughnessFactor\": 1.0\x7d, ".toList
    ++ "\"doubleSided\": true\x7d".toList

/-- The text of one entry of the `primitives` array. -/
def jsonPrimitive (p : Primitive) : List Char :=
  "      \x7b\"attributes\": \x7b\"POSITION\": ".toList ++ showInt p.posAcc
    ++ (if p.nrmAcc ≥ 0 then ", \"NORMAL\": ".toList ++ showInt p.nrmAcc else [])
    ++ "\x7d, \"indices\": ".toList ++ showInt p.idxAcc
    ++ ", \"material\": ".toList ++ showInt p.material
    ++ ", \"mode\": ".toList ++ showInt p.mode ++ "\x7d".toList

/-- The text of one entry of the `bufferViews` array. -/
def jsonBufferView (bv : BufferView) : List Char :=
  "    \x7b\"buffer\": 0, \"byteOffset\": ".toList ++ showNat bv.byteOffset
    ++ ", \"byteLength\": ".toList ++ showNat bv.byteLength
    ++ ", \"target\": ".toList ++ showInt bv.target ++ "\x7d".toList

/-- The text of one entry of the `accessors` array. -/
def jsonAccessor (h : Host) (a : Accessor) : List Char :=
  "    \x7b\"bufferView\": ".toList ++ showInt a.bufferView
    ++ ", \"componentType\": ".toList ++ showInt a.componentType
    ++ ", \"count\": ".toList ++ showNat a.count
    ++ ", \"type\": \"".toList ++ a.type.toList ++ "\"".toList
    ++ (if a.hasBounds then
        ", \"min\": [".toList ++ h.showFloat a.bounds.e0 ++ ",".toList
          ++ h.showFloat a.bounds.e1 ++ ",".toList ++ h.showFloat a.bounds.e2 ++ "]".toList
          ++ ", \"max\": [".toList ++ h.showFloat a.bounds.e3 ++ ",".toList
          ++ h.showFloat a.bounds.e4 ++ ",".toList ++ h.showFloat a.bounds.e5 ++ "]".toList
      else [])
    ++ "\x7d".toList

/-- The JSON document built by `writeGlb`, before padding; `binSize` is the size of the
padded vector `bin`. -/
def jsonDocument (h : Host) (materials : List RGBA) (lay : Layout) (binSize : Nat) :
    List Char :=
  "\x7b\n".toList
    ++ "  \"asset\": \x7b\"version\": \"2.0\", \"generator\": \"step2glb\"\x7d,\n".toList
    ++ "  \"scene\": 0,\n".toList
    ++ "  \"scenes\": [\x7b\"nodes\": [0]\x7d],\n".toList
    ++ "  \"nodes\": [\x7b\"mesh\": 0\x7d],\n".toList
    ++ "  \"materials\": [\n".toList
    ++ renderItems (materials.map (jsonMaterial h))
    ++ "  ],\n".toList
    ++ "  \"meshes\": [\n".toList
    ++ "    \x7b\"primitives\": [\n".toList
    ++ renderItems (lay.primitives.map jsonPrimitive)
    ++ "    ]\x7d\n".toList
    ++ "  ],\n".toList
    ++ "  \"buffers\": [ \x7b \"byteLength\": ".toList ++ showNat binSize
    ++ " \x7d ],\n".toList
    ++ "  \"bufferViews\": [\n".toList
    ++ renderItems (lay.bufferViews.map jsonBufferView)
    ++ "  ],\n".toList
    ++ "  \"accessors\": [\n".toList
    ++ renderItems (lay.accessors.map (jsonAccessor h))
    ++ "  ]\n".toList
    ++ "\x7d\n".toList

/-- The string `jsonStr` of `writeGlb` before it is padded. -/
def jsonText (h : Host) (g : GlbBuilder) : List Char :=
  jsonDocument h g.m_materials (serialize h g) (paddedBin h g).length

/-- The value `jsonLenPadded`. -/
def jsonLenPadded (h : Host) (g : GlbBuilder) : Nat := pad4 (jsonText h g).length

/-- The string `jsonStr` after `jsonStr.resize(jsonLenPadded, ' ')`. -/
def paddedJson (h : Host) (g : GlbBuilder) : List Char :=
  resize (jsonText h g) (jsonLenPadded h g) ' '

/-- The value `totalLen`, computed in `std::uint32_t`. -/
def totalLen (h : Host) (g : GlbBuilder) : Nat :=
  (12 + 8 + toUInt32 (jsonLenPadded h g) + 8 + toUInt32 (paddedBin h g).length) % 2 ^ 32

/-- The constant `magic`, the text glTF. -/
def glbMagic : Nat := 0x46546C67

/-- The constant `version`. -/
def glbVersion : Nat := 2

/-- The constant `jsonChunkType`, the text JSON. -/
def jsonChunkType : Nat := 0x4E4F534A

/-- The constant `binChunkType`, the text BIN followed by a zero byte. -/
def binChunkType : Nat := 0x004E4942

/-- The value `binChunkLen`. -/
def binChunkLen (h : Host) (g : GlbBuilder) : Nat := toUInt32 (paddedBin h g).length

/-- The bytes handed to `out.write`, in order. -/
def glbBytes (h : Host) (g : GlbBuilder) : List Nat :=
  u32Bytes glbMagic ++ u32Bytes glbVersion ++ u32Bytes (totalLen h g)
    ++ u32Bytes (toUInt32 (jsonLenPadded h g)) ++ u32Bytes jsonChunkType
    ++ ((paddedJson h g).take (jsonLenPadded h g)).map Char.toNat
    ++ u32Bytes (binChunkLen h g) ++ u32Bytes binChunkType
    ++ (if binChunkLen h g ≠ 0 then paddedBin h g else [])

/-- One iteration of the first statistics loop. -/
def statsTriStep (st : ExportStats) (b : TriBucket) : ExportStats :=
  { st with vertices := st.vertices + b.vertices.length
            triangles := st.triangles + b.indices.length / 3 }

/-- One iteration of the second statistics loop. -/
def statsEdgeStep (st : ExportStats) (e : EdgeBucket) : ExportStats :=
  { st with lines := st.lines + e.indices.length / 2 }

/-- The record `st` assigned to `outStats` at the end of `writeGlb`. -/
def computeStats (h : Host) (g : GlbBuilder) : ExportStats :=
  { g.m_edgeBuckets.foldl statsEdgeStep (g.m_triBuckets.foldl statsTriStep {}) with
    materials := g.m_materials.length
    primitives := (serialize h g).primitives.length
    bufferBytes := (paddedBin h g).length
    jsonBytes := (paddedJson h g).length
    totalBytes := totalLen h g
    elapsedSec := h.elapsed }

/-- What a call of `writeGlb` leaves behind: the returned flag, the bytes of the file
written (`none` when no file was opened for writing), `outStats` afterwards, whether
the statistics summary was printed, and the members of the builder afterwards. -/
structure WriteResult where
  ok : Bool
  file : Option (List Nat)
  outStats : ExportStats
  printed : Bool
  builder : GlbBuilder

/-- The method `GlbBuilder::writeGlb`. -/
def GlbBuilder.writeGlb (g : GlbBuilder) (h : Host) (filename : String) (printStats : Bool)
    (outStats : ExportStats) : WriteResult :=
  if g.m_triBuckets.isEmpty && g.m_edgeBuckets.isEmpty then
    { ok := false, file := none, outStats := outStats, printed := false, builder := g }
  else if !h.canOpen filename then
    { ok := false, file := none, outStats := outStats, printed := false, builder := g }
  else
    { ok := true, file := some (glbBytes h g), outStats := computeStats h g,
      printed := printStats, builder := g }

/-- Reading a little-endian `uint32` field at byte offset `off` of a written container
(0 when fewer than four bytes remain). -/
def readU32 (bytes : List Nat) (off : Nat) : Nat :=
  match bytes.drop off with
  | b0 :: b1 :: b2 :: b3 :: _ => b0 + 256 * b1 + 65536 * b2 + 16777216 * b3
  | _ => 0

/-- Sample data: a host whose floats print as one character and encode as zero bytes. -/
def sampleHost : Host :=
  { floatBytes := fun _ => ⟨0, 0, 0, 0⟩
    showFloat := fun _ => ['0']
    canOpen := fun name => name != ""
    elapsed := 0 }

/-- Sample data: a builder holding one triangle bucket that has a vertex but no index. -/
def sampleBuilderNoIndex : GlbBuilder :=
  ({} : GlbBuilder).addBuckets [sampleTriNoIndex] [] [⟨0, 0, 0, 1⟩]

/-- Sample data: a builder after one call with a triangle and an edge bucket. -/
def sampleBuilder : GlbBuilder := ({} : GlbBuilder).afterCalls [sampleCall]

/-- One contiguous byte region of the payload, with what `writeGlb` records about it:
the bytes copied, the byte count passed to `appendBin`, the target hint of the buffer
view, and component type, element count, element shape and bounds of the accessor. -/
structure Region where
  data : List Nat
  bytes : Nat
  target : Int
  componentType : Int
  count : Nat
  type : String
  bounds : Array6
  hasBounds : Bool

/-- The three regions of a triangle bucket: positions, normals, indices. -/
def triRegions (h : Host) (b : TriBucket) : List Region :=
  [⟨verticesBytes h b.vertices, b.vertices.length * sizeofVertex, 34962, 5126,
      b.vertices.length, "VEC3", calcMinMax b.vertices false, true⟩,
    ⟨normalsBytes h b.normals, b.normals.length * sizeofNormal, 34962, 5126,
      b.normals.length, "VEC3", calcMinMax b.normals true, true⟩,
    ⟨indicesBytes b.indices, b.indices.length * sizeofUInt32, 34963, 5125,
      b.indices.length, "SCALAR", ⟨0, 0, 0, 0, 0, 0⟩, false⟩]

/-- The two regions of an edge bucket: positions, indices. -/
def edgeRegions (h : Host) (e : EdgeBucket) : List Region :=
  [⟨verticesBytes h e.vertices, e.vertices.length * sizeofVertex, 34962, 5126,
      e.vertices.length, "VEC3", calcMinMax e.vertices false, true⟩,
    ⟨indicesBytes e.indices, e.indices.length * sizeofUInt32, 34963, 5125,
      e.indices.length, "SCALAR", ⟨0, 0, 0, 0, 0, 0⟩, false⟩]

/-- The triangle buckets that pass the guard of the triangle loop of `writeGlb`: at least
one vertex and at least one index. -/
def emittedTris (g : GlbBuilder) : List TriBucket :=
  g.m_triBuckets.filter (fun b => !(b.vertices.isEmpty || b.indices.isEmpty))

/-- The edge buckets that pass the guard of the line loop of `writeGlb`. -/
def emittedEdges (g : GlbBuilder) : List EdgeBucket :=
  g.m_edgeBuckets.filter (fun e => !(e.vertices.isEmpty || e.indices.isEmpty))

/-- All regions of a builder in serialization order. -/
def regions (h : Host) (g : GlbBuilder) : List Region :=
  (emittedTris g).flatMap (triRegions h) ++ (emittedEdges g).flatMap (edgeRegions h)

/-- Sum of the byte counts of a list of regions. -/
def totalBytes (rs : List Region) : Nat := (rs.map (fun r => r.bytes)).sum

/-- The buffer view recorded for a region that starts at offset `off`. -/
def viewOf (off : Nat) (r : Region) : BufferView :=
  ⟨0, toUInt32 off, toUInt32 r.bytes, r.target⟩

/-- The accessor recorded for a region whose buffer view has position `k`. -/
def accessorOf (k : Nat) (r : Region) : Accessor :=
  ⟨toInt32 k, r.componentType, toUInt32 r.count, r.type, r.bounds, r.hasBounds⟩

/-- Buffer views of regions laid out one after the other from offset `off`. -/
def layoutViews (off : Nat) : List Region → List BufferView
  | [] => []
  | r :: rs => viewOf off r :: layoutViews (off + r.bytes) rs

/-- Accessors of regions whose buffer views are numbered from `k`. -/
def layoutAccessors (k : Nat) : List Region → List Accessor
  | [] => []
  | r :: rs => accessorOf k r :: layoutAccessors (k + 1) rs

/-- The layout `st'` is `st` extended by the regions `rs`. -/
def Extends (st st' : Layout) (rs : List Region) : Prop :=
  st'.bin = st.bin ++ rs.flatMap (fun r => r.data) ∧
  st'.bufferViews = st.bufferViews ++ layoutViews st.bin.length rs ∧
  st'.accessors = st.accessors ++ layoutAccessors st.bufferViews.length rs

/-- What holds of every region built by `writeGlb`: the data has the recorded byte
count, which is 12 bytes per element for float VEC3 regions (target 34962) and 4 bytes
per element for unsigned SCALAR regions (target 34963). -/
def RegionOK (r : Region) : Prop :=
  r.data.length = r.bytes ∧
  ((r.componentType = 5126 ∧ r.type = "VEC3" ∧ r.bytes = r.count * 12 ∧ r.target = 34962) ∨
   (r.componentType = 5125 ∧ r.type = "SCALAR" ∧ r.bytes = r.count * 4 ∧ r.target = 34963))

/-- The primitive recorded for a serialized triangle bucket whose position accessor has
number `k`. -/
def triPrimitive (nMaterials k : Nat) (b : TriBucket) : Primitive :=
  ⟨toInt32 k, toInt32 (k + 1), toInt32 (k + 2), matIndexOf b.materialIndex nMaterials, 4⟩

/-- The primitive recorded for a serialized edge bucket whose position accessor has
number `k`. -/
def edgePrimitive (nMaterials k : Nat) (e : EdgeBucket) : Primitive :=
  ⟨toInt32 k, -1, toInt32 (k + 1), matIndexOf e.materialIndex nMaterials, 1⟩

/-- Primitives of triangle buckets whose accessors are numbered from `k`, three each. -/
def triPrims (nMaterials : Nat) (k : Nat) : List TriBucket → List Primitive
  | [] => []
  | b :: bs => triPrimitive nMaterials k b :: triPrims nMaterials (k + 3) bs

/-- Primitives of edge buckets whose accessors are numbered from `k`, two each. -/
def edgePrims (nMaterials : Nat) (k : Nat) : List EdgeBucket → List Primitive
  | [] => []
  | e :: es => edgePrimitive nMaterials k e :: edgePrims nMaterials (k + 2) es

/-- The material index a primitive gets according to the specification: the reference
of the bucket when it is a valid palette index, otherwise 0. -/
def clampMaterial (r : Int) (paletteSize : Nat) : Int :=
  if 0 ≤ r ∧ r < (paletteSize : Int) then r else 0

/-- Sample data: a host with the same float facilities as `sampleHost` but another
clock reading and another set of paths that can be opened. -/
def sampleHostLater : Host :=
  { floatBytes := sampleHost.floatBytes
    showFloat := sampleHost.showFloat
    canOpen := fun _ => true
    elapsed := 5 }

/-- Sample data: a quad split along a diagonal, four vertices and two triangles, on
material 0. -/
def sampleQuad : TriBucket :=
  { vertices := [⟨0, 0, 0⟩, ⟨1, 0, 0⟩, ⟨1, 1, 0⟩, ⟨0, 1, 0⟩]
    normals := [⟨0, 0, 1⟩, ⟨0, 0, 1⟩, ⟨0, 0, 1⟩, ⟨0, 0, 1⟩]
    indices := [0, 1, 2, 0, 2, 3]
    materialIndex := 0 }

/-- Sample data: a builder that received the quad and one empty edge bucket. -/
def sampleQuadBuilder : GlbBuilder :=
  ({} : GlbBuilder).addBuckets [sampleQuad] [{}] [⟨1, 0, 0, 1⟩]

/-- Reference definition: the least value of `f` over the non-empty list `v0 :: rest`. -/
def minOver {V : Type} (f : V → ℚ) (v0 : V) (rest : List V) : ℚ :=
  rest.foldr (fun p m => min (f p) m) (f v0)

/-- Reference definition: the greatest value of `f` over the non-empty list
`v0 :: rest`. -/
def maxOver {V : Type} (f : V → ℚ) (v0 : V) (rest : List V) : ℚ :=
  rest.foldr (fun p m => max (f p) m) (f v0)

/-- Reference definition of `calcMinMax`, following the specification: six zeros for
the empty list, the fixed bounds -1 and 1 for normals, otherwise the snapped minimum
and maximum of every coordinate over all elements. -/
def calcMinMaxRef {V : Type} [Vec3 V] (v : List V) (isNormal : Bool) : Array6 :=
  match v with
  | [] => ⟨0, 0, 0, 0, 0, 0⟩
  | v0 :: rest =>
    if isNormal then ⟨-1, -1, -1, 1, 1, 1⟩
    else ⟨snap (minOver Vec3.x v0 rest), snap (minOver Vec3.y v0 rest),
      snap (minOver Vec3.z v0 rest), snap (maxOver Vec3.x v0 rest),
      snap (maxOver Vec3.y v0 rest), snap (maxOver Vec3.z v0 rest)⟩

/-! ## Definitions: `MeshExtractor.cpp` -/

/-- Three `double` coordinates: a `gp_Pnt` or a `gp_Vec` of the CAD kernel. -/
structure Vec3d where
  x : ℚ
  y : ℚ
  z : ℚ
deriving DecidableEq

/-- A `Poly_Triangle`: the three node numbers returned by `Get`. -/
structure PolyTriangle where
  n1 : Int
  n2 : Int
  n3 : Int
deriving DecidableEq

/-- What `BRep_Tool::Triangulation(face, loc)` delivers for a face: `nodes` holds
`Node(i).Transformed(loc.Transformation())` for `i = 1 .. NbNodes()`, `triangles` holds
`Triangle(i)` for `i = 1 .. NbTriangles()`. -/
structure Triangulation where
  nodes : List Vec3d
  triangles : List PolyTriangle

/-- A face met by the explorer: its triangulation (`none` for a null handle) and whether
its orientation is `TopAbs_REVERSED`. -/
structure Face where
  triangulation : Option Triangulation
  reversed : Bool

/-- An edge met by the explorer, as the kernel answers for it: whether
`BRepAdaptor_Curve` can be constructed (`false`: it raises), the value of
`GCPnts_AbscissaPoint::Length` (`none`: it raises), and for every deflection the
outcome of `GCPnts_UniformDeflection` (`none`: it raises or is not done, otherwise the
points `Value(1) .. Value(NbPoints())`). -/
structure Edge where
  curve : Bool
  length : Option ℚ
  sample : ℚ → Option (List Vec3d)

/-- A `TopoDS_Shape` after `BRepMesh_IncrementalMesh`: whether it is null, and its faces
and edges in explorer order. -/
structure Shape where
  isNull : Bool
  faces : List Face
  edges : List Edge

/-- Operations of the CAD kernel and the compiler that `MeshShape` relies on and that
are not code of the repository: `gp_Vec::Magnitude`, `gp_Vec::Normalize` (`none` when it
raises `Standard_ConstructionError`, as documented for vectors of zero norm), and the
conversion of a `double` to `float`. -/
structure Kernel where
  magnitude : Vec3d → ℚ
  normalize : Vec3d → Option Vec3d
  toFloat : ℚ → ℚ

/-- The vector `gp_Vec(p1, p2)` from `p1` to `p2`. -/
def Vec3d.between (p1 p2 : Vec3d) : Vec3d :=
  ⟨p2.x - p1.x, p2.y - p1.y, p2.z - p1.z⟩

/-- The method `gp_Vec::Crossed`. -/
def Vec3d.crossed (a b : Vec3d) : Vec3d :=
  ⟨a.y * b.z - a.z * b.y, a.z * b.x - a.x * b.z, a.x * b.y - a.y * b.x⟩

/-- The operator `+=` of `gp_Vec`. -/
def Vec3d.add (a b : Vec3d) : Vec3d := ⟨a.x + b.x, a.y + b.y, a.z + b.z⟩

/-- The vector `gp_Vec(0,0,0)`. -/
def Vec3d.zero : Vec3d := ⟨0, 0, 0⟩

/-- The `double` literal `1e-12`. -/
def double1em12 : ℚ := 4951760157141521 / 4951760157141521099596496896

/-- The constant `linDefl`, the `double` literal `0.01`. -/
def linDefl : ℚ := 5764607523034235 / 576460752303423488

/-- The constant `edgeDeflBase`. -/
def edgeDeflBase : ℚ := linDefl * 8

/-- The conversion `{(float)p.X(), (float)p.Y(), (float)p.Z()}` to a `Vertex`. -/
def toVertex (K : Kernel) (p : Vec3d) : Vertex := ⟨K.toFloat p.x, K.toFloat p.y, K.toFloat p.z⟩

/-- The conversion `{(float)v.X(), (float)v.Y(), (float)v.Z()}` to a `Normal`. -/
def toNormal (K : Kernel) (v : Vec3d) : Normal := ⟨K.toFloat v.x, K.toFloat v.y, K.toFloat v.z⟩

/-- Assignment through `operator[]`: the element at position `i` replaced by `f` of it
(no effect in the model when `i` is not a position of the vector). -/
def modifyAt {α : Type} (l : List α) (i : Nat) (f : α → α) : List α :=
  match l[i]? with
  | some x => l.set i (f x)
  | none => l

/-- The call `tri->Node(n)`: `none` when the node number is outside `1 .. NbNodes()`
and the call raises `Standard_OutOfRange`. -/
def Triangulation.node (t : Triangulation) (n : Int) : Option Vec3d :=
  if 1 ≤ n ∧ n ≤ (t.nodes.length : Int) then t.nodes[(n - 1).toNat]? else none

/-- The local variables `acc` and `b.indices` while the triangles of a patch are
processed. -/
structure PatchState where
  acc : List Vec3d
  indices : List Nat
deriving DecidableEq

/-- The face normal of one triangle: the cross product of its first two edge vectors,
normalized when its magnitude exceeds `1e-12`; `none` when `Normalize` raises. -/
def faceNormal (K : Kernel) (p1 p2 p3 : Vec3d) : Option Vec3d :=
  let nrm := (Vec3d.between p1 p2).crossed (Vec3d.between p1 p3)
  if K.magnitude nrm > double1em12 then K.normalize nrm else some nrm

/-- One iteration of the triangle loop of a patch; `none` when a kernel call raises,
which happens before anything is written in that iteration. -/
def triangleStep (K : Kernel) (t : Triangulation) (rev : Bool) (base : Nat)
    (st : PatchState) (tr : PolyTriangle) : Option PatchState :=
  let n1 := tr.n1
  let n2 := if rev then tr.n3 else tr.n2
  let n3 := if rev then tr.n2 else tr.n3
  match t.node n1, t.node n2, t.node n3 with
  | some p1, some p2, some p3 =>
    match faceNormal K p1 p2 p3 with
    | some nrm =>
      let acc1 := modifyAt st.acc (n1 - 1).toNat (fun v => v.add nrm)
      let acc2 := modifyAt acc1 (n2 - 1).toNat (fun v => v.add nrm)
      let acc3 := modifyAt acc2 (n3 - 1).toNat (fun v => v.add nrm)
      some { acc := acc3
             indices := st.indices ++
               [toUInt32 (base + (n1 - 1).toNat), toUInt32 (base + (n2 - 1).toNat),
                 toUInt32 (base + (n3 - 1).toNat)] }
    | none => none
  | _, _, _ => none

/-- The triangle loop of a patch: the state when the loop ends and whether it ran to
completion (`false`: an iteration raised and the loop was left). -/
def triangleLoop (K : Kernel) (t : Triangulation) (rev : Bool) (base : Nat) :
    PatchState → List PolyTriangle → PatchState × Bool
  | st, [] => (st, true)
  | st, tr :: rest =>
    match triangleStep K t rev base st tr with
    | some st1 => triangleLoop K t rev base st1 rest
    | none => (st, false)

/-- The loop `for (auto& v : acc) v.Normalize();`: `none` when one call raises. -/
def normalizeAll (K : Kernel) : List Vec3d → Option (List Vec3d)
  | [] => some []
  | v :: vs =>
    match K.normalize v with
    | some n =>
      match normalizeAll K vs with
      | some ns => some (n :: ns)
      | none => none
    | none => none

/-- The body of the faces loop of `MeshShape` for one face, acting on the bucket
`triBuckets[shapeMatIdx]`; when a kernel call raises, the handler is entered and the
bucket keeps what was written before. -/
def processFace (K : Kernel) (b : TriBucket) (f : Face) : TriBucket :=
  match f.triangulation with
  | none => b
  | some t =>
    if t.nodes.length < 3 || t.triangles.length < 1 then b
    else
      let base := b.vertices.length
      let vertices := b.vertices ++ t.nodes.map (toVertex K)
      let r := triangleLoop K t f.reversed base
        ⟨List.replicate t.nodes.length Vec3d.zero, b.indices⟩ t.triangles
      if r.2 then
        match normalizeAll K r.1.acc with
        | some ns =>
          { b with vertices := vertices, indices := r.1.indices
                   normals := b.normals ++ ns.map (toNormal K) }
        | none => { b with vertices := vertices, indices := r.1.indices }
      else { b with vertices := vertices, indices := r.1.indices }

/-- The local variables `eB` and `baseEdge` of the edges loop. -/
structure EdgeLoopState where
  eB : EdgeBucket
  baseEdge : Nat

/-- The deflection chosen for an edge of length `len`. -/
def edgeDeflection (len : ℚ) : ℚ :=
  if len < 5 then edgeDeflBase * (1 / 4)
  else if len < 50 then edgeDeflBase * (1 / 2)
  else edgeDeflBase

/-- The index pairs pushed for a segment of `k` sampled points. -/
def segmentIndices (baseEdge k : Nat) : List Nat :=
  (List.range (k - 1)).flatMap
    (fun i => [toUInt32 (baseEdge + i), toUInt32 (baseEdge + i + 1)])

/-- The body of the edges loop of `MeshShape` for one edge. -/
def processEdge (K : Kernel) (st : EdgeLoopState) (e : Edge) : EdgeLoopState :=
  if !e.curve then st
  else
    let len := match e.length with
      | some l => l
      | none => 10
    match e.sample (edgeDeflection len) with
    | none => st
    | some pts =>
      if pts.length < 2 then st
      else
        { eB := { st.eB with
                  vertices := st.eB.vertices ++ pts.map (toVertex K)
                  indices := st.eB.indices ++ segmentIndices st.baseEdge pts.length }
          baseEdge := st.baseEdge + pts.length }

/-- The float literal `0.7f`. -/
def float07 : ℚ := 11744051 / 16777216

/-- The float literal `0.1f`. -/
def float01 : ℚ := 13421773 / 134217728

/-- The float literal `0.9f`. -/
def float09 : ℚ := 7549747 / 8388608

/-- The float literal `0.299f`. -/
def float0299 : ℚ := 10032775 / 33554432

/-- The float literal `0.587f`. -/
def float0587 : ℚ := 4924113 / 8388608

/-- The float literal `0.114f`. -/
def float0114 : ℚ := 15300821 / 134217728

/-- The default gray `{0.7f, 0.7f, 0.7f, 1.0f}`. -/
def gray : RGBA := ⟨float07, float07, float07, 1⟩

/-- The local variable `shapeColor`: gray in place of pure black. -/
def shapeColorOf (shapeColorIn : RGBA) : RGBA :=
  if shapeColorIn.r = 0 ∧ shapeColorIn.g = 0 ∧ shapeColorIn.b = 0 then gray
  else shapeColorIn

/-- The local variable `brightness`: three `float` products and two `float` sums, each
rounded to single precision. -/
def brightness (shapeColor : RGBA) : ℚ :=
  roundF32
    (roundF32 (roundF32 (float0299 * shapeColor.r) + roundF32 (float0587 * shapeColor.g))
      + roundF32 (float0114 * shapeColor.b))

/-- The local variable `edgeColor`. -/
def edgeColorOf (shapeColor : RGBA) : RGBA :=
  if brightness shapeColor > 1 / 2 then ⟨float01, float01, float01, 1⟩
  else ⟨float09, float09, float09, 1⟩

/-- The statements that make room for `triBuckets[shapeMatIdx]` and tag it. -/
def tagTriBucket (triBuckets : List TriBucket) (shapeMatIdx : Int) : List TriBucket :=
  modifyAt
    (if shapeMatIdx ≥ toInt32 triBuckets.length then
      resize triBuckets (shapeMatIdx + 1).toNat {}
    else triBuckets)
    shapeMatIdx.toNat (fun b => { b with materialIndex := shapeMatIdx })

/-- The statements that make room for `edgeBuckets[edgeMatIdx]` and tag it. -/
def tagEdgeBucket (edgeBuckets : List EdgeBucket) (edgeMatIdx : Int) : List EdgeBucket :=
  modifyAt
    (if edgeMatIdx ≥ toInt32 edgeBuckets.length then
      resize edgeBuckets (edgeMatIdx + 1).toNat {}
    else edgeBuckets)
    edgeMatIdx.toNat (fun e => { e with materialIndex := edgeMatIdx })

/-- The three objects `MeshShape` updates through its reference parameters. -/
structure MeshState where
  matReg : MaterialRegistry
  triBuckets : List TriBucket
  edgeBuckets : List EdgeBucket

/-- The function `MeshShape`. -/
def MeshShape (K : Kernel) (root : Shape) (shapeColorIn : RGBA) (s : MeshState) : MeshState :=
  if root.isNull then s
  else
    let shapeColor := shapeColorOf shapeColorIn
    let edgeColor := edgeColorOf shapeColor
    let r1 := s.matReg.getOrCreate shapeColor
    let shapeMatIdx := r1.1
    let triBuckets1 := tagTriBucket s.triBuckets shapeMatIdx
    let r2 := r1.2.getOrCreate edgeColor
    let edgeMatIdx := r2.1
    let edgeBuckets1 := tagEdgeBucket s.edgeBuckets edgeMatIdx
    let triBuckets2 := modifyAt triBuckets1 shapeMatIdx.toNat
      (fun b => root.faces.foldl (processFace K) b)
    let edgeBuckets2 := modifyAt edgeBuckets1 edgeMatIdx.toNat
      (fun eB => (root.edges.foldl (processEdge K) ⟨eB, eB.vertices.length⟩).eB)
    { matReg := r2.2, triBuckets := triBuckets2, edgeBuckets := edgeBuckets2 }

/-- The state after a sequence of `MeshShape` calls that share the palette and the two
bucket vectors. -/
def meshShapes (K : Kernel) (calls : List (Shape × RGBA)) (s : MeshState) : MeshState :=
  calls.foldl (fun st call => MeshShape K call.1 call.2 st) s

/-- A state with a fresh palette and no buckets. -/
def MeshState.fresh : MeshState := ⟨MaterialRegistry.empty, [], []⟩

/-- The invariant of a triangle bucket. -/
def TriBucketInv (b : TriBucket) : Prop :=
  b.normals.length = b.vertices.length ∧ b.indices.length % 3 = 0 ∧
  ∀ i ∈ b.indices, i < b.vertices.length

/-- The invariant of an edge bucket. -/
def EdgeBucketInv (e : EdgeBucket) : Prop :=
  e.indices.length % 2 = 0 ∧ ∀ i ∈ e.indices, i < e.vertices.length

/-- Sample data: a kernel that agrees with `gp_Vec` on the zero vector (magnitude 0,
`Normalize` raises) and on vectors parallel to a coordinate axis, the only vectors met
when the samples below are processed; `float` conversion is exact on the sample
coordinates. -/
def sampleKernel : Kernel :=
  { magnitude := fun v => |v.x| + |v.y| + |v.z|
    normalize := fun v =>
      if v = Vec3d.zero then none
      else some ⟨v.x / (|v.x| + |v.y| + |v.z|), v.y / (|v.x| + |v.y| + |v.z|),
        v.z / (|v.x| + |v.y| + |v.z|)⟩
    toFloat := fun q => q }

/-- Sample data: a face whose only triangle has three collinear nodes. -/
def degenerateFace : Face :=
  { triangulation := some
      { nodes := [⟨0, 0, 0⟩, ⟨1, 0, 0⟩, ⟨2, 0, 0⟩], triangles := [⟨1, 2, 3⟩] }
    reversed := false }

/-- Sample data: a face with one triangle in the plane `z = 0`. -/
def flatFace : Face :=
  { triangulation := some
      { nodes := [⟨0, 0, 0⟩, ⟨1, 0, 0⟩, ⟨0, 1, 0⟩], triangles := [⟨1, 2, 3⟩] }
    reversed := false }

/-- Sample data: an edge sampled to three points whatever the deflection. -/
def sampleCurve : Edge :=
  { curve := true, length := some 2
    sample := fun _ => some [⟨0, 0, 0⟩, ⟨1, 0, 0⟩, ⟨2, 0, 0⟩] }

/-- Sample data: a shape with the degenerate face only. -/
def degenerateShape : Shape := { isNull := false, faces := [degenerateFace], edges := [] }

/-- Sample data: a shape with the flat face and one edge. -/
def flatShape : Shape := { isNull := false, faces := [flatFace], edges := [sampleCurve] }

/-- Sample data: a state whose edge bucket vector already holds one bucket. -/
def sampleMeshState : MeshState := ⟨MaterialRegistry.empty, [], [sampleEdge]⟩

/-- Whether the handler of the faces loop is entered while the face is processed, that
is whether a kernel call raises (this does not depend on the bucket). -/
def faceRaises (K : Kernel) (f : Face) : Bool :=
  match f.triangulation with
  | none => false
  | some t =>
    if t.nodes.length < 3 || t.triangles.length < 1 then false
    else
      !((triangleLoop K t f.reversed 0
            ⟨List.replicate t.nodes.length Vec3d.zero, []⟩ t.triangles).2 &&
        (normalizeAll K (triangleLoop K t f.reversed 0
            ⟨List.replicate t.nodes.length Vec3d.zero, []⟩ t.triangles).1.acc).isSome)

/-- The part of the triangle-bucket invariant that concerns the indices, with the
normals at most as many as the vertices. -/
def TriBucketIndexInv (b : TriBucket) : Prop :=
  b.normals.length ≤ b.vertices.length ∧ b.indices.length % 3 = 0 ∧
  ∀ i ∈ b.indices, i < b.vertices.length

/-- Sample data: a face whose triangle has legs of length `2^-24` along the x and y
axes; the cross product of its first two edge vectors is `(0, 0, 2^-48)`, of magnitude
about `3.6e-15`. All coordinates and products are exact in `double`. -/
def sliverFace : Face :=
  { triangulation := some
      { nodes := [⟨0, 0, 0⟩, ⟨1 / 2 ^ 24, 0, 0⟩, ⟨0, 1 / 2 ^ 24, 0⟩]
        triangles := [⟨1, 2, 3⟩] }
    reversed := false }

/-- Sample data: a face whose triangle has legs `4951760157141521 / 2^52` along x and
`2^-40` along y; the cross product of its first two edge vectors is `(0, 0, d)` with
`d` the `double` literal `1e-12`, so its magnitude equals the threshold. -/
def thresholdFace : Face :=
  { triangulation := some
      { nodes := [⟨0, 0, 0⟩, ⟨4951760157141521 / 2 ^ 52, 0, 0⟩, ⟨0, 1 / 2 ^ 40, 0⟩]
        triangles := [⟨1, 2, 3⟩] }
    reversed := false }

/-- The cross product of the first two edge vectors of a triangle with corners `p1`,
`p2`, `p3`: the local variable `nrm` before the guarded `Normalize`. -/
def crossOf (p1 p2 p3 : Vec3d) : Vec3d :=
  (Vec3d.between p1 p2).crossed (Vec3d.between p1 p3)

/-- The three statements `acc[n - 1] += nrm` of one iteration of the triangle loop, for
the node numbers of `tr` after the winding swap. -/
def accumulated (acc : List Vec3d) (rev : Bool) (tr : PolyTriangle) (nrm : Vec3d) :
    List Vec3d :=
  modifyAt (modifyAt (modifyAt acc (tr.n1 - 1).toNat (fun v => v.add nrm))
    ((if rev then tr.n3 else tr.n2) - 1).toNat (fun v => v.add nrm))
    ((if rev then tr.n2 else tr.n3) - 1).toNat (fun v => v.add nrm)

/-- The three indices pushed by one iteration of the triangle loop. -/
def pushedIndices (base : Nat) (rev : Bool) (tr : PolyTriangle) : List Nat :=
  [toUInt32 (base + (tr.n1 - 1).toNat),
    toUInt32 (base + ((if rev then tr.n3 else tr.n2) - 1).toNat),
    toUInt32 (base + ((if rev then tr.n2 else tr.n3) - 1).toNat)]

/-- Sample data: a shape whose first face is the degenerate face and whose second face
is the flat face, with one edge. -/
def mixedShape : Shape :=
  { isNull := false, faces := [degenerateFace, flatFace], edges := [sampleCurve] }

/-- Sample data: a builder that received one triangle bucket and an empty palette. -/
def sampleBuilderNoPalette : GlbBuilder := ({} : GlbBuilder).addBuckets [sampleTri] [] []

theorem roundHalfEven_err (y : ℚ) : |(roundHalfEven y : ℚ) - y| ≤ 1 / 2 := by
  have h1 := Int.floor_le y
  have h2 := Int.lt_floor_add_one y
  unfold roundHalfEven
  rw [abs_le]
  split_ifs <;> push_cast <;> constructor <;> linarith

theorem roundHalfEven_nonneg {y : ℚ} (h : 0 ≤ y) : 0 ≤ roundHalfEven y := by
  have h1 : 0 ≤ ⌊y⌋ := Int.floor_nonneg.mpr h
  unfold roundHalfEven
  split_ifs <;> omega

theorem expFrom_spec (x : ℚ) (k : Nat) :
    expFrom x k = -126 ∨ (2 : ℚ) ^ (expFrom x k) ≤ x := by
  induction k with
  | zero => exact Or.inl rfl
  | succ k ih =>
    unfold expFrom
    by_cases h : (2 : ℚ) ^ ((k : Int) - 125) ≤ x
    · rw [if_pos h]
      exact Or.inr h
    · rw [if_neg h]
      exact ih

theorem exponentF32_le {x : ℚ} (hx : x < 256) : exponentF32 x ≤ 7 := by
  unfold exponentF32
  rcases expFrom_spec x 253 with h | h
  · rw [h]
    norm_num
  · by_contra hc
    have h8 : (8 : Int) ≤ expFrom x 253 := by omega
    have : (2 : ℚ) ^ (8 : Int) ≤ (2 : ℚ) ^ (expFrom x 253) :=
      zpow_le_zpow_right₀ (by norm_num) h8
    norm_num at this
    linarith

theorem roundF32_nonneg {x : ℚ} (h : 0 ≤ x) : 0 ≤ roundF32 x := by
  unfold roundF32
  by_cases h0 : x = 0
  · rw [if_pos h0]
  · rw [if_neg h0, if_neg (not_lt.mpr h)]
    have hq : (0 : ℚ) < (2 : ℚ) ^ (exponentF32 |x| - 23) := zpow_pos (by norm_num) _
    have hy : (0 : ℚ) ≤ |x| / (2 : ℚ) ^ (exponentF32 |x| - 23) :=
      div_nonneg (abs_nonneg x) hq.le
    have hr : (0 : ℚ) ≤ (roundHalfEven (|x| / (2 : ℚ) ^ (exponentF32 |x| - 23)) : ℚ) := by
      exact_mod_cast roundHalfEven_nonneg hy
    positivity

theorem roundF32_err {x : ℚ} (h : 0 ≤ x) (hx : x < 256) :
    |roundF32 x - x| ≤ 1 / 2 ^ 17 := by
  unfold roundF32
  by_cases h0 : x = 0
  · rw [if_pos h0, h0]
    norm_num
  · rw [if_neg h0, if_neg (not_lt.mpr h), abs_of_nonneg h]
    have he : exponentF32 x - 23 ≤ -16 := by
      have := exponentF32_le hx
      omega
    have hq : (0 : ℚ) < (2 : ℚ) ^ (exponentF32 x - 23) := zpow_pos (by norm_num) _
    have hq2 : (2 : ℚ) ^ (exponentF32 x - 23) ≤ 1 / 2 ^ 16 := by
      have : (2 : ℚ) ^ (exponentF32 x - 23) ≤ (2 : ℚ) ^ (-16 : Int) :=
        zpow_le_zpow_right₀ (by norm_num) he
      norm_num at this ⊢
      exact this
    have herr := roundHalfEven_err (x / (2 : ℚ) ^ (exponentF32 x - 23))
    have hfac : 1 * (roundHalfEven (x / (2 : ℚ) ^ (exponentF32 x - 23)) : ℚ)
          * (2 : ℚ) ^ (exponentF32 x - 23) - x
        = ((roundHalfEven (x / (2 : ℚ) ^ (exponentF32 x - 23)) : ℚ)
            - x / (2 : ℚ) ^ (exponentF32 x - 23)) * (2 : ℚ) ^ (exponentF32 x - 23) := by
      field_simp
    rw [hfac, abs_mul, abs_of_pos hq]
    calc |(roundHalfEven (x / (2 : ℚ) ^ (exponentF32 x - 23)) : ℚ)
            - x / (2 : ℚ) ^ (exponentF32 x - 23)| * (2 : ℚ) ^ (exponentF32 x - 23)
        ≤ 1 / 2 * (1 / 2 ^ 16) := mul_le_mul herr hq2 hq.le (by norm_num)
      _ = 1 / 2 ^ 17 := by norm_num

theorem toUInt8_lt (z : Int) : toUInt8 z < 256 := by
  unfold toUInt8
  have h1 : 0 ≤ z % 256 := Int.emod_nonneg z (by norm_num)
  have h2 : z % 256 < 256 := Int.emod_lt_of_pos z (by norm_num)
  omega

theorem quantize_lt (v : ℚ) : quantize v < 256 := toUInt8_lt _

theorem pack_eq_sum (c : RGBA) :
    pack c = 2 ^ 24 * quantize c.r + 2 ^ 16 * quantize c.g + 2 ^ 8 * quantize c.b
      + quantize c.a := by
  have hr := quantize_lt c.r
  have hg := quantize_lt c.g
  have hb := quantize_lt c.b
  have ha := quantize_lt c.a
  unfold pack
  simp only [Nat.shiftLeft_eq]
  have e1 : quantize c.b * 2 ^ 8 ||| quantize c.a = 2 ^ 8 * quantize c.b + quantize c.a := by
    rw [Nat.mul_comm]; exact (Nat.mul_add_lt_is_or (by omega) _).symm
  have e2 : quantize c.g * 2 ^ 16 ||| (2 ^ 8 * quantize c.b + quantize c.a)
      = 2 ^ 16 * quantize c.g + (2 ^ 8 * quantize c.b + quantize c.a) := by
    rw [Nat.mul_comm]; exact (Nat.mul_add_lt_is_or (by omega) _).symm
  have e3 : quantize c.r * 2 ^ 24 |||
      (2 ^ 16 * quantize c.g + (2 ^ 8 * quantize c.b + quantize c.a))
      = 2 ^ 24 * quantize c.r + (2 ^ 16 * quantize c.g + (2 ^ 8 * quantize c.b + quantize c.a)) := by
    rw [Nat.mul_comm]; exact (Nat.mul_add_lt_is_or (by omega) _).symm
  rw [Nat.lor_assoc, Nat.lor_assoc, e1, e2, e3]
  omega

theorem pack_lt (c : RGBA) : pack c < 2 ^ 32 := by
  have hr := quantize_lt c.r
  have hg := quantize_lt c.g
  have hb := quantize_lt c.b
  have ha := quantize_lt c.a
  rw [pack_eq_sum]
  omega

theorem pack_eq_iff (c c' : RGBA) : pack c = pack c' ↔ sameQuantized c c' := by
  have hr := quantize_lt c.r
  have hg := quantize_lt c.g
  have hb := quantize_lt c.b
  have ha := quantize_lt c.a
  have hr' := quantize_lt c'.r
  have hg' := quantize_lt c'.g
  have hb' := quantize_lt c'.b
  have ha' := quantize_lt c'.a
  rw [pack_eq_sum, pack_eq_sum]
  unfold sameQuantized
  constructor
  · intro h
    omega
  · rintro ⟨h1, h2, h3, h4⟩
    rw [h1, h2, h3, h4]

theorem toInt32_inj {a b : Nat} (ha : a < 2 ^ 32) (hb : b < 2 ^ 32)
    (h : toInt32 a = toInt32 b) : a = b := by
  unfold toInt32 at h
  rw [Nat.mod_eq_of_lt ha, Nat.mod_eq_of_lt hb] at h
  split_ifs at h <;> omega

theorem toInt32_of_lt {a : Nat} (ha : a < 2 ^ 31) : toInt32 a = (a : Int) := by
  unfold toInt32
  have : a % 2 ^ 32 = a := Nat.mod_eq_of_lt (by omega)
  rw [this, if_pos ha]

theorem nodup_bounded_length {l : List Nat} {N : Nat} (hn : l.Nodup)
    (hb : ∀ k ∈ l, k < N) : l.length ≤ N := by
  have h1 : l.toFinset ⊆ Finset.range N := by
    intro x hx
    exact Finset.mem_range.mpr (hb x (List.mem_toFinset.mp hx))
  have h2 := Finset.card_le_card h1
  rw [List.toFinset_card_of_nodup hn, Finset.card_range] at h2
  exact h2

theorem keys_bounded (reg : MaterialRegistry) : ∀ k ∈ reg.keys, k < 2 ^ 32 := by
  intro k hk
  unfold MaterialRegistry.keys at hk
  obtain ⟨c, _, rfl⟩ := List.mem_map.mp hk
  exact pack_lt c

theorem regInv_empty : RegInv MaterialRegistry.empty := by
  constructor
  · intro k
    simp [MaterialRegistry.empty, MaterialRegistry.keys, mapFind]
  · simp [MaterialRegistry.empty, MaterialRegistry.keys]

theorem getOrCreate_fst {reg : MaterialRegistry} (h : RegInv reg) (c : RGBA) :
    (reg.getOrCreate c).1 = toInt32 (reg.keys.indexOf (pack c)) := by
  unfold MaterialRegistry.getOrCreate
  simp only
  rw [h.1 (pack c)]
  by_cases hm : pack c ∈ reg.keys
  · simp [hm]
  · simp only [hm, if_false]
    rw [List.indexOf_eq_length.mpr hm]
    simp [MaterialRegistry.keys]

theorem getOrCreate_mats {reg : MaterialRegistry} (h : RegInv reg) (c : RGBA) :
    (reg.getOrCreate c).2.mats = if pack c ∈ reg.keys then reg.mats else reg.mats ++ [c] := by
  unfold MaterialRegistry.getOrCreate
  simp only
  rw [h.1 (pack c)]
  by_cases hm : pack c ∈ reg.keys <;> simp [hm]

theorem getOrCreate_keys {reg : MaterialRegistry} (h : RegInv reg) (c : RGBA) :
    (reg.getOrCreate c).2.keys =
      if pack c ∈ reg.keys then reg.keys else reg.keys ++ [pack c] := by
  unfold MaterialRegistry.keys
  rw [getOrCreate_mats h]
  unfold MaterialRegistry.keys
  by_cases hm : pack c ∈ List.map pack reg.mats <;> simp [hm]

theorem getOrCreate_lut {reg : MaterialRegistry} (h : RegInv reg) (c : RGBA) :
    (reg.getOrCreate c).2.lut =
      if pack c ∈ reg.keys then reg.lut
      else (pack c, toInt32 reg.mats.length) :: reg.lut := by
  unfold MaterialRegistry.getOrCreate
  simp only
  have hf := h.1 (pack c)
  by_cases hm : pack c ∈ reg.keys
  · simp only [hm, if_true] at hf ⊢
    rw [hf]
  · simp only [hm, if_false] at hf ⊢
    rw [hf]
    simp only [mapEmplace, hf]

theorem regInv_getOrCreate {reg : MaterialRegistry} (h : RegInv reg) (c : RGBA) :
    RegInv (reg.getOrCreate c).2 := by
  by_cases hm : pack c ∈ reg.keys
  · have hl := getOrCreate_lut h c
    have hk := getOrCreate_keys h c
    simp only [hm, if_true] at hl hk
    unfold RegInv
    rw [hl, hk]
    exact h
  · have hl := getOrCreate_lut h c
    have hk := getOrCreate_keys h c
    simp only [hm, if_false] at hl hk
    unfold RegInv
    rw [hl, hk]
    constructor
    · intro k
      by_cases hkc : k = pack c
      · subst hkc
        simp only [mapFind, if_true, List.mem_append, List.mem_singleton, or_true]
        rw [List.indexOf_append_of_not_mem hm]
        simp [MaterialRegistry.keys]
      · simp only [mapFind, hkc, if_false, List.mem_append, List.mem_singleton, or_false]
        rw [h.1 k]
        by_cases hk2 : k ∈ reg.keys
        · simp only [hk2, if_true]
          rw [List.indexOf_append_of_mem hk2]
        · simp [hk2]
    · refine List.Nodup.append h.2 (List.nodup_singleton _) ?_
      intro a ha hs
      rw [List.mem_singleton] at hs
      exact hm (hs ▸ ha)

theorem regInv_afterCalls {reg : MaterialRegistry} (h : RegInv reg) (cs : List RGBA) :
    RegInv (reg.afterCalls cs) := by
  induction cs generalizing reg with
  | nil => exact h
  | cons c cs ih =>
    unfold MaterialRegistry.afterCalls
    simp only [List.foldl_cons]
    exact ih (regInv_getOrCreate h c)

theorem regInv_mem_after {reg : MaterialRegistry} (h : RegInv reg) (c : RGBA) :
    pack c ∈ (reg.getOrCreate c).2.keys := by
  rw [getOrCreate_keys h]
  by_cases hm : pack c ∈ reg.keys <;> simp [hm]

theorem regInv_indexOf_after {reg : MaterialRegistry} (h : RegInv reg) (c : RGBA) :
    (reg.getOrCreate c).2.keys.indexOf (pack c) = reg.keys.indexOf (pack c) := by
  rw [getOrCreate_keys h]
  by_cases hm : pack c ∈ reg.keys
  · simp [hm]
  · simp only [hm, if_false]
    rw [List.indexOf_append_of_not_mem hm, List.indexOf_eq_length.mpr hm]
    simp

theorem regInv_indexOf_lt {reg : MaterialRegistry} (h : RegInv reg) (c : RGBA) :
    reg.keys.indexOf (pack c) < 2 ^ 32 := by
  by_cases hm : pack c ∈ reg.keys
  · have h1 := List.indexOf_lt_length.mpr hm
    have h2 := nodup_bounded_length h.2 (keys_bounded reg)
    omega
  · have h3 := regInv_getOrCreate h c
    have h4 := nodup_bounded_length h3.2 (keys_bounded _)
    rw [getOrCreate_keys h] at h4
    simp only [hm, if_false, List.length_append, List.length_singleton] at h4
    rw [List.indexOf_eq_length.mpr hm]
    omega

theorem getOrCreate_twice_iff {reg : MaterialRegistry} (h0 : RegInv reg) (d d' : RGBA) :
    (reg.getOrCreate d).1 = ((reg.getOrCreate d).2.getOrCreate d').1 ↔ pack d = pack d' := by
  have h1 := regInv_getOrCreate h0 d
  rw [getOrCreate_fst h0, getOrCreate_fst h1, ← regInv_indexOf_after h0 d]
  have hmem := regInv_mem_after h0 d
  have hlt := regInv_indexOf_lt h1 d
  have hlt' := regInv_indexOf_lt h1 d'
  constructor
  · intro he
    have hidx := toInt32_inj hlt hlt' he
    have hd := List.indexOf_lt_length.mpr hmem
    have hm' : pack d' ∈ (reg.getOrCreate d).2.keys := by
      apply List.indexOf_lt_length.mp
      omega
    exact (List.indexOf_inj hmem hm').mp hidx
  · intro he
    rw [he]

theorem clamp01_eq_clampUnit (v : ℚ) : clamp01 v = clampUnit v := by
  unfold clamp01 clampUnit
  by_cases h1 : v < 0
  · rw [if_pos h1, min_eq_left (by linarith), max_eq_left h1.le]
  · rw [if_neg h1]
    by_cases h2 : v > 1
    · rw [if_pos h2, min_eq_right h2.le, max_eq_right (by norm_num)]
    · rw [if_neg h2, min_eq_left (not_lt.mp h2), max_eq_right (not_lt.mp h1)]

theorem clampUnit_range (v : ℚ) : 0 ≤ clampUnit v ∧ clampUnit v ≤ 1 := by
  unfold clampUnit
  exact ⟨le_max_left _ _, max_le (by norm_num) (min_le_right _ _)⟩

theorem clampUnit_of_mem {v : ℚ} (h : 0 ≤ v ∧ v ≤ 1) : clampUnit v = v := by
  unfold clampUnit
  rw [min_eq_left h.2, max_eq_right h.1]

theorem scaled_range (v : ℚ) :
    0 ≤ roundF32 (clampUnit v * 255) ∧ roundF32 (clampUnit v * 255) ≤ 255 + 1 / 2 ^ 17 ∧
    |roundF32 (clampUnit v * 255) - clampUnit v * 255| ≤ 1 / 2 ^ 17 := by
  obtain ⟨h0, h1⟩ := clampUnit_range v
  have hx0 : (0 : ℚ) ≤ clampUnit v * 255 := by linarith
  have hx1 : clampUnit v * 255 < 256 := by linarith
  have herr := roundF32_err hx0 hx1
  refine ⟨roundF32_nonneg hx0, ?_, herr⟩
  have := (abs_le.mp herr).2
  linarith

theorem quantize_eq_ref (v : ℚ) : quantize v = quantizeRef v := by
  obtain ⟨h0, h1, _⟩ := scaled_range v
  unfold quantize quantizeRef lround toUInt8
  rw [clamp01_eq_clampUnit, if_pos h0]
  have hz0 : 0 ≤ ⌊roundF32 (clampUnit v * 255) + 1 / 2⌋ := Int.floor_nonneg.mpr (by linarith)
  have hz1 : ⌊roundF32 (clampUnit v * 255) + 1 / 2⌋ < 256 := by
    apply Int.floor_lt.mpr
    push_cast
    norm_num at h1 ⊢
    linarith
  rw [Int.emod_eq_of_lt hz0 hz1]

theorem sameQuantized_iff_ref (c c' : RGBA) : sameQuantized c c' ↔ sameKeyRef c c' := by
  unfold sameQuantized sameKeyRef
  simp only [quantize_eq_ref]

theorem quantizeRef_eq_iff (v : ℚ) (k : Int) (hk : 0 ≤ k) :
    quantizeRef v = k.toNat ↔
      ((k : ℚ) - 1 / 2 ≤ roundF32 (clampUnit v * 255) ∧
        roundF32 (clampUnit v * 255) < (k : ℚ) + 1 / 2) := by
  obtain ⟨h0, _, _⟩ := scaled_range v
  have hz0 : 0 ≤ ⌊roundF32 (clampUnit v * 255) + 1 / 2⌋ := Int.floor_nonneg.mpr (by linarith)
  unfold quantizeRef
  constructor
  · intro h
    have hz : ⌊roundF32 (clampUnit v * 255) + 1 / 2⌋ = k := by omega
    have h1 := Int.floor_le (roundF32 (clampUnit v * 255) + 1 / 2)
    have h2 := Int.lt_floor_add_one (roundF32 (clampUnit v * 255) + 1 / 2)
    rw [hz] at h1 h2
    constructor <;> linarith
  · rintro ⟨h1, h2⟩
    have hz : ⌊roundF32 (clampUnit v * 255) + 1 / 2⌋ = k := by
      rw [Int.floor_eq_iff]
      constructor <;> linarith
    rw [hz]

theorem sameCell_iff {v v' : ℚ} (hv : 0 ≤ v ∧ v ≤ 1) (hv' : 0 ≤ v' ∧ v' ≤ 1) :
    sameCell v v' ↔ quantize v = quantize v' := by
  rw [quantize_eq_ref, quantize_eq_ref]
  unfold sameCell
  constructor
  · rintro ⟨k, hc, hc'⟩
    have hx0 : (0 : ℚ) ≤ roundF32 (v * 255) := roundF32_nonneg (by linarith [hv.1])
    have hk : 0 ≤ k := by
      by_contra hneg
      have : (k : ℚ) ≤ -1 := by exact_mod_cast (by omega : k ≤ -1)
      linarith [hc.2]
    rw [← clampUnit_of_mem hv] at hc
    rw [← clampUnit_of_mem hv'] at hc'
    rw [(quantizeRef_eq_iff v k hk).mpr hc, (quantizeRef_eq_iff v' k hk).mpr hc']
  · intro h
    refine ⟨(quantizeRef v : Int), ?_, ?_⟩
    · have := (quantizeRef_eq_iff v (quantizeRef v : Int) (by omega)).mp (by simp)
      rw [clampUnit_of_mem hv] at this
      exact_mod_cast this
    · have := (quantizeRef_eq_iff v' (quantizeRef v : Int) (by omega)).mp (by simp [h])
      rw [clampUnit_of_mem hv'] at this
      exact_mod_cast this
/-- C1. For every registry reachable from the empty one by `getOrCreate` calls and
every two colours `c`, `c'`: `getOrCreate c` followed by `getOrCreate c'` returns the
same index if and only if `c` and `c'` have the same quantized key, that is each of r,
g, b, a (clamped to the interval from 0 to 1, times 255 as a `float` product, rounded
to nearest) gives the same 8-bit value; equivalently `pack c = pack c'`. In particular
`{0,0,0,1}` followed by `{0.001,0,0,1}` returns the same index, for the decimal value
0.001 as for the `float` nearest to it. The product is the single-precision one: `0.7f`
has the 8-bit value 179 and `179/256` has 178, and `{0.7f,0.7f,0.7f,1}` followed by
`{179/256,179/256,179/256,1}` returns two different indices. -/
theorem getOrCreate_same_index_iff (cs : List RGBA) (c c' : RGBA) :
    (((MaterialRegistry.empty.afterCalls cs).getOrCreate c).1 =
        (((MaterialRegistry.empty.afterCalls cs).getOrCreate c).2.getOrCreate c').1
      ↔ sameKeyRef c c') ∧
    (sameKeyRef c c' ↔ pack c = pack c') ∧
    ((MaterialRegistry.empty.afterCalls cs).getOrCreate ⟨0, 0, 0, 1⟩).1 =
      (((MaterialRegistry.empty.afterCalls cs).getOrCreate ⟨0, 0, 0, 1⟩).2.getOrCreate
        ⟨1 / 1000, 0, 0, 1⟩).1 ∧
    roundF32 (1 / 1000) = 8589935 / 8589934592 ∧
    ((MaterialRegistry.empty.afterCalls cs).getOrCreate ⟨0, 0, 0, 1⟩).1 =
      (((MaterialRegistry.empty.afterCalls cs).getOrCreate ⟨0, 0, 0, 1⟩).2.getOrCreate
        ⟨8589935 / 8589934592, 0, 0, 1⟩).1 ∧
    roundF32 (7 / 10) = float07 ∧ quantizeRef float07 = 179 ∧ quantizeRef (179 / 256) = 178 ∧
    ((MaterialRegistry.empty.afterCalls cs).getOrCreate ⟨float07, float07, float07, 1⟩).1 ≠
      (((MaterialRegistry.empty.afterCalls cs).getOrCreate
        ⟨float07, float07, float07, 1⟩).2.getOrCreate ⟨179 / 256, 179 / 256, 179 / 256, 1⟩).1 := by
  have h0 : RegInv (MaterialRegistry.empty.afterCalls cs) :=
    regInv_afterCalls regInv_empty cs
  refine ⟨?_, ?_, ?_, ?_, ?_, ?_, ?_, ?_, ?_⟩
  · rw [getOrCreate_twice_iff h0, pack_eq_iff, sameQuantized_iff_ref]
  · rw [pack_eq_iff, sameQuantized_iff_ref]
  · rw [getOrCreate_twice_iff h0, pack_eq_iff]
    exact ⟨by decide!, by decide!, by decide!, by decide!⟩
  · decide!
  · rw [getOrCreate_twice_iff h0, pack_eq_iff]
    exact ⟨by decide!, by decide!, by decide!, by decide!⟩
  · decide!
  · decide!
  · decide!
  · intro h
    have hq := ((pack_eq_iff _ _).mp ((getOrCreate_twice_iff h0 _ _).mp h)).1
    exact absurd hq (by decide!)

/-- C2 (amended). For every registry reachable from the empty one and every two colours
`c`, `c'` with channels in the unit interval: `getOrCreate c` followed by
`getOrCreate c'` returns the same index exactly when the jitter stays inside one
rounding cell of the quantizer in every channel, that is when for every channel there
is an integer `k` such that the single-precision products of `v` and of `v'` with 255
both lie in the interval from `k - 1/2` (included) to `k + 1/2` (excluded). -/
theorem getOrCreate_jitter_within_cell (cs : List RGBA) (c c' : RGBA)
    (hc : inUnit c) (hc' : inUnit c') :
    jitterWithinCell c c' ↔
      ((MaterialRegistry.empty.afterCalls cs).getOrCreate c).1 =
        (((MaterialRegistry.empty.afterCalls cs).getOrCreate c).2.getOrCreate c').1 := by
  rw [getOrCreate_twice_iff (regInv_afterCalls regInv_empty cs), pack_eq_iff]
  obtain ⟨hr, hg, hb, ha⟩ := hc
  obtain ⟨hr', hg', hb', ha'⟩ := hc'
  unfold jitterWithinCell sameQuantized
  rw [sameCell_iff hr hr', sameCell_iff hg hg', sameCell_iff hb hb', sameCell_iff ha ha']

/-- Witness for `getOrCreate_jitter_within_cell`: the colour `{0.7f, 0.7f, 0.7f, 1}` and
the colour whose red channel is the next `float` above `0.7f`, after one earlier call;
the red products round to 178.5 and to 178.5 + 2^-16, both in the cell of 179. -/
theorem getOrCreate_jitter_within_cell_witness :
    inUnit ⟨float07, float07, float07, 1⟩ ∧
    inUnit ⟨11744052 / 16777216, float07, float07, 1⟩ ∧
    roundF32 (float07 * 255) = 357 / 2 ∧
    roundF32 (11744052 / 16777216 * 255) = 11698177 / 65536 ∧
    ((MaterialRegistry.empty.afterCalls [⟨1, 1, 1, 1⟩]).getOrCreate
        ⟨float07, float07, float07, 1⟩).1 =
      (((MaterialRegistry.empty.afterCalls [⟨1, 1, 1, 1⟩]).getOrCreate
        ⟨float07, float07, float07, 1⟩).2.getOrCreate
          ⟨11744052 / 16777216, float07, float07, 1⟩).1 :=
  ⟨by norm_num [inUnit, float07], by norm_num [inUnit, float07], by decide!, by decide!,
    (getOrCreate_jitter_within_cell [⟨1, 1, 1, 1⟩] ⟨float07, float07, float07, 1⟩
      ⟨11744052 / 16777216, float07, float07, 1⟩
      (by norm_num [inUnit, float07]) (by norm_num [inUnit, float07])).mp
      ⟨⟨179, by decide!⟩, ⟨179, by decide!⟩, ⟨179, by decide!⟩, ⟨255, by decide!⟩⟩⟩

/-- C2 (counterexample). The colours `{1/1024, 0, 0, 1}` and `{3/1024, 0, 0, 1}` have
all channels in the unit interval and differ by less than one 8-bit step in every
channel, yet on the empty registry `getOrCreate` of the first followed by
`getOrCreate` of the second returns two different indices (0 and 1): the red channels
quantize to 0 and to 1. -/
theorem jitter_below_step_distinct_indices :
    inUnit ⟨1 / 1024, 0, 0, 1⟩ ∧ inUnit ⟨3 / 1024, 0, 0, 1⟩ ∧
    jitterBelowStep ⟨1 / 1024, 0, 0, 1⟩ ⟨3 / 1024, 0, 0, 1⟩ ∧
    quantize (1 / 1024) = 0 ∧ quantize (3 / 1024) = 1 ∧
    (MaterialRegistry.empty.getOrCreate ⟨1 / 1024, 0, 0, 1⟩).1 = 0 ∧
    ((MaterialRegistry.empty.getOrCreate ⟨1 / 1024, 0, 0, 1⟩).2.getOrCreate
      ⟨3 / 1024, 0, 0, 1⟩).1 = 1 ∧
    (MaterialRegistry.empty.getOrCreate ⟨1 / 1024, 0, 0, 1⟩).1 ≠
      ((MaterialRegistry.empty.getOrCreate ⟨1 / 1024, 0, 0, 1⟩).2.getOrCreate
        ⟨3 / 1024, 0, 0, 1⟩).1 := by
  refine ⟨?_, ?_, ?_, ?_, ?_, ?_, ?_, ?_⟩
  · norm_num [inUnit]
  · norm_num [inUnit]
  · norm_num [jitterBelowStep, abs_lt]
  · decide!
  · decide!
  · decide!
  · decide!
  · decide!

theorem mats_prefix_getOrCreate (reg : MaterialRegistry) (c : RGBA) :
    reg.mats <+: (reg.getOrCreate c).2.mats := by
  unfold MaterialRegistry.getOrCreate
  simp only
  cases mapFind reg.lut (pack c) with
  | some v => exact List.prefix_refl _
  | none => exact List.prefix_append _ _

theorem mats_prefix_afterCalls (reg : MaterialRegistry) (cs : List RGBA) :
    reg.mats <+: (reg.afterCalls cs).mats := by
  induction cs generalizing reg with
  | nil => exact List.prefix_refl _
  | cons c cs ih =>
    unfold MaterialRegistry.afterCalls
    simp only [List.foldl_cons]
    exact (mats_prefix_getOrCreate reg c).trans (ih _)

theorem afterCalls_split (reg : MaterialRegistry) (pre post : List RGBA) (c0 : RGBA) :
    reg.afterCalls (pre ++ c0 :: post) =
      ((reg.afterCalls pre).getOrCreate c0).2.afterCalls post := by
  unfold MaterialRegistry.afterCalls
  rw [List.foldl_append, List.foldl_cons]

theorem indexOf_of_initial {l l' : List Nat} (h : l <+: l') {k : Nat} (hk : k ∈ l) :
    l'.indexOf k = l.indexOf k := by
  obtain ⟨t, rfl⟩ := h
  exact List.indexOf_append_of_mem hk

theorem keys_getElem? (reg : MaterialRegistry) {k : Nat} (hk : k ∈ reg.keys) :
    ∃ m, reg.mats[reg.keys.indexOf k]? = some m ∧ pack m = k := by
  have h1 : reg.keys[reg.keys.indexOf k]? = some k := List.getElem?_indexOf hk
  unfold MaterialRegistry.keys at h1 ⊢
  rw [List.getElem?_map] at h1
  cases hm : reg.mats[List.indexOf k (List.map pack reg.mats)]? with
  | none => rw [hm] at h1; simp at h1
  | some m =>
    rw [hm] at h1
    simp only [Option.map_some', Option.some.injEq] at h1
    exact ⟨m, rfl, h1⟩

theorem getElem?_of_initial {α : Type} {l l' : List α} (h : l <+: l') {i : Nat}
    (hi : i < l.length) : l'[i]? = l[i]? := by
  obtain ⟨t, rfl⟩ := h
  exact List.getElem?_append_left hi

theorem getOrCreate_length_le (reg : MaterialRegistry) (c : RGBA) :
    (reg.getOrCreate c).2.mats.length ≤ reg.mats.length + 1 := by
  unfold MaterialRegistry.getOrCreate
  simp only
  cases mapFind reg.lut (pack c) with
  | some v => exact Nat.le_succ _
  | none => simp

theorem afterCalls_length_le (reg : MaterialRegistry) (cs : List RGBA) :
    (reg.afterCalls cs).mats.length ≤ reg.mats.length + cs.length := by
  induction cs generalizing reg with
  | nil => exact Nat.le_refl _
  | cons c cs ih =>
    unfold MaterialRegistry.afterCalls
    simp only [List.foldl_cons, List.length_cons]
    have h1 := ih (reg.getOrCreate c).2
    have h2 := getOrCreate_length_le reg c
    unfold MaterialRegistry.afterCalls at h1
    omega

/-- C3. The palette is append-only with stable indices. For every registry `reg`
reachable from the empty one and every colour `c`, as long as the palette after the
call has at most 2^31 entries (indices are `int`): the colour sequence before
`getOrCreate c` is a prefix of the one after; it is unchanged when the quantized key of
`c` was present; otherwise it grows by exactly the entry `c`, stored at the returned
index, which equals the old size; and for every earlier call `getOrCreate c0` the index
it returned is a valid position that still holds the colour it held right after that
call (a colour with the key of `c0`), and `getOrCreate` returns that index again, for
`c0` and for the stored colour. -/
theorem palette_append_only_stable (cs : List RGBA) (c : RGBA)
    (hsize : ((MaterialRegistry.empty.afterCalls cs).getOrCreate c).2.mats.length ≤ 2 ^ 31) :
    (MaterialRegistry.empty.afterCalls cs).mats <+:
        ((MaterialRegistry.empty.afterCalls cs).getOrCreate c).2.mats ∧
    (pack c ∈ (MaterialRegistry.empty.afterCalls cs).keys →
      ((MaterialRegistry.empty.afterCalls cs).getOrCreate c).2.mats =
        (MaterialRegistry.empty.afterCalls cs).mats) ∧
    (pack c ∉ (MaterialRegistry.empty.afterCalls cs).keys →
      ((MaterialRegistry.empty.afterCalls cs).getOrCreate c).2.mats =
        (MaterialRegistry.empty.afterCalls cs).mats ++ [c] ∧
      ((MaterialRegistry.empty.afterCalls cs).getOrCreate c).1 =
        ((MaterialRegistry.empty.afterCalls cs).mats.length : Int) ∧
      ((MaterialRegistry.empty.afterCalls cs).getOrCreate c).2.mats[
        (MaterialRegistry.empty.afterCalls cs).mats.length]? = some c) ∧
    (∀ (pre post : List RGBA) (c0 : RGBA), cs = pre ++ c0 :: post →
      0 ≤ ((MaterialRegistry.empty.afterCalls pre).getOrCreate c0).1 ∧
      (∃ m, pack m = pack c0 ∧
        ((MaterialRegistry.empty.afterCalls pre).getOrCreate c0).2.mats[
          ((MaterialRegistry.empty.afterCalls pre).getOrCreate c0).1.toNat]? = some m ∧
        ((MaterialRegistry.empty.afterCalls cs).getOrCreate c).2.mats[
          ((MaterialRegistry.empty.afterCalls pre).getOrCreate c0).1.toNat]? = some m ∧
        (((MaterialRegistry.empty.afterCalls cs).getOrCreate c).2.getOrCreate m).1 =
          ((MaterialRegistry.empty.afterCalls pre).getOrCreate c0).1) ∧
      (((MaterialRegistry.empty.afterCalls cs).getOrCreate c).2.getOrCreate c0).1 =
        ((MaterialRegistry.empty.afterCalls pre).getOrCreate c0).1) := by
  have h0 : RegInv (MaterialRegistry.empty.afterCalls cs) := regInv_afterCalls regInv_empty cs
  have hm := getOrCreate_mats h0 c
  refine ⟨mats_prefix_getOrCreate _ c, ?_, ?_, ?_⟩
  · intro hk
    rw [hm, if_pos hk]
  · intro hk
    rw [if_neg hk] at hm
    rw [hm] at hsize
    simp only [List.length_append, List.length_singleton] at hsize
    refine ⟨hm, ?_, ?_⟩
    · rw [getOrCreate_fst h0, List.indexOf_eq_length.mpr hk]
      unfold MaterialRegistry.keys
      rw [List.length_map]
      exact toInt32_of_lt (by omega)
    · rw [hm]
      simp
  · intro pre post c0 hcs
    have hp : RegInv (MaterialRegistry.empty.afterCalls pre) :=
      regInv_afterCalls regInv_empty pre
    have h1 := regInv_getOrCreate hp c0
    have hmem := regInv_mem_after hp c0
    have hidx := List.indexOf_lt_length.mpr hmem
    -- the registry right after the earlier call is a prefix of the final one
    have hpre : ((MaterialRegistry.empty.afterCalls pre).getOrCreate c0).2.mats <+:
        ((MaterialRegistry.empty.afterCalls cs).getOrCreate c).2.mats := by
      have := mats_prefix_afterCalls
        ((MaterialRegistry.empty.afterCalls pre).getOrCreate c0).2 post
      rw [← afterCalls_split, ← hcs] at this
      exact this.trans (mats_prefix_getOrCreate _ c)
    have hlen := hpre.length_le
    have hklen : ((MaterialRegistry.empty.afterCalls pre).getOrCreate c0).2.keys.length =
        ((MaterialRegistry.empty.afterCalls pre).getOrCreate c0).2.mats.length := by
      unfold MaterialRegistry.keys
      rw [List.length_map]
    have hfst : ((MaterialRegistry.empty.afterCalls pre).getOrCreate c0).1 =
        ((((MaterialRegistry.empty.afterCalls pre).getOrCreate c0).2.keys.indexOf
          (pack c0) : Nat) : Int) := by
      rw [getOrCreate_fst hp, ← regInv_indexOf_after hp c0]
      exact toInt32_of_lt (by omega)
    have hagain : (((MaterialRegistry.empty.afterCalls cs).getOrCreate c).2.getOrCreate c0).1 =
        ((MaterialRegistry.empty.afterCalls pre).getOrCreate c0).1 := by
      have h2 := regInv_getOrCreate h0 c
      rw [getOrCreate_fst h2, getOrCreate_fst hp, ← regInv_indexOf_after hp c0]
      congr 1
      exact indexOf_of_initial (hpre.map pack) hmem
    refine ⟨?_, ?_, hagain⟩
    · rw [hfst]
      exact Int.natCast_nonneg _
    · obtain ⟨m, hm1, hm2⟩ :=
        keys_getElem? ((MaterialRegistry.empty.afterCalls pre).getOrCreate c0).2 hmem
      refine ⟨m, hm2, ?_, ?_, ?_⟩
      · rw [hfst, Int.toNat_natCast]
        exact hm1
      · rw [hfst, Int.toNat_natCast, getElem?_of_initial hpre (by omega)]
        exact hm1
      · rw [← hagain, getOrCreate_fst (regInv_getOrCreate h0 c),
          getOrCreate_fst (regInv_getOrCreate h0 c), hm2]

/-- Witness for `palette_append_only_stable`: two earlier calls, then a new colour. -/
theorem palette_append_only_stable_witness :
    ((MaterialRegistry.empty.afterCalls [⟨1, 1, 1, 1⟩, ⟨0, 0, 0, 1⟩]).getOrCreate
        ⟨1, 0, 0, 1⟩).2.mats.length ≤ 2 ^ 31 ∧
    (MaterialRegistry.empty.afterCalls [⟨1, 1, 1, 1⟩, ⟨0, 0, 0, 1⟩]).mats <+:
      ((MaterialRegistry.empty.afterCalls [⟨1, 1, 1, 1⟩, ⟨0, 0, 0, 1⟩]).getOrCreate
        ⟨1, 0, 0, 1⟩).2.mats :=
  have hsize : ((MaterialRegistry.empty.afterCalls [⟨1, 1, 1, 1⟩, ⟨0, 0, 0, 1⟩]).getOrCreate
      ⟨1, 0, 0, 1⟩).2.mats.length ≤ 2 ^ 31 :=
    le_trans (getOrCreate_length_le _ _)
      (le_trans (Nat.succ_le_succ (afterCalls_length_le _ _)) (by decide))
  ⟨hsize, (palette_append_only_stable [⟨1, 1, 1, 1⟩, ⟨0, 0, 0, 1⟩] ⟨1, 0, 0, 1⟩ hsize).1⟩

/-! ## Theorems: `GlbBuilder::addBuckets` -/

theorem wrapInt32_of_range {z : Int} (h0 : 0 ≤ z) (h1 : z < 2 ^ 31) : wrapInt32 z = z := by
  unfold wrapInt32
  have : z % 2 ^ 32 = z := Int.emod_eq_of_lt h0 (by omega)
  rw [this, if_pos h1]

theorem addTri_foldl (matBase : Int) (tris acc : List TriBucket) :
    tris.foldl (addTriStep matBase) acc =
      acc ++ (nonEmptyTris tris).map
        (fun b => b.withMaterial (remapMaterial matBase b.materialIndex)) := by
  induction tris generalizing acc with
  | nil => simp [nonEmptyTris]
  | cons b tris ih =>
    rw [List.foldl_cons, ih]
    unfold addTriStep nonEmptyTris
    by_cases hb : b.vertices.isEmpty = true
    · simp [hb, nonEmptyTris]
    · simp [hb, nonEmptyTris, TriBucket.withMaterial]

theorem addEdge_foldl (matBase : Int) (edges acc : List EdgeBucket) :
    edges.foldl (addEdgeStep matBase) acc =
      acc ++ (nonEmptyEdges edges).map
        (fun e => e.withMaterial (remapMaterial matBase e.materialIndex)) := by
  induction edges generalizing acc with
  | nil => simp [nonEmptyEdges]
  | cons e edges ih =>
    rw [List.foldl_cons, ih]
    unfold addEdgeStep nonEmptyEdges
    by_cases he : e.vertices.isEmpty = true
    · simp [he, nonEmptyEdges]
    · simp [he, nonEmptyEdges, EdgeBucket.withMaterial]

theorem afterCalls_materials (g : GlbBuilder) (calls : List AddCall) :
    (g.afterCalls calls).m_materials = g.m_materials ++ calls.flatMap (fun c => c.materials) := by
  induction calls generalizing g with
  | nil => simp [GlbBuilder.afterCalls]
  | cons c calls ih =>
    unfold GlbBuilder.afterCalls
    rw [List.foldl_cons]
    have := ih (g.addBuckets c.tris c.edges c.materials)
    unfold GlbBuilder.afterCalls at this
    rw [this]
    simp [GlbBuilder.addBuckets]

theorem afterCalls_tris_extends (g : GlbBuilder) (calls : List AddCall) :
    g.m_triBuckets <+: (g.afterCalls calls).m_triBuckets := by
  induction calls generalizing g with
  | nil => exact List.prefix_refl _
  | cons c calls ih =>
    unfold GlbBuilder.afterCalls
    rw [List.foldl_cons]
    have h1 := ih (g.addBuckets c.tris c.edges c.materials)
    unfold GlbBuilder.afterCalls at h1
    refine List.IsPrefix.trans ?_ h1
    simp only [GlbBuilder.addBuckets, addTri_foldl]
    exact List.prefix_append _ _

theorem afterCalls_edges_extends (g : GlbBuilder) (calls : List AddCall) :
    g.m_edgeBuckets <+: (g.afterCalls calls).m_edgeBuckets := by
  induction calls generalizing g with
  | nil => exact List.prefix_refl _
  | cons c calls ih =>
    unfold GlbBuilder.afterCalls
    rw [List.foldl_cons]
    have h1 := ih (g.addBuckets c.tris c.edges c.materials)
    unfold GlbBuilder.afterCalls at h1
    refine List.IsPrefix.trans ?_ h1
    simp only [GlbBuilder.addBuckets, addEdge_foldl]
    exact List.prefix_append _ _

/-- C4. After any sequence of `addBuckets` calls on a fresh builder the palette is the
concatenation, in call order, of the `materials` arguments; after two calls it is the
first palette followed by the second, so its size is the sum of the two sizes and no
entry of the first call is overwritten or merged with one of the second. -/
theorem addBuckets_palette_is_concatenation (calls : List AddCall)
    (t1 t2 : List TriBucket) (e1 e2 : List EdgeBucket) (m1 m2 : List RGBA) :
    ((({} : GlbBuilder).afterCalls calls).m_materials =
      calls.flatMap (fun c => c.materials)) ∧
    ((({} : GlbBuilder).addBuckets t1 e1 m1).addBuckets t2 e2 m2).m_materials = m1 ++ m2 ∧
    ((({} : GlbBuilder).addBuckets t1 e1 m1).addBuckets t2 e2 m2).m_materials.length =
      m1.length + m2.length ∧
    (∀ i, i < m1.length →
      ((({} : GlbBuilder).addBuckets t1 e1 m1).addBuckets t2 e2 m2).m_materials[i]? = m1[i]?) ∧
    (∀ i, i < m2.length →
      ((({} : GlbBuilder).addBuckets t1 e1 m1).addBuckets t2 e2 m2).m_materials[m1.length + i]?
        = m2[i]?) := by
  have h2 : ((({} : GlbBuilder).addBuckets t1 e1 m1).addBuckets t2 e2 m2).m_materials
      = m1 ++ m2 := by
    simp [GlbBuilder.addBuckets]
  refine ⟨?_, h2, ?_, ?_, ?_⟩
  · rw [afterCalls_materials]
    simp
  · rw [h2, List.length_append]
  · intro i hi
    rw [h2, List.getElem?_append_left hi]
  · intro i _
    rw [h2, List.getElem?_append_right (Nat.le_add_right _ _)]
    simp

theorem mem_nonEmptyTris {tris : List TriBucket} {b : TriBucket} (hb : b ∈ tris)
    (hv : b.vertices ≠ []) : b ∈ nonEmptyTris tris := by
  unfold nonEmptyTris
  rw [List.mem_filter]
  refine ⟨hb, ?_⟩
  cases hvs : b.vertices with
  | nil => exact absurd hvs hv
  | cons v vs => rfl

theorem mem_nonEmptyEdges {edges : List EdgeBucket} {e : EdgeBucket} (he : e ∈ edges)
    (hv : e.vertices ≠ []) : e ∈ nonEmptyEdges edges := by
  unfold nonEmptyEdges
  rw [List.mem_filter]
  refine ⟨he, ?_⟩
  cases hvs : e.vertices with
  | nil => exact absurd hvs hv
  | cons v vs => rfl

theorem remapMaterial_valid {base n : Nat} {i : Int} (hsize : base + n ≤ 2 ^ 31)
    (h0 : 0 ≤ i) (h1 : i < n) : remapMaterial (toInt32 base) i = i + base := by
  unfold remapMaterial
  rw [if_pos (by omega), toInt32_of_lt (by omega)]
  exact wrapInt32_of_range (by omega) (by omega)

theorem palette_lookup_after (g : GlbBuilder) (tris : List TriBucket)
    (edges : List EdgeBucket) (materials : List RGBA) (later : List AddCall) {i : Int}
    (h0 : 0 ≤ i) (h1 : i < materials.length) :
    ((g.addBuckets tris edges materials).afterCalls later).m_materials[
        (i + g.m_materials.length).toNat]? = materials[i.toNat]? := by
  rw [afterCalls_materials]
  have e1 : (g.addBuckets tris edges materials).m_materials = g.m_materials ++ materials := rfl
  have e2 : (i + (g.m_materials.length : Int)).toNat = g.m_materials.length + i.toNat := by
    omega
  rw [e1, e2, List.append_assoc, List.getElem?_append_right (Nat.le_add_right _ _),
    Nat.add_sub_cancel_left, List.getElem?_append_left (by omega)]

/-- C5. For every `addBuckets tris edges materials` call whose resulting palette has at
most 2^31 entries (material references are `int`), and every incoming triangle or edge
bucket with at least one vertex whose material reference `i` satisfies
`0 ≤ i < materials.size`: the builder stores that bucket with material reference
`j = i + (palette size before the call)`, and the builder palette at `j` is
`materials[i]`; both facts still hold after any sequence of later `addBuckets` calls. -/
theorem addBuckets_material_reference_resolves (g : GlbBuilder) (tris : List TriBucket)
    (edges : List EdgeBucket) (materials : List RGBA) (later : List AddCall)
    (hsize : g.m_materials.length + materials.length ≤ 2 ^ 31) :
    (∀ b ∈ tris, b.vertices ≠ [] → 0 ≤ b.materialIndex →
      b.materialIndex < materials.length →
      b.withMaterial (b.materialIndex + g.m_materials.length) ∈
        ((g.addBuckets tris edges materials).afterCalls later).m_triBuckets ∧
      (∃ m, materials[b.materialIndex.toNat]? = some m ∧
        ((g.addBuckets tris edges materials).afterCalls later).m_materials[
          (b.materialIndex + g.m_materials.length).toNat]? = some m)) ∧
    (∀ e ∈ edges, e.vertices ≠ [] → 0 ≤ e.materialIndex →
      e.materialIndex < materials.length →
      e.withMaterial (e.materialIndex + g.m_materials.length) ∈
        ((g.addBuckets tris edges materials).afterCalls later).m_edgeBuckets ∧
      (∃ m, materials[e.materialIndex.toNat]? = some m ∧
        ((g.addBuckets tris edges materials).afterCalls later).m_materials[
          (e.materialIndex + g.m_materials.length).toNat]? = some m)) := by
  constructor
  · intro b hb hv h0 h1
    constructor
    · apply (afterCalls_tris_extends _ later).subset
      simp only [GlbBuilder.addBuckets, addTri_foldl]
      apply List.mem_append_right
      rw [List.mem_map]
      exact ⟨b, mem_nonEmptyTris hb hv, by rw [remapMaterial_valid hsize h0 h1]⟩
    · have hlt : b.materialIndex.toNat < materials.length := by omega
      refine ⟨materials[b.materialIndex.toNat], List.getElem?_eq_getElem hlt, ?_⟩
      rw [palette_lookup_after g tris edges materials later h0 h1]
      exact List.getElem?_eq_getElem hlt
  · intro e he hv h0 h1
    constructor
    · apply (afterCalls_edges_extends _ later).subset
      simp only [GlbBuilder.addBuckets, addEdge_foldl]
      apply List.mem_append_right
      rw [List.mem_map]
      exact ⟨e, mem_nonEmptyEdges he hv, by rw [remapMaterial_valid hsize h0 h1]⟩
    · have hlt : e.materialIndex.toNat < materials.length := by omega
      refine ⟨materials[e.materialIndex.toNat], List.getElem?_eq_getElem hlt, ?_⟩
      rw [palette_lookup_after g tris edges materials later h0 h1]
      exact List.getElem?_eq_getElem hlt

/-- Witness for `addBuckets_material_reference_resolves`: a second call on a builder
that already holds two materials, followed by a third call. -/
theorem addBuckets_material_reference_resolves_witness :
    (({} : GlbBuilder).afterCalls [sampleCall]).m_materials.length + 2 ≤ 2 ^ 31 ∧
    sampleTri.withMaterial (0 + 2) ∈
      (((({} : GlbBuilder).afterCalls [sampleCall]).addBuckets [sampleTri] [sampleEdge]
        [⟨0, 1, 0, 1⟩, ⟨0, 0, 1, 1⟩]).afterCalls [sampleCall]).m_triBuckets :=
  ⟨by decide,
    ((addBuckets_material_reference_resolves (({} : GlbBuilder).afterCalls [sampleCall])
      [sampleTri] [sampleEdge] [⟨0, 1, 0, 1⟩, ⟨0, 0, 1, 1⟩] [sampleCall] (by decide)).1
      sampleTri (List.mem_singleton.mpr rfl) (by simp [sampleTri]) (by decide)
      (by decide)).1⟩

/-- C6. `addBuckets` only appends. The palette after the call is the old palette
followed by `materials`; the stored triangle (edge) buckets are the old ones, unchanged
and in the same order, followed by one bucket for each incoming bucket that has at
least one vertex, in incoming order, with the vertex, normal and index arrays of that
incoming bucket; incoming buckets without vertices add nothing. -/
theorem addBuckets_only_appends (g : GlbBuilder) (tris : List TriBucket)
    (edges : List EdgeBucket) (materials : List RGBA) :
    (g.addBuckets tris edges materials).m_materials = g.m_materials ++ materials ∧
    (∃ newTris, (g.addBuckets tris edges materials).m_triBuckets = g.m_triBuckets ++ newTris ∧
      newTris.map TriBucket.geometry = (nonEmptyTris tris).map TriBucket.geometry) ∧
    (∃ newEdges,
      (g.addBuckets tris edges materials).m_edgeBuckets = g.m_edgeBuckets ++ newEdges ∧
      newEdges.map EdgeBucket.geometry = (nonEmptyEdges edges).map EdgeBucket.geometry) ∧
    ((∀ b ∈ tris, b.vertices = []) →
      (g.addBuckets tris edges materials).m_triBuckets = g.m_triBuckets) ∧
    ((∀ e ∈ edges, e.vertices = []) →
      (g.addBuckets tris edges materials).m_edgeBuckets = g.m_edgeBuckets) := by
  have ht : ∀ (l : List TriBucket), (∀ b ∈ l, b.vertices = []) → nonEmptyTris l = [] := by
    intro l hl
    unfold nonEmptyTris
    rw [List.filter_eq_nil_iff]
    intro b hb
    simp [hl b hb]
  have he : ∀ (l : List EdgeBucket), (∀ e ∈ l, e.vertices = []) → nonEmptyEdges l = [] := by
    intro l hl
    unfold nonEmptyEdges
    rw [List.filter_eq_nil_iff]
    intro e hb
    simp [hl e hb]
  refine ⟨rfl, ⟨_, addTri_foldl _ tris g.m_triBuckets, ?_⟩,
    ⟨_, addEdge_foldl _ edges g.m_edgeBuckets, ?_⟩, ?_, ?_⟩
  · rw [List.map_map]
    rfl
  · rw [List.map_map]
    rfl
  · intro h
    show tris.foldl _ g.m_triBuckets = _
    rw [addTri_foldl, ht tris h]
    simp
  · intro h
    show edges.foldl _ g.m_edgeBuckets = _
    rw [addEdge_foldl, he edges h]
    simp

/-! ## Theorems: `GlbBuilder::writeGlb` -/

theorem afterCalls_tris_nil_iff (g : GlbBuilder) (calls : List AddCall) :
    (g.afterCalls calls).m_triBuckets = [] ↔
      g.m_triBuckets = [] ∧ ∀ c ∈ calls, ∀ b ∈ c.tris, b.vertices = [] := by
  induction calls generalizing g with
  | nil => simp [GlbBuilder.afterCalls]
  | cons c calls ih =>
    have h1 := ih (g.addBuckets c.tris c.edges c.materials)
    unfold GlbBuilder.afterCalls at h1 ⊢
    rw [List.foldl_cons, h1]
    simp only [GlbBuilder.addBuckets, addTri_foldl, List.append_eq_nil, List.map_eq_nil_iff,
      List.mem_cons, forall_eq_or_imp]
    have h2 : nonEmptyTris c.tris = [] ↔ ∀ b ∈ c.tris, b.vertices = [] := by
      unfold nonEmptyTris
      rw [List.filter_eq_nil_iff]
      constructor
      · intro hx b hb
        have := hx b hb
        cases hv : b.vertices with
        | nil => rfl
        | cons v vs => simp [hv] at this
      · intro hx b hb
        simp [hx b hb]
    rw [h2]
    tauto

theorem afterCalls_edges_nil_iff (g : GlbBuilder) (calls : List AddCall) :
    (g.afterCalls calls).m_edgeBuckets = [] ↔
      g.m_edgeBuckets = [] ∧ ∀ c ∈ calls, ∀ e ∈ c.edges, e.vertices = [] := by
  induction calls generalizing g with
  | nil => simp [GlbBuilder.afterCalls]
  | cons c calls ih =>
    have h1 := ih (g.addBuckets c.tris c.edges c.materials)
    unfold GlbBuilder.afterCalls at h1 ⊢
    rw [List.foldl_cons, h1]
    simp only [GlbBuilder.addBuckets, addEdge_foldl, List.append_eq_nil, List.map_eq_nil_iff,
      List.mem_cons, forall_eq_or_imp]
    have h2 : nonEmptyEdges c.edges = [] ↔ ∀ e ∈ c.edges, e.vertices = [] := by
      unfold nonEmptyEdges
      rw [List.filter_eq_nil_iff]
      constructor
      · intro hx e he
        have := hx e he
        cases hv : e.vertices with
        | nil => rfl
        | cons v vs => simp [hv] at this
      · intro hx e he
        simp [hx e he]
    rw [h2]
    tauto

/-- C7. `writeGlb` returns failure exactly when both running bucket lists are empty or
the destination path cannot be opened; on failure no file is written and the
statistics record of the caller is unchanged; in every other case it returns success,
writes the container and assigns the statistics. For a builder filled by `addBuckets`
calls, both lists are empty exactly when no call supplied a bucket with a vertex. -/
theorem writeGlb_fails_iff (g : GlbBuilder) (h : Host) (filename : String)
    (printStats : Bool) (outStats : ExportStats) (calls : List AddCall) :
    ((g.writeGlb h filename printStats outStats).ok = false ↔
      (g.m_triBuckets = [] ∧ g.m_edgeBuckets = []) ∨ h.canOpen filename = false) ∧
    ((g.writeGlb h filename printStats outStats).ok = false →
      (g.writeGlb h filename printStats outStats).file = none ∧
      (g.writeGlb h filename printStats outStats).outStats = outStats) ∧
    (¬ ((g.m_triBuckets = [] ∧ g.m_edgeBuckets = []) ∨ h.canOpen filename = false) →
      (g.writeGlb h filename printStats outStats).ok = true ∧
      (g.writeGlb h filename printStats outStats).file = some (glbBytes h g) ∧
      (g.writeGlb h filename printStats outStats).outStats = computeStats h g) ∧
    (((({} : GlbBuilder).afterCalls calls).m_triBuckets = [] ∧
        (({} : GlbBuilder).afterCalls calls).m_edgeBuckets = []) ↔
      ∀ c ∈ calls, (∀ b ∈ c.tris, b.vertices = []) ∧ (∀ e ∈ c.edges, e.vertices = [])) := by
  have hempty : (g.m_triBuckets.isEmpty && g.m_edgeBuckets.isEmpty) = true ↔
      (g.m_triBuckets = [] ∧ g.m_edgeBuckets = []) := by
    simp [List.isEmpty_iff]
  refine ⟨?_, ?_, ?_, ?_⟩
  · unfold GlbBuilder.writeGlb
    by_cases h1 : (g.m_triBuckets.isEmpty && g.m_edgeBuckets.isEmpty) = true
    · simp only [h1, if_true, true_iff]
      exact Or.inl (hempty.mp h1)
    · by_cases h2 : h.canOpen filename = true
      · simp only [h1, h2, Bool.not_true, if_false]
        rw [hempty] at h1
        simp [h1]
      · simp only [Bool.not_eq_true] at h2
        simp [h1, h2]
  · unfold GlbBuilder.writeGlb
    by_cases h1 : (g.m_triBuckets.isEmpty && g.m_edgeBuckets.isEmpty) = true
    · simp [h1]
    · by_cases h2 : h.canOpen filename = true
      · simp [h1, h2]
      · simp only [Bool.not_eq_true] at h2
        simp [h1, h2]
  · intro hn
    rw [not_or] at hn
    have h1 : ¬ (g.m_triBuckets.isEmpty && g.m_edgeBuckets.isEmpty) = true :=
      fun hx => hn.1 (hempty.mp hx)
    have h2 : h.canOpen filename = true := by
      cases hc : h.canOpen filename with
      | true => rfl
      | false => exact absurd hc hn.2
    unfold GlbBuilder.writeGlb
    simp [h1, h2]
  · rw [afterCalls_tris_nil_iff, afterCalls_edges_nil_iff]
    constructor
    · rintro ⟨⟨_, ht⟩, _, he⟩ c hc
      exact ⟨ht c hc, he c hc⟩
    · intro hx
      exact ⟨⟨rfl, fun c hc => (hx c hc).1⟩, rfl, fun c hc => (hx c hc).2⟩

theorem u32Bytes_length (n : Nat) : (u32Bytes n).length = 4 := rfl

theorem resize_length {α : Type} (l : List α) (n : Nat) (fill : α) :
    (resize l n fill).length = n := by
  unfold resize
  rw [List.length_append, List.length_take, List.length_replicate]
  omega

theorem readU32_at (pre post : List Nat) (n off : Nat) (hoff : off = pre.length)
    (hn : n < 2 ^ 32) : readU32 (pre ++ (u32Bytes n ++ post)) off = n := by
  subst hoff
  unfold readU32
  rw [List.drop_left]
  simp only [u32Bytes, List.cons_append, List.nil_append]
  omega

theorem paddedJson_length (h : Host) (g : GlbBuilder) :
    (paddedJson h g).length = jsonLenPadded h g := resize_length _ _ _

theorem paddedBin_length (h : Host) (g : GlbBuilder) :
    (paddedBin h g).length = pad4 (serialize h g).bin.length := resize_length _ _ _

theorem writeGlb_of_ok {g : GlbBuilder} {h : Host} {filename : String} {printStats : Bool}
    {outStats : ExportStats} (hok : (g.writeGlb h filename printStats outStats).ok = true) :
    (g.writeGlb h filename printStats outStats).file = some (glbBytes h g) ∧
    (g.writeGlb h filename printStats outStats).outStats = computeStats h g := by
  unfold GlbBuilder.writeGlb at hok ⊢
  by_cases h1 : (g.m_triBuckets.isEmpty && g.m_edgeBuckets.isEmpty) = true
  · simp [h1] at hok
  · by_cases h2 : h.canOpen filename = true
    · simp [h1, h2]
    · simp only [Bool.not_eq_true] at h2
      simp [h1, h2] at hok

theorem glbBytes_eq (h : Host) (g : GlbBuilder)
    (hsize : 12 + 8 + jsonLenPadded h g + 8 + (paddedBin h g).length < 2 ^ 32) :
    glbBytes h g =
      u32Bytes glbMagic ++ (u32Bytes glbVersion ++
        (u32Bytes (12 + 8 + jsonLenPadded h g + 8 + (paddedBin h g).length) ++
        (u32Bytes (jsonLenPadded h g) ++ (u32Bytes jsonChunkType ++
        ((paddedJson h g).map Char.toNat ++ (u32Bytes (paddedBin h g).length ++
        (u32Bytes binChunkType ++ paddedBin h g))))))) := by
  have ht : totalLen h g = 12 + 8 + jsonLenPadded h g + 8 + (paddedBin h g).length := by
    unfold totalLen toUInt32
    omega
  have hj : toUInt32 (jsonLenPadded h g) = jsonLenPadded h g := by
    unfold toUInt32
    omega
  have hb : binChunkLen h g = (paddedBin h g).length := by
    unfold binChunkLen toUInt32
    omega
  have htake : (paddedJson h g).take (jsonLenPadded h g) = paddedJson h g :=
    List.take_of_length_le (le_of_eq (paddedJson_length h g))
  have hif : (if (paddedBin h g).length ≠ 0 then paddedBin h g else []) = paddedBin h g := by
    by_cases hz : (paddedBin h g).length = 0
    · rw [if_neg (not_not.mpr hz)]
      exact (List.length_eq_zero.mp hz).symm
    · rw [if_pos hz]
  unfold glbBytes
  rw [ht, hj, hb, htake, hif]
  simp only [List.append_assoc]

/-- C8. Whenever `writeGlb` succeeds and the container size `12 + 8 + J + 8 + B` is
below 2^32, where `J = pad4 (JSON text length)` is the padded JSON length and
`B = pad4 (payload length)` the padded binary length: the bytes written are the 12-byte
header, the 8-byte JSON chunk header, the `J` padded JSON bytes, the 8-byte binary
chunk header and the `B` padded payload bytes, `12 + 8 + J + 8 + B` bytes in all; the
header field `totalLength` and the statistics field `totalBytes` hold exactly that
number; the binary chunk header (length `B`, type BIN) is present at offset `20 + J`
whatever `B` is, also when `B = 0`. -/
theorem writeGlb_container_length (g : GlbBuilder) (h : Host) (filename : String)
    (printStats : Bool) (outStats : ExportStats)
    (hok : (g.writeGlb h filename printStats outStats).ok = true)
    (hsize : 12 + 8 + jsonLenPadded h g + 8 + (paddedBin h g).length < 2 ^ 32) :
    jsonLenPadded h g = pad4 (jsonText h g).length ∧
    (paddedJson h g).length = jsonLenPadded h g ∧
    (paddedBin h g).length = pad4 (serialize h g).bin.length ∧
    ∃ bytes, (g.writeGlb h filename printStats outStats).file = some bytes ∧
      bytes = u32Bytes glbMagic ++ (u32Bytes glbVersion ++
        (u32Bytes (12 + 8 + jsonLenPadded h g + 8 + (paddedBin h g).length) ++
        (u32Bytes (jsonLenPadded h g) ++ (u32Bytes jsonChunkType ++
        ((paddedJson h g).map Char.toNat ++ (u32Bytes (paddedBin h g).length ++
        (u32Bytes binChunkType ++ paddedBin h g))))))) ∧
      bytes.length = 12 + 8 + jsonLenPadded h g + 8 + (paddedBin h g).length ∧
      readU32 bytes 8 = 12 + 8 + jsonLenPadded h g + 8 + (paddedBin h g).length ∧
      readU32 bytes 12 = jsonLenPadded h g ∧
      readU32 bytes 16 = jsonChunkType ∧
      readU32 bytes (20 + jsonLenPadded h g) = (paddedBin h g).length ∧
      readU32 bytes (24 + jsonLenPadded h g) = binChunkType ∧
      (g.writeGlb h filename printStats outStats).outStats.totalBytes =
        12 + 8 + jsonLenPadded h g + 8 + (paddedBin h g).length ∧
      (g.writeGlb h filename printStats outStats).outStats.jsonBytes = jsonLenPadded h g ∧
      (g.writeGlb h filename printStats outStats).outStats.bufferBytes =
        (paddedBin h g).length := by
  obtain ⟨hfile, hstats⟩ := writeGlb_of_ok hok
  have hJ := paddedJson_length h g
  have ht : totalLen h g = 12 + 8 + jsonLenPadded h g + 8 + (paddedBin h g).length := by
    unfold totalLen toUInt32
    omega
  refine ⟨rfl, hJ, paddedBin_length h g, _, hfile, glbBytes_eq h g hsize, ?_, ?_, ?_, ?_, ?_,
    ?_, ?_, ?_, ?_⟩
  · rw [glbBytes_eq h g hsize]
    simp only [List.length_append, u32Bytes_length, List.length_map, hJ]
    omega
  · rw [glbBytes_eq h g hsize, ← List.append_assoc]
    exact readU32_at _ _ _ _ rfl hsize
  · rw [glbBytes_eq h g hsize, ← List.append_assoc, ← List.append_assoc]
    exact readU32_at _ _ _ _ rfl (by omega)
  · rw [glbBytes_eq h g hsize, ← List.append_assoc, ← List.append_assoc, ← List.append_assoc]
    exact readU32_at _ _ _ _ rfl (by decide)
  · rw [glbBytes_eq h g hsize, ← List.append_assoc, ← List.append_assoc, ← List.append_assoc,
      ← List.append_assoc, ← List.append_assoc]
    refine readU32_at _ _ _ _ ?_ (by omega)
    simp only [List.length_append, u32Bytes_length, List.length_map, hJ]
  · rw [glbBytes_eq h g hsize, ← List.append_assoc, ← List.append_assoc, ← List.append_assoc,
      ← List.append_assoc, ← List.append_assoc, ← List.append_assoc]
    refine readU32_at _ _ _ _ ?_ (by decide)
    simp only [List.length_append, u32Bytes_length, List.length_map, hJ]
    omega
  · rw [hstats]
    exact ht
  · rw [hstats]
    exact hJ
  · rw [hstats]
    rfl

set_option maxRecDepth 100000 in
/-- Witness for `writeGlb_container_length`: a builder whose only bucket has a vertex but
no index, so that the write succeeds with an empty payload (`B = 0`); the binary chunk
header is still read back at offset `20 + J`. -/
theorem writeGlb_container_length_witness :
    (sampleBuilderNoIndex.writeGlb sampleHost "out.glb" false {}).ok = true ∧
    12 + 8 + jsonLenPadded sampleHost sampleBuilderNoIndex + 8 +
      (paddedBin sampleHost sampleBuilderNoIndex).length < 2 ^ 32 ∧
    (paddedBin sampleHost sampleBuilderNoIndex).length = 0 ∧
    ∃ bytes, (sampleBuilderNoIndex.writeGlb sampleHost "out.glb" false {}).file = some bytes ∧
      bytes.length = 12 + 8 + jsonLenPadded sampleHost sampleBuilderNoIndex + 8 +
        (paddedBin sampleHost sampleBuilderNoIndex).length ∧
      readU32 bytes (20 + jsonLenPadded sampleHost sampleBuilderNoIndex) =
        (paddedBin sampleHost sampleBuilderNoIndex).length ∧
      readU32 bytes (24 + jsonLenPadded sampleHost sampleBuilderNoIndex) = binChunkType :=
  have hok : (sampleBuilderNoIndex.writeGlb sampleHost "out.glb" false {}).ok = true := by
    decide
  have hsize : 12 + 8 + jsonLenPadded sampleHost sampleBuilderNoIndex + 8 +
      (paddedBin sampleHost sampleBuilderNoIndex).length < 2 ^ 32 := by
    decide
  match writeGlb_container_length sampleBuilderNoIndex sampleHost "out.glb" false {} hok hsize
    with
  | ⟨_, _, _, bytes, hfile, _, hlen, _, _, _, hb, ht, _⟩ =>
    ⟨hok, hsize, by decide, bytes, hfile, hlen, hb, ht⟩

theorem verticesBytes_length (h : Host) (vs : List Vertex) :
    (verticesBytes h vs).length = vs.length * sizeofVertex := by
  induction vs with
  | nil => rfl
  | cons v vs ih =>
    unfold verticesBytes at ih ⊢
    rw [List.flatMap_cons, List.length_append, ih, List.length_cons]
    simp only [vertexBytes, Bytes4.toList, List.length_append, List.length_cons,
      List.length_nil, sizeofVertex]
    omega

theorem normalsBytes_length (h : Host) (ns : List Normal) :
    (normalsBytes h ns).length = ns.length * sizeofNormal := by
  induction ns with
  | nil => rfl
  | cons n ns ih =>
    unfold normalsBytes at ih ⊢
    rw [List.flatMap_cons, List.length_append, ih, List.length_cons]
    simp only [normalBytes, Bytes4.toList, List.length_append, List.length_cons,
      List.length_nil, sizeofNormal]
    omega

theorem indicesBytes_length (is : List Nat) :
    (indicesBytes is).length = is.length * sizeofUInt32 := by
  induction is with
  | nil => rfl
  | cons i is ih =>
    unfold indicesBytes at ih ⊢
    rw [List.flatMap_cons, List.length_append, ih, List.length_cons, u32Bytes_length]
    simp only [sizeofUInt32]
    omega

theorem triRegions_ok (h : Host) (b : TriBucket) : ∀ r ∈ triRegions h b, RegionOK r := by
  intro r hr
  simp only [triRegions, List.mem_cons, List.mem_singleton, List.not_mem_nil, or_false] at hr
  rcases hr with rfl | rfl | rfl
  · exact ⟨verticesBytes_length h _, Or.inl ⟨rfl, rfl, rfl, rfl⟩⟩
  · exact ⟨normalsBytes_length h _, Or.inl ⟨rfl, rfl, rfl, rfl⟩⟩
  · exact ⟨indicesBytes_length _, Or.inr ⟨rfl, rfl, rfl, rfl⟩⟩

theorem edgeRegions_ok (h : Host) (e : EdgeBucket) : ∀ r ∈ edgeRegions h e, RegionOK r := by
  intro r hr
  simp only [edgeRegions, List.mem_cons, List.mem_singleton, List.not_mem_nil, or_false] at hr
  rcases hr with rfl | rfl
  · exact ⟨verticesBytes_length h _, Or.inl ⟨rfl, rfl, rfl, rfl⟩⟩
  · exact ⟨indicesBytes_length _, Or.inr ⟨rfl, rfl, rfl, rfl⟩⟩

theorem take_full {l : List Nat} {n : Nat} (hl : l.length = n) : l.take n = l :=
  List.take_of_length_le (le_of_eq hl)

theorem triStep_extends (h : Host) (n : Nat) (st : Layout) (b : TriBucket)
    (hb : (b.vertices.isEmpty || b.indices.isEmpty) = false) :
    Extends st (triStep h n st b) (triRegions h b) := by
  unfold triStep
  rw [hb]
  simp only [Bool.false_eq_true, if_false, appendBin, take_full (verticesBytes_length h _),
    take_full (normalsBytes_length h _), take_full (indicesBytes_length _)]
  refine ⟨?_, ?_, ?_⟩
  · simp [triRegions, List.append_assoc]
  · simp [triRegions, layoutViews, viewOf, List.append_assoc, verticesBytes_length,
      normalsBytes_length, Nat.add_assoc]
  · simp [triRegions, layoutAccessors, accessorOf, List.append_assoc, Nat.add_assoc]

theorem edgeStep_extends (h : Host) (n : Nat) (st : Layout) (e : EdgeBucket)
    (he : (e.vertices.isEmpty || e.indices.isEmpty) = false) :
    Extends st (edgeStep h n st e) (edgeRegions h e) := by
  unfold edgeStep
  rw [he]
  simp only [Bool.false_eq_true, if_false, appendBin, take_full (verticesBytes_length h _),
    take_full (indicesBytes_length _)]
  refine ⟨?_, ?_, ?_⟩
  · simp [edgeRegions, List.append_assoc]
  · simp [edgeRegions, layoutViews, viewOf, List.append_assoc, verticesBytes_length,
      Nat.add_assoc]
  · simp [edgeRegions, layoutAccessors, accessorOf, List.append_assoc, Nat.add_assoc]

theorem totalBytes_nil : totalBytes [] = 0 := rfl

theorem totalBytes_cons (r : Region) (rs : List Region) :
    totalBytes (r :: rs) = r.bytes + totalBytes rs := by
  simp [totalBytes]

theorem totalBytes_append (rs ss : List Region) :
    totalBytes (rs ++ ss) = totalBytes rs + totalBytes ss := by
  simp [totalBytes]

theorem data_length_eq_totalBytes {rs : List Region} (hok : ∀ r ∈ rs, RegionOK r) :
    (rs.flatMap (fun r => r.data)).length = totalBytes rs := by
  induction rs with
  | nil => rfl
  | cons r rs ih =>
    rw [List.flatMap_cons, List.length_append, totalBytes_cons,
      ih (fun x hx => hok x (List.mem_cons_of_mem _ hx)),
      (hok r (List.mem_cons_self _ _)).1]

theorem layoutViews_length (off : Nat) (rs : List Region) :
    (layoutViews off rs).length = rs.length := by
  induction rs generalizing off with
  | nil => rfl
  | cons r rs ih => simp [layoutViews, ih]

theorem layoutAccessors_length (k : Nat) (rs : List Region) :
    (layoutAccessors k rs).length = rs.length := by
  induction rs generalizing k with
  | nil => rfl
  | cons r rs ih => simp [layoutAccessors, ih]

theorem layoutViews_append (off : Nat) (rs ss : List Region) :
    layoutViews off (rs ++ ss) = layoutViews off rs ++ layoutViews (off + totalBytes rs) ss := by
  induction rs generalizing off with
  | nil => simp [layoutViews, totalBytes_nil]
  | cons r rs ih =>
    show layoutViews off (r :: (rs ++ ss)) = layoutViews off (r :: rs) ++ _
    simp only [layoutViews, ih, totalBytes_cons, Nat.add_assoc, List.cons_append]

theorem layoutAccessors_append (k : Nat) (rs ss : List Region) :
    layoutAccessors k (rs ++ ss) =
      layoutAccessors k rs ++ layoutAccessors (k + rs.length) ss := by
  induction rs generalizing k with
  | nil => simp [layoutAccessors]
  | cons r rs ih =>
    show layoutAccessors k (r :: (rs ++ ss)) = layoutAccessors k (r :: rs) ++ _
    simp only [layoutAccessors, ih, List.length_cons, List.cons_append, Nat.add_assoc,
      Nat.add_comm 1]

theorem extends_nil (st : Layout) : Extends st st [] := by
  simp [Extends, layoutViews, layoutAccessors]

theorem extends_trans {st st1 st2 : Layout} {rs ss : List Region}
    (h1 : Extends st st1 rs) (h2 : Extends st1 st2 ss) (hok : ∀ r ∈ rs, RegionOK r) :
    Extends st st2 (rs ++ ss) := by
  obtain ⟨b1, v1, a1⟩ := h1
  obtain ⟨b2, v2, a2⟩ := h2
  refine ⟨?_, ?_, ?_⟩
  · rw [b2, b1, List.flatMap_append, List.append_assoc]
  · rw [v2, v1, b1, layoutViews_append, List.length_append, data_length_eq_totalBytes hok,
      List.append_assoc]
  · rw [a2, a1, v1, layoutAccessors_append, List.length_append, layoutViews_length,
      List.append_assoc]

theorem triLoop_extends (h : Host) (n : Nat) (tris : List TriBucket) (st : Layout) :
    Extends st (tris.foldl (triStep h n) st)
      ((tris.filter (fun b => !(b.vertices.isEmpty || b.indices.isEmpty))).flatMap
        (triRegions h)) := by
  induction tris generalizing st with
  | nil => exact extends_nil st
  | cons b tris ih =>
    rw [List.foldl_cons]
    cases hb : (b.vertices.isEmpty || b.indices.isEmpty) with
    | true =>
      have hs : triStep h n st b = st := by
        unfold triStep
        rw [hb, if_pos rfl]
      rw [hs, List.filter_cons_of_neg (by simp [hb])]
      exact ih st
    | false =>
      rw [List.filter_cons_of_pos (by simp [hb]), List.flatMap_cons]
      exact extends_trans (triStep_extends h n st b hb) (ih _) (triRegions_ok h b)

theorem edgeLoop_extends (h : Host) (n : Nat) (edges : List EdgeBucket) (st : Layout) :
    Extends st (edges.foldl (edgeStep h n) st)
      ((edges.filter (fun e => !(e.vertices.isEmpty || e.indices.isEmpty))).flatMap
        (edgeRegions h)) := by
  induction edges generalizing st with
  | nil => exact extends_nil st
  | cons e edges ih =>
    rw [List.foldl_cons]
    cases he : (e.vertices.isEmpty || e.indices.isEmpty) with
    | true =>
      have hs : edgeStep h n st e = st := by
        unfold edgeStep
        rw [he, if_pos rfl]
      rw [hs, List.filter_cons_of_neg (by simp [he])]
      exact ih st
    | false =>
      rw [List.filter_cons_of_pos (by simp [he]), List.flatMap_cons]
      exact extends_trans (edgeStep_extends h n st e he) (ih _) (edgeRegions_ok h e)

theorem flatMap_regions_ok {α : Type} (f : α → List Region) (l : List α)
    (hf : ∀ x, ∀ r ∈ f x, RegionOK r) : ∀ r ∈ l.flatMap f, RegionOK r := by
  intro r hr
  obtain ⟨x, _, hx⟩ := List.mem_flatMap.mp hr
  exact hf x r hx

theorem regions_ok (h : Host) (g : GlbBuilder) : ∀ r ∈ regions h g, RegionOK r := by
  intro r hr
  unfold regions at hr
  rcases List.mem_append.mp hr with h1 | h1
  · exact flatMap_regions_ok _ _ (triRegions_ok h) r h1
  · exact flatMap_regions_ok _ _ (edgeRegions_ok h) r h1

theorem serialize_extends (h : Host) (g : GlbBuilder) :
    (serialize h g).bin = (regions h g).flatMap (fun r => r.data) ∧
    (serialize h g).bufferViews = layoutViews 0 (regions h g) ∧
    (serialize h g).accessors = layoutAccessors 0 (regions h g) := by
  have h1 := triLoop_extends h g.m_materials.length g.m_triBuckets {}
  have h2 := edgeLoop_extends h g.m_materials.length g.m_edgeBuckets
    (g.m_triBuckets.foldl (triStep h g.m_materials.length) {})
  have h3 : Extends {} (serialize h g) (regions h g) :=
    extends_trans h1 h2 (flatMap_regions_ok _ _ (triRegions_ok h))
  obtain ⟨b, v, a⟩ := h3
  exact ⟨b, v, a⟩

theorem serialize_bin_length (h : Host) (g : GlbBuilder) :
    (serialize h g).bin.length = totalBytes (regions h g) := by
  rw [(serialize_extends h g).1]
  exact data_length_eq_totalBytes (regions_ok h g)

theorem layoutViews_getElem? (off : Nat) (rs : List Region) (j : Nat) :
    (layoutViews off rs)[j]? = (rs[j]?).map (viewOf (off + totalBytes (rs.take j))) := by
  induction rs generalizing off j with
  | nil => simp [layoutViews]
  | cons r rs ih =>
    cases j with
    | zero => simp [layoutViews, totalBytes_nil]
    | succ j =>
      simp only [layoutViews, List.getElem?_cons_succ, List.take_succ_cons, totalBytes_cons, ih,
        Nat.add_assoc]

theorem layoutAccessors_getElem? (k : Nat) (rs : List Region) (j : Nat) :
    (layoutAccessors k rs)[j]? = (rs[j]?).map (accessorOf (k + j)) := by
  induction rs generalizing k j with
  | nil => simp [layoutAccessors]
  | cons r rs ih =>
    cases j with
    | zero => simp [layoutAccessors]
    | succ j =>
      simp only [layoutAccessors, List.getElem?_cons_succ, ih]
      rw [Nat.add_assoc, Nat.add_comm 1]

theorem totalBytes_take_succ {rs : List Region} {j : Nat} {r : Region}
    (hr : rs[j]? = some r) :
    totalBytes (rs.take (j + 1)) = totalBytes (rs.take j) + r.bytes := by
  rw [List.take_succ, hr, totalBytes_append]
  simp [totalBytes]

theorem totalBytes_take_le (rs : List Region) (j : Nat) :
    totalBytes (rs.take j) ≤ totalBytes rs := by
  have h := totalBytes_append (rs.take j) (rs.drop j)
  rw [List.take_append_drop] at h
  omega

theorem totalBytes_take_mono (rs : List Region) {j k : Nat} (hjk : j ≤ k) :
    totalBytes (rs.take j) ≤ totalBytes (rs.take k) := by
  have h := totalBytes_take_le (rs.take k) j
  rw [List.take_take, Nat.min_eq_left hjk] at h
  exact h

theorem totalBytes_take_length (rs : List Region) :
    totalBytes (rs.take rs.length) = totalBytes rs := by
  rw [List.take_length]

theorem region_end_le {rs : List Region} {j : Nat} {r : Region} (hr : rs[j]? = some r) :
    totalBytes (rs.take j) + r.bytes ≤ totalBytes rs := by
  rw [← totalBytes_take_succ hr]
  exact totalBytes_take_le rs (j + 1)

theorem toUInt32_of_lt {n : Nat} (hn : n < 2 ^ 32) : toUInt32 n = n := by
  unfold toUInt32
  exact Nat.mod_eq_of_lt hn

theorem layoutViews_map_target (off : Nat) (rs : List Region) :
    (layoutViews off rs).map (fun v => v.target) = rs.map (fun r => r.target) := by
  induction rs generalizing off with
  | nil => rfl
  | cons r rs ih => simp [layoutViews, viewOf, ih]

theorem layoutViews_map_byteLength (off : Nat) (rs : List Region) :
    (layoutViews off rs).map (fun v => v.byteLength) = rs.map (fun r => toUInt32 r.bytes) := by
  induction rs generalizing off with
  | nil => rfl
  | cons r rs ih => simp [layoutViews, viewOf, ih]

theorem layoutAccessors_map_shape (k : Nat) (rs : List Region) :
    (layoutAccessors k rs).map (fun a => (a.componentType, a.type, a.count)) =
      rs.map (fun r => (r.componentType, r.type, toUInt32 r.count)) := by
  induction rs generalizing k with
  | nil => rfl
  | cons r rs ih => simp [layoutAccessors, accessorOf, ih]

theorem region_bytes_le {rs : List Region} {r : Region} (hr : r ∈ rs) :
    r.bytes ≤ totalBytes rs := by
  induction rs with
  | nil => cases hr
  | cons x rs ih =>
    rw [totalBytes_cons]
    rcases List.mem_cons.mp hr with rfl | hmem
    · omega
    · have := ih hmem
      omega

theorem region_count_le {r : Region} (hr : RegionOK r) : r.count ≤ r.bytes := by
  rcases hr.2 with ⟨_, _, hb, _⟩ | ⟨_, _, hb, _⟩ <;> omega

theorem tri_regions_count (h : Host) (tris : List TriBucket)
    (hne : ∀ b ∈ tris, (b.vertices.isEmpty || b.indices.isEmpty) = false) :
    16 * (tris.flatMap (triRegions h)).length ≤ 3 * totalBytes (tris.flatMap (triRegions h)) := by
  induction tris with
  | nil => simp [totalBytes]
  | cons b tris ih =>
    have hb := hne b (List.mem_cons_self _ _)
    have ih2 := ih (fun x hx => hne x (List.mem_cons_of_mem _ hx))
    rw [List.flatMap_cons, List.length_append, totalBytes_append]
    have hv : 1 ≤ b.vertices.length := by
      cases hvs : b.vertices with
      | nil => simp [hvs] at hb
      | cons v vs => simp
    have hi : 1 ≤ b.indices.length := by
      cases his : b.indices with
      | nil => simp [his] at hb
      | cons v vs => simp
    have e1 : (triRegions h b).length = 3 := rfl
    have e2 : totalBytes (triRegions h b) =
        b.vertices.length * 12 + (b.normals.length * 12 + (b.indices.length * 4 + 0)) := rfl
    omega

theorem edge_regions_count (h : Host) (edges : List EdgeBucket)
    (hne : ∀ e ∈ edges, (e.vertices.isEmpty || e.indices.isEmpty) = false) :
    16 * (edges.flatMap (edgeRegions h)).length ≤
      3 * totalBytes (edges.flatMap (edgeRegions h)) := by
  induction edges with
  | nil => simp [totalBytes]
  | cons e edges ih =>
    have he := hne e (List.mem_cons_self _ _)
    have ih2 := ih (fun x hx => hne x (List.mem_cons_of_mem _ hx))
    rw [List.flatMap_cons, List.length_append, totalBytes_append]
    have hv : 1 ≤ e.vertices.length := by
      cases hvs : e.vertices with
      | nil => simp [hvs] at he
      | cons v vs => simp
    have hi : 1 ≤ e.indices.length := by
      cases his : e.indices with
      | nil => simp [his] at he
      | cons v vs => simp
    have e1 : (edgeRegions h e).length = 2 := rfl
    have e2 : totalBytes (edgeRegions h e) =
        e.vertices.length * 12 + (e.indices.length * 4 + 0) := rfl
    omega

theorem regions_count (h : Host) (g : GlbBuilder) :
    16 * (regions h g).length ≤ 3 * totalBytes (regions h g) := by
  unfold regions
  rw [List.length_append, totalBytes_append]
  have h1 := tri_regions_count h (emittedTris g) (by
    intro b hb
    have := (List.mem_filter.mp hb).2
    simpa using this)
  have h2 := edge_regions_count h (emittedEdges g) (by
    intro e he
    have := (List.mem_filter.mp he).2
    simpa using this)
  omega

theorem view_accessor_at (h : Host) (g : GlbBuilder) {k : Nat} {a : Accessor}
    {v : BufferView} (ha : (serialize h g).accessors[k]? = some a)
    (hv : (serialize h g).bufferViews[k]? = some v) :
    ∃ r, (regions h g)[k]? = some r ∧ a = accessorOf k r ∧
      v = viewOf (totalBytes ((regions h g).take k)) r := by
  rw [(serialize_extends h g).2.2, layoutAccessors_getElem?] at ha
  rw [(serialize_extends h g).2.1, layoutViews_getElem?] at hv
  cases hr : (regions h g)[k]? with
  | none => rw [hr] at ha; simp at ha
  | some r =>
    rw [hr] at ha hv
    simp only [Option.map_some', Option.some.injEq, Nat.zero_add] at ha hv
    exact ⟨r, rfl, ha.symm, hv.symm⟩

theorem view_at (h : Host) (g : GlbBuilder) {k : Nat} {v : BufferView}
    (hv : (serialize h g).bufferViews[k]? = some v) :
    ∃ r, (regions h g)[k]? = some r ∧ v = viewOf (totalBytes ((regions h g).take k)) r := by
  rw [(serialize_extends h g).2.1, layoutViews_getElem?] at hv
  cases hr : (regions h g)[k]? with
  | none => rw [hr] at hv; simp at hv
  | some r =>
    rw [hr] at hv
    simp only [Option.map_some', Option.some.injEq, Nat.zero_add] at hv
    exact ⟨r, rfl, hv.symm⟩

/-- C9. In every container written by `writeGlb` whose payload is shorter than 2^32
bytes: there are as many accessors as buffer views, accessor `k` refers to buffer view
`k`, and the `byteLength` of that view is `count x 4 x 3` for the float VEC3 accessors
(component type 5126, positions and normals) and `count x 4 x 1` for the unsigned
SCALAR accessors (component type 5125, indices), where the counts are, bucket after
bucket, the numbers of vertices, normals and indices of the triangle buckets and the
numbers of vertices and indices of the edge buckets that are serialized. -/
theorem accessor_matches_buffer_view (h : Host) (g : GlbBuilder)
    (hsize : (serialize h g).bin.length < 2 ^ 32) :
    (serialize h g).accessors.length = (serialize h g).bufferViews.length ∧
    (∀ (k : Nat) (a : Accessor) (v : BufferView),
      (serialize h g).accessors[k]? = some a → (serialize h g).bufferViews[k]? = some v →
      a.bufferView = (k : Int) ∧
      ((a.componentType = 5126 ∧ a.type = "VEC3" ∧ v.byteLength = a.count * 4 * 3) ∨
       (a.componentType = 5125 ∧ a.type = "SCALAR" ∧ v.byteLength = a.count * 4 * 1))) ∧
    (serialize h g).accessors.map (fun a => (a.componentType, a.type, a.count)) =
      (emittedTris g).flatMap (fun b =>
        [((5126 : Int), "VEC3", b.vertices.length), (5126, "VEC3", b.normals.length),
          (5125, "SCALAR", b.indices.length)]) ++
      (emittedEdges g).flatMap (fun e =>
        [((5126 : Int), "VEC3", e.vertices.length), (5125, "SCALAR", e.indices.length)]) ∧
    jsonText h g = jsonDocument h g.m_materials (serialize h g) (paddedBin h g).length := by
  have htot : totalBytes (regions h g) < 2 ^ 32 := by
    rw [← serialize_bin_length]
    exact hsize
  have hcnt := regions_count h g
  refine ⟨?_, ?_, ?_, rfl⟩
  · rw [(serialize_extends h g).2.2, (serialize_extends h g).2.1, layoutAccessors_length,
      layoutViews_length]
  · intro k a v ha hv
    obtain ⟨r, hr, rfl, rfl⟩ := view_accessor_at h g ha hv
    have hk : k < (regions h g).length := (List.getElem?_eq_some.mp hr).1
    have hmem := List.getElem?_mem hr
    have hok := regions_ok h g r hmem
    have hbytes := region_bytes_le hmem
    have hcount := region_count_le hok
    constructor
    · show toInt32 k = (k : Int)
      exact toInt32_of_lt (by omega)
    · show (r.componentType = 5126 ∧ r.type = "VEC3" ∧
          toUInt32 r.bytes = toUInt32 r.count * 4 * 3) ∨
        (r.componentType = 5125 ∧ r.type = "SCALAR" ∧
          toUInt32 r.bytes = toUInt32 r.count * 4 * 1)
      rw [toUInt32_of_lt (by omega : r.bytes < 2 ^ 32),
        toUInt32_of_lt (by omega : r.count < 2 ^ 32)]
      rcases hok.2 with ⟨h1, h2, h3, _⟩ | ⟨h1, h2, h3, _⟩
      · exact Or.inl ⟨h1, h2, by omega⟩
      · exact Or.inr ⟨h1, h2, by omega⟩
  · rw [(serialize_extends h g).2.2, layoutAccessors_map_shape]
    have hc : (regions h g).map (fun r => (r.componentType, r.type, toUInt32 r.count)) =
        (regions h g).map (fun r => (r.componentType, r.type, r.count)) := by
      apply List.map_congr_left
      intro r hr
      have hbytes := region_bytes_le hr
      have hcount := region_count_le (regions_ok h g r hr)
      rw [toUInt32_of_lt (by omega : r.count < 2 ^ 32)]
    rw [hc]
    unfold regions
    rw [List.map_append, List.map_flatMap, List.map_flatMap]
    rfl

set_option maxRecDepth 100000 in
/-- Witness for `accessor_matches_buffer_view`: the sample builder with one triangle and
one edge bucket has five accessors and five buffer views. -/
theorem accessor_matches_buffer_view_witness :
    (serialize sampleHost sampleBuilder).bin.length < 2 ^ 32 ∧
    (serialize sampleHost sampleBuilder).accessors.length = 5 ∧
    (serialize sampleHost sampleBuilder).accessors.length =
      (serialize sampleHost sampleBuilder).bufferViews.length :=
  ⟨by decide, by decide, (accessor_matches_buffer_view sampleHost sampleBuilder (by decide)).1⟩

set_option maxRecDepth 100000 in
/-- C10 (counterexample). A builder filled by one `addBuckets` call with a triangle
bucket that has one vertex and no index: `writeGlb` succeeds, the bucket is held by the
builder, but the loop guard skips it, so the payload is empty, whereas the
concatenation of the vertex, normal and index bytes of every held bucket has the 12
bytes of the vertex. -/
theorem payload_omits_bucket_without_index :
    sampleBuilderNoIndex.m_triBuckets = [sampleTriNoIndex] ∧
    (sampleBuilderNoIndex.writeGlb sampleHost "out.glb" false {}).ok = true ∧
    (serialize sampleHost sampleBuilderNoIndex).bin = [] ∧
    (sampleBuilderNoIndex.m_triBuckets.flatMap (fun b =>
        verticesBytes sampleHost b.vertices ++ normalsBytes sampleHost b.normals ++
          indicesBytes b.indices) ++
      sampleBuilderNoIndex.m_edgeBuckets.flatMap (fun e =>
        verticesBytes sampleHost e.vertices ++ indicesBytes e.indices))
      = [0, 0, 0, 0, 0, 0, 0, 0, 0, 0, 0, 0] ∧
    (serialize sampleHost sampleBuilderNoIndex).bin ≠
      sampleBuilderNoIndex.m_triBuckets.flatMap (fun b =>
        verticesBytes sampleHost b.vertices ++ normalsBytes sampleHost b.normals ++
          indicesBytes b.indices) ++
      sampleBuilderNoIndex.m_edgeBuckets.flatMap (fun e =>
        verticesBytes sampleHost e.vertices ++ indicesBytes e.indices) := by
  decide

/-- C10 (amended). The payload before padding is the concatenation, in bucket order, of
the vertex bytes, normal bytes and index bytes of each triangle bucket that has at
least one vertex and one index, followed by the vertex bytes and index bytes of each
edge bucket that has at least one vertex and one index (other buckets are skipped).
When the payload is shorter than 2^32 bytes: the first buffer view has `byteOffset` 0,
every later view starts where the previous one ends, the last view ends at the payload
length, so every view lies inside the buffer and no two views overlap; the view
lengths are 12 bytes per vertex or normal and 4 bytes per index; vertex and normal
views carry target 34962 and index views target 34963. -/
theorem payload_is_contiguous_regions (h : Host) (g : GlbBuilder)
    (hsize : (serialize h g).bin.length < 2 ^ 32) :
    (serialize h g).bin =
      (emittedTris g).flatMap (fun b =>
        verticesBytes h b.vertices ++ normalsBytes h b.normals ++ indicesBytes b.indices) ++
      (emittedEdges g).flatMap (fun e =>
        verticesBytes h e.vertices ++ indicesBytes e.indices) ∧
    (∀ v, (serialize h g).bufferViews[0]? = some v → v.byteOffset = 0) ∧
    (∀ (k : Nat) (v w : BufferView), (serialize h g).bufferViews[k]? = some v →
      (serialize h g).bufferViews[k + 1]? = some w →
      w.byteOffset = v.byteOffset + v.byteLength) ∧
    (∀ v, (serialize h g).bufferViews.getLast? = some v →
      v.byteOffset + v.byteLength = (serialize h g).bin.length) ∧
    (∀ (k : Nat) (v : BufferView), (serialize h g).bufferViews[k]? = some v →
      v.byteOffset + v.byteLength ≤ (serialize h g).bin.length) ∧
    (∀ (j k : Nat) (v w : BufferView), j < k → (serialize h g).bufferViews[j]? = some v →
      (serialize h g).bufferViews[k]? = some w → v.byteOffset + v.byteLength ≤ w.byteOffset) ∧
    (serialize h g).bufferViews.map (fun v => (v.byteLength, v.target)) =
      (emittedTris g).flatMap (fun b =>
        [(b.vertices.length * 12, (34962 : Int)), (b.normals.length * 12, 34962),
          (b.indices.length * 4, 34963)]) ++
      (emittedEdges g).flatMap (fun e =>
        [(e.vertices.length * 12, (34962 : Int)), (e.indices.length * 4, 34963)]) := by
  have htot : totalBytes (regions h g) < 2 ^ 32 := by
    rw [← serialize_bin_length]
    exact hsize
  have hlen := serialize_bin_length h g
  -- offset and length of the view at position k, without wrap-around
  have hview : ∀ (k : Nat) (v : BufferView), (serialize h g).bufferViews[k]? = some v →
      ∃ r, (regions h g)[k]? = some r ∧
        v.byteOffset = totalBytes ((regions h g).take k) ∧ v.byteLength = r.bytes := by
    intro k v hv
    obtain ⟨r, hr, rfl⟩ := view_at h g hv
    have h1 := region_end_le hr
    refine ⟨r, hr, ?_, ?_⟩
    · show toUInt32 _ = _
      exact toUInt32_of_lt (by omega)
    · show toUInt32 _ = _
      exact toUInt32_of_lt (by omega)
  refine ⟨?_, ?_, ?_, ?_, ?_, ?_, ?_⟩
  · rw [(serialize_extends h g).1]
    unfold regions
    rw [List.flatMap_append, List.flatMap_assoc, List.flatMap_assoc]
    simp [triRegions, edgeRegions]
  · intro v hv
    obtain ⟨r, _, ho, _⟩ := hview 0 v hv
    rw [ho]
    rfl
  · intro k v w hv hw
    obtain ⟨r, hr, ho, hl⟩ := hview k v hv
    obtain ⟨s, _, ho2, _⟩ := hview (k + 1) w hw
    rw [ho2, ho, hl, totalBytes_take_succ hr]
  · intro v hv
    rw [List.getLast?_eq_getElem?] at hv
    obtain ⟨r, hr, ho, hl⟩ := hview _ v hv
    have hk := (List.getElem?_eq_some.mp hr).1
    have hvl : (serialize h g).bufferViews.length = (regions h g).length := by
      rw [(serialize_extends h g).2.1, layoutViews_length]
    have hs := totalBytes_take_succ hr
    rw [hvl] at hs ho
    rw [show (regions h g).length - 1 + 1 = (regions h g).length from by omega,
      totalBytes_take_length] at hs
    rw [ho, hl, hlen, hs]
  · intro k v hv
    obtain ⟨r, hr, ho, hl⟩ := hview k v hv
    rw [ho, hl, hlen]
    exact region_end_le hr
  · intro j k v w hjk hv hw
    obtain ⟨r, hr, ho, hl⟩ := hview j v hv
    obtain ⟨s, _, ho2, _⟩ := hview k w hw
    rw [ho, hl, ho2, ← totalBytes_take_succ hr]
    exact totalBytes_take_mono _ hjk
  · have hm : (serialize h g).bufferViews.map (fun v => (v.byteLength, v.target)) =
        (regions h g).map (fun r => (r.bytes, r.target)) := by
      apply List.ext_getElem?
      intro k
      rw [List.getElem?_map, List.getElem?_map]
      cases hv : (serialize h g).bufferViews[k]? with
      | none =>
        have hvl : (serialize h g).bufferViews.length = (regions h g).length := by
          rw [(serialize_extends h g).2.1, layoutViews_length]
        have h1 := List.getElem?_eq_none_iff.mp hv
        have h2 : (regions h g)[k]? = none := List.getElem?_eq_none_iff.mpr (by omega)
        rw [h2]
        rfl
      | some v =>
        obtain ⟨r, hr, rfl⟩ := view_at h g hv
        have h1 := region_end_le hr
        rw [hr]
        simp only [Option.map_some', viewOf, Option.some.injEq, Prod.mk.injEq, and_true]
        exact toUInt32_of_lt (by omega)
    rw [hm]
    unfold regions
    rw [List.map_append, List.map_flatMap, List.map_flatMap]
    rfl

set_option maxRecDepth 100000 in
/-- Witness for `payload_is_contiguous_regions`: the sample builder with one triangle
and one edge bucket; its payload has 116 bytes and its second view starts at 36. -/
theorem payload_is_contiguous_regions_witness :
    (serialize sampleHost sampleBuilder).bin.length < 2 ^ 32 ∧
    (serialize sampleHost sampleBuilder).bin.length = 116 ∧
    (serialize sampleHost sampleBuilder).bufferViews.map (fun v => v.byteOffset) =
      [0, 36, 72, 84, 108] ∧
    (∀ v, (serialize sampleHost sampleBuilder).bufferViews[0]? = some v → v.byteOffset = 0) :=
  ⟨by decide, by decide, by decide,
    (payload_is_contiguous_regions sampleHost sampleBuilder (by decide)).2.1⟩

/-! ## Theorems: primitives of `writeGlb` -/

theorem triStep_primitives (h : Host) (n : Nat) (st : Layout) (b : TriBucket)
    (hb : (b.vertices.isEmpty || b.indices.isEmpty) = false) :
    (triStep h n st b).primitives =
      st.primitives ++ [triPrimitive n st.accessors.length b] ∧
    (triStep h n st b).accessors.length = st.accessors.length + 3 := by
  unfold triStep
  rw [hb]
  simp [triPrimitive, Nat.add_assoc]

theorem edgeStep_primitives (h : Host) (n : Nat) (st : Layout) (e : EdgeBucket)
    (he : (e.vertices.isEmpty || e.indices.isEmpty) = false) :
    (edgeStep h n st e).primitives =
      st.primitives ++ [edgePrimitive n st.accessors.length e] ∧
    (edgeStep h n st e).accessors.length = st.accessors.length + 2 := by
  unfold edgeStep
  rw [he]
  simp [edgePrimitive, Nat.add_assoc]

theorem triLoop_primitives (h : Host) (n : Nat) (tris : List TriBucket) (st : Layout) :
    (tris.foldl (triStep h n) st).primitives =
      st.primitives ++ triPrims n st.accessors.length
        (tris.filter (fun b => !(b.vertices.isEmpty || b.indices.isEmpty))) ∧
    (tris.foldl (triStep h n) st).accessors.length =
      st.accessors.length +
        3 * (tris.filter (fun b => !(b.vertices.isEmpty || b.indices.isEmpty))).length := by
  induction tris generalizing st with
  | nil => simp [triPrims]
  | cons b tris ih =>
    rw [List.foldl_cons]
    cases hb : (b.vertices.isEmpty || b.indices.isEmpty) with
    | true =>
      have hs : triStep h n st b = st := by
        unfold triStep
        rw [hb, if_pos rfl]
      rw [hs, List.filter_cons_of_neg (by simp [hb])]
      exact ih st
    | false =>
      rw [List.filter_cons_of_pos (by simp [hb])]
      obtain ⟨h1, h2⟩ := triStep_primitives h n st b hb
      obtain ⟨i1, i2⟩ := ih (triStep h n st b)
      rw [i1, i2, h1, h2]
      constructor
      · simp [triPrims]
      · simp only [List.length_cons]
        omega

theorem edgeLoop_primitives (h : Host) (n : Nat) (edges : List EdgeBucket) (st : Layout) :
    (edges.foldl (edgeStep h n) st).primitives =
      st.primitives ++ edgePrims n st.accessors.length
        (edges.filter (fun e => !(e.vertices.isEmpty || e.indices.isEmpty))) := by
  induction edges generalizing st with
  | nil => simp [edgePrims]
  | cons e edges ih =>
    rw [List.foldl_cons]
    cases he : (e.vertices.isEmpty || e.indices.isEmpty) with
    | true =>
      have hs : edgeStep h n st e = st := by
        unfold edgeStep
        rw [he, if_pos rfl]
      rw [hs, List.filter_cons_of_neg (by simp [he])]
      exact ih st
    | false =>
      rw [List.filter_cons_of_pos (by simp [he])]
      obtain ⟨h1, h2⟩ := edgeStep_primitives h n st e he
      rw [ih (edgeStep h n st e), h1, h2]
      simp [edgePrims]

theorem serialize_primitives (h : Host) (g : GlbBuilder) :
    (serialize h g).primitives =
      triPrims g.m_materials.length 0 (emittedTris g) ++
      edgePrims g.m_materials.length (3 * (emittedTris g).length) (emittedEdges g) := by
  unfold serialize
  rw [edgeLoop_primitives]
  obtain ⟨h1, h2⟩ := triLoop_primitives h g.m_materials.length g.m_triBuckets {}
  rw [h1, h2]
  simp [emittedTris, emittedEdges]

theorem triPrims_length (n k : Nat) (bs : List TriBucket) :
    (triPrims n k bs).length = bs.length := by
  induction bs generalizing k with
  | nil => rfl
  | cons b bs ih => simp [triPrims, ih]

theorem edgePrims_length (n k : Nat) (es : List EdgeBucket) :
    (edgePrims n k es).length = es.length := by
  induction es generalizing k with
  | nil => rfl
  | cons e es ih => simp [edgePrims, ih]

theorem triPrims_getElem? (n k : Nat) (bs : List TriBucket) (i : Nat) :
    (triPrims n k bs)[i]? = (bs[i]?).map (triPrimitive n (k + 3 * i)) := by
  induction bs generalizing k i with
  | nil => simp [triPrims]
  | cons b bs ih =>
    cases i with
    | zero => simp [triPrims]
    | succ i =>
      simp only [triPrims, List.getElem?_cons_succ, ih]
      rw [show k + 3 + 3 * i = k + 3 * (i + 1) from by omega]

theorem edgePrims_getElem? (n k : Nat) (es : List EdgeBucket) (j : Nat) :
    (edgePrims n k es)[j]? = (es[j]?).map (edgePrimitive n (k + 2 * j)) := by
  induction es generalizing k j with
  | nil => simp [edgePrims]
  | cons e es ih =>
    cases j with
    | zero => simp [edgePrims]
    | succ j =>
      simp only [edgePrims, List.getElem?_cons_succ, ih]
      rw [show k + 2 + 2 * j = k + 2 * (j + 1) from by omega]

theorem triPrims_map_material (n k : Nat) (bs : List TriBucket) :
    (triPrims n k bs).map (fun p => p.material) =
      bs.map (fun b => matIndexOf b.materialIndex n) := by
  induction bs generalizing k with
  | nil => rfl
  | cons b bs ih => simp [triPrims, triPrimitive, ih]

theorem edgePrims_map_material (n k : Nat) (es : List EdgeBucket) :
    (edgePrims n k es).map (fun p => p.material) =
      es.map (fun e => matIndexOf e.materialIndex n) := by
  induction es generalizing k with
  | nil => rfl
  | cons e es ih => simp [edgePrims, edgePrimitive, ih]

theorem triPrims_map_mode (n k : Nat) (bs : List TriBucket) :
    (triPrims n k bs).map (fun p => p.mode) = List.replicate bs.length 4 := by
  induction bs generalizing k with
  | nil => rfl
  | cons b bs ih => simp [triPrims, triPrimitive, ih, List.replicate_succ]

theorem edgePrims_map_mode (n k : Nat) (es : List EdgeBucket) :
    (edgePrims n k es).map (fun p => p.mode) = List.replicate es.length 1 := by
  induction es generalizing k with
  | nil => rfl
  | cons e es ih => simp [edgePrims, edgePrimitive, ih, List.replicate_succ]

theorem flatMap_block_length {α β : Type} (f : α → List β) (m : Nat)
    (hf : ∀ a, (f a).length = m) (l : List α) : (l.flatMap f).length = m * l.length := by
  induction l with
  | nil => simp
  | cons a l ih =>
    rw [List.flatMap_cons, List.length_append, ih, hf a, List.length_cons]
    rw [Nat.mul_succ, Nat.add_comm]

theorem flatMap_block_getElem? {α β : Type} (f : α → List β) (m : Nat)
    (hf : ∀ a, (f a).length = m) (l : List α) (i c : Nat) (hc : c < m) :
    (l.flatMap f)[m * i + c]? = (l[i]?).bind (fun a => (f a)[c]?) := by
  induction l generalizing i with
  | nil => simp
  | cons a l ih =>
    rw [List.flatMap_cons]
    cases i with
    | zero =>
      rw [Nat.mul_zero, Nat.zero_add, List.getElem?_append_left (by rw [hf a]; exact hc)]
      simp
    | succ i =>
      rw [List.getElem?_append_right (by rw [hf a, Nat.mul_succ]; omega), hf a,
        show m * (i + 1) + c - m = m * i + c from by rw [Nat.mul_succ]; omega, ih]
      simp

theorem tri_region_at (h : Host) (g : GlbBuilder) {i : Nat} {b : TriBucket}
    (hb : (emittedTris g)[i]? = some b) (c : Nat) (hc : c < 3) :
    (regions h g)[3 * i + c]? = (triRegions h b)[c]? := by
  unfold regions
  have hlen := flatMap_block_length (triRegions h) 3 (fun _ => rfl) (emittedTris g)
  have hi : i < (emittedTris g).length := (List.getElem?_eq_some.mp hb).1
  rw [List.getElem?_append_left (by rw [hlen]; omega),
    flatMap_block_getElem? (triRegions h) 3 (fun _ => rfl) _ i c hc, hb]
  rfl

theorem edge_region_at (h : Host) (g : GlbBuilder) {j : Nat} {e : EdgeBucket}
    (he : (emittedEdges g)[j]? = some e) (c : Nat) (hc : c < 2) :
    (regions h g)[3 * (emittedTris g).length + 2 * j + c]? = (edgeRegions h e)[c]? := by
  unfold regions
  have hlen := flatMap_block_length (triRegions h) 3 (fun _ => rfl) (emittedTris g)
  rw [List.getElem?_append_right (by rw [hlen]; omega), hlen,
    show 3 * (emittedTris g).length + 2 * j + c - 3 * (emittedTris g).length = 2 * j + c
      from by omega,
    flatMap_block_getElem? (edgeRegions h) 2 (fun _ => rfl) _ j c hc, he]
  rfl

theorem accessor_count_at (h : Host) (g : GlbBuilder)
    (hsize : (serialize h g).bin.length < 2 ^ 32) {k : Nat} {r : Region}
    (hr : (regions h g)[k]? = some r) :
    ((serialize h g).accessors[k]?).map (fun a => a.count) = some r.count := by
  rw [(serialize_extends h g).2.2, layoutAccessors_getElem?, hr]
  have hmem := List.getElem?_mem hr
  have h1 := region_bytes_le hmem
  have h2 := region_count_le (regions_ok h g r hmem)
  have h3 := serialize_bin_length h g
  simp only [Option.map_some', accessorOf, Option.some.injEq]
  exact toUInt32_of_lt (by omega)

theorem regions_length (h : Host) (g : GlbBuilder) :
    (regions h g).length = 3 * (emittedTris g).length + 2 * (emittedEdges g).length := by
  unfold regions
  rw [List.length_append, flatMap_block_length (triRegions h) 3 (fun _ => rfl),
    flatMap_block_length (edgeRegions h) 2 (fun _ => rfl)]

theorem held_tris_have_vertices (g : GlbBuilder) (calls : List AddCall)
    (hg : ∀ b ∈ g.m_triBuckets, b.vertices ≠ []) :
    ∀ b ∈ (g.afterCalls calls).m_triBuckets, b.vertices ≠ [] := by
  induction calls generalizing g with
  | nil => exact hg
  | cons c calls ih =>
    unfold GlbBuilder.afterCalls
    rw [List.foldl_cons]
    apply ih
    intro b hb
    simp only [GlbBuilder.addBuckets, addTri_foldl, List.mem_append, List.mem_map] at hb
    rcases hb with hb | ⟨x, hx, rfl⟩
    · exact hg b hb
    · have := (List.mem_filter.mp hx).2
      intro hv
      have hv2 : x.vertices = [] := hv
      simp [hv2] at this

theorem held_edges_have_vertices (g : GlbBuilder) (calls : List AddCall)
    (hg : ∀ e ∈ g.m_edgeBuckets, e.vertices ≠ []) :
    ∀ e ∈ (g.afterCalls calls).m_edgeBuckets, e.vertices ≠ [] := by
  induction calls generalizing g with
  | nil => exact hg
  | cons c calls ih =>
    unfold GlbBuilder.afterCalls
    rw [List.foldl_cons]
    apply ih
    intro e he
    simp only [GlbBuilder.addBuckets, addEdge_foldl, List.mem_append, List.mem_map] at he
    rcases he with he | ⟨x, hx, rfl⟩
    · exact hg e he
    · have := (List.mem_filter.mp hx).2
      intro hv
      have hv2 : x.vertices = [] := hv
      simp [hv2] at this

set_option maxRecDepth 100000 in
/-- C11 (counterexample). A builder filled by one `addBuckets` call with a triangle
bucket that has one vertex and no index: every bucket held has at least one vertex and
`writeGlb` succeeds, yet no primitive is emitted, so the number of primitives (0) is
not the number of triangle buckets plus the number of edge buckets (1). -/
theorem primitives_fewer_than_buckets :
    sampleBuilderNoIndex.m_triBuckets.length = 1 ∧
    sampleBuilderNoIndex.m_edgeBuckets.length = 0 ∧
    (∀ b ∈ sampleBuilderNoIndex.m_triBuckets, b.vertices ≠ []) ∧
    (sampleBuilderNoIndex.writeGlb sampleHost "out.glb" false {}).ok = true ∧
    (serialize sampleHost sampleBuilderNoIndex).primitives = [] ∧
    (serialize sampleHost sampleBuilderNoIndex).primitives.length ≠
      sampleBuilderNoIndex.m_triBuckets.length + sampleBuilderNoIndex.m_edgeBuckets.length := by
  decide

/-- C11 (amended). `writeGlb` emits exactly one primitive per held bucket that has at
least one vertex and at least one index (a builder filled by `addBuckets` holds only
buckets with a vertex, and a bucket without indices yields no primitive), so the number
of primitives is the number of such triangle buckets plus the number of such edge
buckets. For payloads shorter than 2^32 bytes the primitives of the triangle buckets
come first, in bucket order, with topology tag 4 and position, normal and index
accessors `3i`, `3i+1`, `3i+2` that count the vertices, normals and indices of bucket
`i`; the primitives of the edge buckets follow, in bucket order, with topology tag 1,
no normal accessor (`-1`) and position and index accessors that count the vertices and
indices of the bucket. -/
theorem one_primitive_per_serialized_bucket (h : Host) (g : GlbBuilder)
    (calls : List AddCall) (hsize : (serialize h g).bin.length < 2 ^ 32) :
    (serialize h g).primitives.length = (emittedTris g).length + (emittedEdges g).length ∧
    (serialize h g).primitives.map (fun p => p.mode) =
      List.replicate (emittedTris g).length 4 ++ List.replicate (emittedEdges g).length 1 ∧
    (∀ (i : Nat) (b : TriBucket), (emittedTris g)[i]? = some b →
      ∃ p, (serialize h g).primitives[i]? = some p ∧ p.mode = 4 ∧
        p.posAcc = (3 * i : Nat) ∧ p.nrmAcc = (3 * i + 1 : Nat) ∧ 0 ≤ p.nrmAcc ∧
        p.idxAcc = (3 * i + 2 : Nat) ∧
        ((serialize h g).accessors[3 * i]?).map (fun a => a.count) =
          some b.vertices.length ∧
        ((serialize h g).accessors[3 * i + 1]?).map (fun a => a.count) =
          some b.normals.length ∧
        ((serialize h g).accessors[3 * i + 2]?).map (fun a => a.count) =
          some b.indices.length) ∧
    (∀ (j : Nat) (e : EdgeBucket), (emittedEdges g)[j]? = some e →
      ∃ p, (serialize h g).primitives[(emittedTris g).length + j]? = some p ∧ p.mode = 1 ∧
        p.posAcc = (3 * (emittedTris g).length + 2 * j : Nat) ∧ p.nrmAcc = -1 ∧
        p.idxAcc = (3 * (emittedTris g).length + 2 * j + 1 : Nat) ∧
        ((serialize h g).accessors[3 * (emittedTris g).length + 2 * j]?).map
          (fun a => a.count) = some e.vertices.length ∧
        ((serialize h g).accessors[3 * (emittedTris g).length + 2 * j + 1]?).map
          (fun a => a.count) = some e.indices.length) ∧
    ((∀ b ∈ (({} : GlbBuilder).afterCalls calls).m_triBuckets, b.vertices ≠ []) ∧
      (∀ e ∈ (({} : GlbBuilder).afterCalls calls).m_edgeBuckets, e.vertices ≠ [])) := by
  have htot : totalBytes (regions h g) < 2 ^ 32 := by
    rw [← serialize_bin_length]
    exact hsize
  have hcnt := regions_count h g
  have hrl := regions_length h g
  have hp := serialize_primitives h g
  refine ⟨?_, ?_, ?_, ?_, ?_⟩
  · rw [hp, List.length_append, triPrims_length, edgePrims_length]
  · rw [hp, List.map_append, triPrims_map_mode, edgePrims_map_mode]
  · intro i b hb
    have hi : i < (emittedTris g).length := (List.getElem?_eq_some.mp hb).1
    refine ⟨triPrimitive g.m_materials.length (0 + 3 * i) b, ?_, rfl, ?_, ?_, ?_, ?_, ?_, ?_, ?_⟩
    · rw [hp, List.getElem?_append_left (by rw [triPrims_length]; exact hi),
        triPrims_getElem?, hb]
      rfl
    · show toInt32 (0 + 3 * i) = _
      rw [Nat.zero_add]
      exact toInt32_of_lt (by omega)
    · show toInt32 (0 + 3 * i + 1) = _
      rw [Nat.zero_add]
      exact toInt32_of_lt (by omega)
    · show 0 ≤ toInt32 (0 + 3 * i + 1)
      rw [Nat.zero_add, toInt32_of_lt (by omega)]
      exact Int.natCast_nonneg _
    · show toInt32 (0 + 3 * i + 2) = _
      rw [Nat.zero_add]
      exact toInt32_of_lt (by omega)
    · exact accessor_count_at h g hsize (tri_region_at h g hb 0 (by decide))
    · exact accessor_count_at h g hsize (tri_region_at h g hb 1 (by decide))
    · exact accessor_count_at h g hsize (tri_region_at h g hb 2 (by decide))
  · intro j e he
    have hj : j < (emittedEdges g).length := (List.getElem?_eq_some.mp he).1
    refine ⟨edgePrimitive g.m_materials.length (3 * (emittedTris g).length + 2 * j) e,
      ?_, rfl, ?_, rfl, ?_, ?_, ?_⟩
    · rw [hp, List.getElem?_append_right (by rw [triPrims_length]; omega), triPrims_length,
        Nat.add_sub_cancel_left, edgePrims_getElem?, he]
      rfl
    · show toInt32 _ = _
      exact toInt32_of_lt (by omega)
    · show toInt32 _ = _
      exact toInt32_of_lt (by omega)
    · exact accessor_count_at h g hsize (edge_region_at h g he 0 (by decide))
    · exact accessor_count_at h g hsize (edge_region_at h g he 1 (by decide))
  · exact ⟨held_tris_have_vertices {} calls (fun b hb => by cases hb),
      held_edges_have_vertices {} calls (fun e he => by cases he)⟩

set_option maxRecDepth 100000 in
/-- Witness for `one_primitive_per_serialized_bucket`: the sample builder yields two
primitives, a triangle list followed by a line list. -/
theorem one_primitive_per_serialized_bucket_witness :
    (serialize sampleHost sampleBuilder).bin.length < 2 ^ 32 ∧
    (serialize sampleHost sampleBuilder).primitives.map (fun p => p.mode) = [4, 1] ∧
    (serialize sampleHost sampleBuilder).primitives.length =
      (emittedTris sampleBuilder).length + (emittedEdges sampleBuilder).length :=
  ⟨by decide, by decide,
    (one_primitive_per_serialized_bucket sampleHost sampleBuilder [sampleCall]
      (by decide)).1⟩

theorem matIndexOf_eq_clamp {n : Nat} (hn : n < 2 ^ 31) (r : Int) :
    matIndexOf r n = clampMaterial r n := by
  unfold matIndexOf clampMaterial
  rw [toInt32_of_lt hn]

/-- C12. For every bucket that yields a primitive (triangle buckets first, then edge
buckets, each in bucket order), when the palette has fewer than 2^31 entries (material
references are `int`): the material index of the primitive is the material reference
`r` of the bucket when `0 ≤ r < palette size`, and 0 when `r` is negative (unset) or
`r ≥ palette size`. -/
theorem primitive_material_is_clamped_reference (h : Host) (g : GlbBuilder)
    (hpal : g.m_materials.length < 2 ^ 31) :
    (serialize h g).primitives.map (fun p => p.material) =
      (emittedTris g).map (fun b => clampMaterial b.materialIndex g.m_materials.length) ++
      (emittedEdges g).map (fun e => clampMaterial e.materialIndex g.m_materials.length) ∧
    (∀ (i : Nat) (b : TriBucket), (emittedTris g)[i]? = some b →
      ∃ p, (serialize h g).primitives[i]? = some p ∧
        (0 ≤ b.materialIndex ∧ b.materialIndex < (g.m_materials.length : Int) →
          p.material = b.materialIndex) ∧
        (b.materialIndex < 0 ∨ (g.m_materials.length : Int) ≤ b.materialIndex →
          p.material = 0)) ∧
    (∀ (j : Nat) (e : EdgeBucket), (emittedEdges g)[j]? = some e →
      ∃ p, (serialize h g).primitives[(emittedTris g).length + j]? = some p ∧
        (0 ≤ e.materialIndex ∧ e.materialIndex < (g.m_materials.length : Int) →
          p.material = e.materialIndex) ∧
        (e.materialIndex < 0 ∨ (g.m_materials.length : Int) ≤ e.materialIndex →
          p.material = 0)) := by
  have hp := serialize_primitives h g
  have hclamp : ∀ r : Int,
      (0 ≤ r ∧ r < (g.m_materials.length : Int) → matIndexOf r g.m_materials.length = r) ∧
      (r < 0 ∨ (g.m_materials.length : Int) ≤ r → matIndexOf r g.m_materials.length = 0) := by
    intro r
    rw [matIndexOf_eq_clamp hpal]
    unfold clampMaterial
    constructor
    · intro hr
      rw [if_pos hr]
    · intro hr
      rw [if_neg (by omega)]
  refine ⟨?_, ?_, ?_⟩
  · rw [hp, List.map_append, triPrims_map_material, edgePrims_map_material]
    congr 1
    · exact List.map_congr_left (fun b _ => matIndexOf_eq_clamp hpal _)
    · exact List.map_congr_left (fun e _ => matIndexOf_eq_clamp hpal _)
  · intro i b hb
    have hi : i < (emittedTris g).length := (List.getElem?_eq_some.mp hb).1
    refine ⟨triPrimitive g.m_materials.length (0 + 3 * i) b, ?_, (hclamp _).1, (hclamp _).2⟩
    rw [hp, List.getElem?_append_left (by rw [triPrims_length]; exact hi),
      triPrims_getElem?, hb]
    rfl
  · intro j e he
    refine ⟨edgePrimitive g.m_materials.length (3 * (emittedTris g).length + 2 * j) e,
      ?_, (hclamp _).1, (hclamp _).2⟩
    rw [hp, List.getElem?_append_right (by rw [triPrims_length]; omega), triPrims_length,
      Nat.add_sub_cancel_left, edgePrims_getElem?, he]
    rfl

set_option maxRecDepth 100000 in
/-- Witness for `primitive_material_is_clamped_reference`: the sample builder with two
materials; its primitives refer to materials 0 and 1. -/
theorem primitive_material_is_clamped_reference_witness :
    sampleBuilder.m_materials.length < 2 ^ 31 ∧
    (serialize sampleHost sampleBuilder).primitives.map (fun p => p.material) = [0, 1] ∧
    (serialize sampleHost sampleBuilder).primitives.map (fun p => p.material) =
      (emittedTris sampleBuilder).map
        (fun b => clampMaterial b.materialIndex sampleBuilder.m_materials.length) ++
      (emittedEdges sampleBuilder).map
        (fun e => clampMaterial e.materialIndex sampleBuilder.m_materials.length) :=
  ⟨by decide, by decide,
    (primitive_material_is_clamped_reference sampleHost sampleBuilder (by decide)).1⟩

/-! ## Theorems: `pad4` and padding -/

theorem and_mask_eq (x : Nat) (hx : x < 2 ^ 64) : x &&& (2 ^ 64 - 4) = x / 4 * 4 := by
  apply Nat.eq_of_testBit_eq
  intro i
  rw [Nat.testBit_and]
  have hm : (2 ^ 64 - 4 : Nat).testBit i = (decide (i < 64) && !(3 : Nat).testBit i) :=
    Nat.testBit_two_pow_sub_succ (by norm_num : 3 < 2 ^ 64) i
  have h3 : (3 : Nat).testBit i = decide (i < 2) := Nat.testBit_two_pow_sub_one 2 i
  have hd : (x / 4 * 4).testBit i = (decide (i ≥ 2) && (x / 4).testBit (i - 2)) := by
    rw [Nat.mul_comm, show (4 : Nat) = 2 ^ 2 from rfl]
    exact Nat.testBit_mul_pow_two
  have hq : (x / 4).testBit (i - 2) = x.testBit (2 + (i - 2)) := by
    rw [show x / 4 = x >>> 2 from (Nat.shiftRight_eq_div_pow x 2).symm]
    exact Nat.testBit_shiftRight x
  rw [hm, h3, hd, hq]
  by_cases h1 : i < 2
  · simp [h1, Nat.not_le.mpr h1]
  · have h2 : 2 ≤ i := Nat.not_lt.mp h1
    rw [show 2 + (i - 2) = i from by omega]
    by_cases h64 : i < 64
    · simp [h1, h2, h64]
    · have hxi : x.testBit i = false :=
        Nat.testBit_lt_two_pow (Nat.lt_of_lt_of_le hx
          (Nat.pow_le_pow_right (by decide) (Nat.not_lt.mp h64)))
      simp [hxi]

theorem pad4_eq (n : Nat) (hn : n + 3 < 2 ^ 64) : pad4 n = (n + 3) / 4 * 4 := by
  unfold pad4
  rw [Nat.mod_eq_of_lt hn]
  exact and_mask_eq _ hn

theorem pad4_dvd (n : Nat) : 4 ∣ pad4 n := by
  unfold pad4
  rw [and_mask_eq _ (Nat.mod_lt _ (by decide))]
  exact Nat.dvd_mul_left 4 _

theorem resize_of_le {α : Type} (l : List α) (n : Nat) (fill : α) (hn : l.length ≤ n) :
    resize l n fill = l ++ List.replicate (n - l.length) fill := by
  unfold resize
  rw [List.take_of_length_le hn]

/-- C13. For every size `n` with `n + 3 < 2^64`, `pad4 n` is the least multiple of 4
that is at least `n`, so `pad4 n - n ≤ 3` and `pad4 n = n` exactly when `n` is a
multiple of 4. When the payload and the JSON text have such sizes, `writeGlb` pads the
payload to `pad4` of its length with zero bytes and the JSON text to `pad4` of its
length with spaces, the unpadded part staying in front unchanged, and both chunk
lengths are multiples of 4. -/
theorem pad4_least_multiple_and_padding (n : Nat) (h : Host) (g : GlbBuilder)
    (hn : n + 3 < 2 ^ 64) (hbin : (serialize h g).bin.length + 3 < 2 ^ 64)
    (hjson : (jsonText h g).length + 3 < 2 ^ 64) :
    (4 ∣ pad4 n ∧ n ≤ pad4 n ∧ (∀ m, 4 ∣ m → n ≤ m → pad4 n ≤ m)) ∧
    pad4 n - n ≤ 3 ∧
    (pad4 n = n ↔ 4 ∣ n) ∧
    paddedBin h g = (serialize h g).bin ++
      List.replicate (pad4 (serialize h g).bin.length - (serialize h g).bin.length) 0 ∧
    paddedJson h g = jsonText h g ++
      List.replicate (pad4 (jsonText h g).length - (jsonText h g).length) ' ' ∧
    (paddedBin h g).length = pad4 (serialize h g).bin.length ∧
    (paddedJson h g).length = pad4 (jsonText h g).length ∧
    4 ∣ (paddedBin h g).length ∧ 4 ∣ (paddedJson h g).length := by
  have e := pad4_eq n hn
  refine ⟨⟨pad4_dvd n, ?_, ?_⟩, ?_, ?_, ?_, ?_, paddedBin_length h g, paddedJson_length h g,
    ?_, ?_⟩
  · rw [e]
    omega
  · rintro m ⟨k, rfl⟩ hm
    rw [e]
    omega
  · rw [e]
    omega
  · rw [e]
    constructor
    · intro hx
      exact ⟨(n + 3) / 4, by omega⟩
    · rintro ⟨k, rfl⟩
      omega
  · unfold paddedBin
    apply resize_of_le
    rw [pad4_eq _ hbin]
    omega
  · unfold paddedJson jsonLenPadded
    apply resize_of_le
    rw [pad4_eq _ hjson]
    omega
  · rw [paddedBin_length]
    exact pad4_dvd _
  · rw [paddedJson_length]
    exact pad4_dvd _

set_option maxRecDepth 100000 in
/-- Witness for `pad4_least_multiple_and_padding`: size 5 is padded to 8; the sample
builder has a payload that is padded to a multiple of 4. -/
theorem pad4_least_multiple_and_padding_witness :
    5 + 3 < 2 ^ 64 ∧ (serialize sampleHost sampleBuilder).bin.length + 3 < 2 ^ 64 ∧
    (jsonText sampleHost sampleBuilder).length + 3 < 2 ^ 64 ∧ pad4 5 = 8 ∧
    pad4 5 - 5 ≤ 3 ∧ 4 ∣ (paddedJson sampleHost sampleBuilder).length :=
  ⟨by decide, by decide, by decide, by decide,
    (pad4_least_multiple_and_padding 5 sampleHost sampleBuilder (by decide) (by decide)
      (by decide)).2.1,
    (pad4_least_multiple_and_padding 5 sampleHost sampleBuilder (by decide) (by decide)
      (by decide)).2.2.2.2.2.2.2.2⟩

/-! ## Theorems: determinism and statistics of `writeGlb` -/

theorem serialize_congr (h1 h2 : Host) (g : GlbBuilder)
    (hfb : h1.floatBytes = h2.floatBytes) : serialize h1 g = serialize h2 g := by
  obtain ⟨fb1, sf1, c1, e1⟩ := h1
  obtain ⟨fb2, sf2, c2, e2⟩ := h2
  simp only at hfb
  subst hfb
  rfl

theorem jsonText_congr (h1 h2 : Host) (g : GlbBuilder)
    (hfb : h1.floatBytes = h2.floatBytes) (hsf : h1.showFloat = h2.showFloat) :
    jsonText h1 g = jsonText h2 g := by
  obtain ⟨fb1, sf1, c1, e1⟩ := h1
  obtain ⟨fb2, sf2, c2, e2⟩ := h2
  simp only at hfb hsf
  subst hfb
  subst hsf
  rfl

theorem glbBytes_congr (h1 h2 : Host) (g : GlbBuilder)
    (hfb : h1.floatBytes = h2.floatBytes) (hsf : h1.showFloat = h2.showFloat) :
    glbBytes h1 g = glbBytes h2 g := by
  obtain ⟨fb1, sf1, c1, e1⟩ := h1
  obtain ⟨fb2, sf2, c2, e2⟩ := h2
  simp only at hfb hsf
  subst hfb
  subst hsf
  rfl

theorem writeGlb_builder (g : GlbBuilder) (h : Host) (filename : String) (printStats : Bool)
    (outStats : ExportStats) : (g.writeGlb h filename printStats outStats).builder = g := by
  unfold GlbBuilder.writeGlb
  split_ifs <;> rfl

/-- C14. `writeGlb` leaves the bucket lists and the palette of the builder as they were,
and the JSON chunk and the binary chunk it produces depend on the builder state only:
for two calls on the same builder state with any two paths, any two `printStats` flags,
any two statistics records and any two clock readings and sets of paths that can be
opened (the float facilities of the platform being the same), the padded JSON text and
the padded payload are identical, and when both calls succeed, also when the second is
made on the builder left by the first, the two files are byte-identical. -/
theorem writeGlb_chunks_depend_on_builder_only (g : GlbBuilder) (h1 h2 : Host)
    (f1 f2 : String) (p1 p2 : Bool) (s1 s2 : ExportStats)
    (hfb : h1.floatBytes = h2.floatBytes) (hsf : h1.showFloat = h2.showFloat) :
    (g.writeGlb h1 f1 p1 s1).builder = g ∧
    (g.writeGlb h1 f1 p1 s1).builder.m_triBuckets = g.m_triBuckets ∧
    (g.writeGlb h1 f1 p1 s1).builder.m_edgeBuckets = g.m_edgeBuckets ∧
    (g.writeGlb h1 f1 p1 s1).builder.m_materials = g.m_materials ∧
    paddedJson h1 g = paddedJson h2 g ∧
    paddedBin h1 g = paddedBin h2 g ∧
    ((g.writeGlb h1 f1 p1 s1).ok = true → (g.writeGlb h2 f2 p2 s2).ok = true →
      (g.writeGlb h1 f1 p1 s1).file = (g.writeGlb h2 f2 p2 s2).file) ∧
    ((g.writeGlb h1 f1 p1 s1).ok = true →
      ((g.writeGlb h1 f1 p1 s1).builder.writeGlb h2 f2 p2 s2).ok = true →
      ∃ bytes, (g.writeGlb h1 f1 p1 s1).file = some bytes ∧
        ((g.writeGlb h1 f1 p1 s1).builder.writeGlb h2 f2 p2 s2).file = some bytes) := by
  have hb := writeGlb_builder g h1 f1 p1 s1
  have hs := serialize_congr h1 h2 g hfb
  have hj := jsonText_congr h1 h2 g hfb hsf
  have hbin : paddedBin h1 g = paddedBin h2 g := by
    unfold paddedBin
    rw [hs]
  refine ⟨hb, by rw [hb], by rw [hb], by rw [hb], ?_, hbin, ?_, ?_⟩
  · unfold paddedJson jsonLenPadded
    rw [hj]
  · intro ok1 ok2
    rw [(writeGlb_of_ok ok1).1, (writeGlb_of_ok ok2).1, glbBytes_congr h1 h2 g hfb hsf]
  · intro ok1 ok2
    rw [hb] at ok2 ⊢
    refine ⟨glbBytes h1 g, (writeGlb_of_ok ok1).1, ?_⟩
    rw [(writeGlb_of_ok ok2).1, glbBytes_congr h1 h2 g hfb hsf]

set_option maxRecDepth 100000 in
/-- Witness for `writeGlb_chunks_depend_on_builder_only`: the sample builder written to
two paths, with different flags and clock readings. -/
theorem writeGlb_chunks_depend_on_builder_only_witness :
    sampleHost.floatBytes = sampleHostLater.floatBytes ∧
    sampleHost.showFloat = sampleHostLater.showFloat ∧
    (sampleBuilder.writeGlb sampleHost "a.glb" false {}).ok = true ∧
    (sampleBuilder.writeGlb sampleHostLater "b.glb" true {}).ok = true ∧
    (sampleBuilder.writeGlb sampleHost "a.glb" false {}).file =
      (sampleBuilder.writeGlb sampleHostLater "b.glb" true {}).file :=
  have ok1 : (sampleBuilder.writeGlb sampleHost "a.glb" false {}).ok = true := by decide
  have ok2 : (sampleBuilder.writeGlb sampleHostLater "b.glb" true {}).ok = true := by decide
  ⟨rfl, rfl, ok1, ok2,
    (writeGlb_chunks_depend_on_builder_only sampleBuilder sampleHost sampleHostLater
      "a.glb" "b.glb" false true {} {} rfl rfl).2.2.2.2.2.2.1 ok1 ok2⟩

theorem statsTri_foldl (tris : List TriBucket) (st : ExportStats) :
    tris.foldl statsTriStep st =
      { st with
        vertices := st.vertices + (tris.map (fun b => b.vertices.length)).sum
        triangles := st.triangles + (tris.map (fun b => b.indices.length / 3)).sum } := by
  induction tris generalizing st with
  | nil => simp
  | cons b tris ih =>
    rw [List.foldl_cons, ih]
    simp [statsTriStep, Nat.add_assoc]

theorem statsEdge_foldl (edges : List EdgeBucket) (st : ExportStats) :
    edges.foldl statsEdgeStep st =
      { st with lines := st.lines + (edges.map (fun e => e.indices.length / 2)).sum } := by
  induction edges generalizing st with
  | nil => simp
  | cons e edges ih =>
    rw [List.foldl_cons, ih]
    simp [statsEdgeStep, Nat.add_assoc]

set_option maxRecDepth 100000 in
/-- C15. On every successful `writeGlb` the statistics are: `vertices` the total number
of vertices of the triangle buckets held (edge vertices are not counted), `triangles`
the sum over the triangle buckets of `indices.length / 3`, `lines` the sum over the
edge buckets of `indices.length / 2`, `materials` the palette size, `primitives` the
number of primitives emitted, `bufferBytes` the padded payload length and `jsonBytes`
the padded JSON length. For one triangle bucket with 4 vertices and 6 indices on
material 0 and an empty edge bucket: one primitive of triangle topology, none of line
topology, 2 triangles, 4 vertices. -/
theorem writeGlb_statistics (g : GlbBuilder) (h : Host) (filename : String)
    (printStats : Bool) (outStats : ExportStats)
    (hok : (g.writeGlb h filename printStats outStats).ok = true) :
    ((g.writeGlb h filename printStats outStats).outStats.vertices =
        (g.m_triBuckets.map (fun b => b.vertices.length)).sum ∧
      (g.writeGlb h filename printStats outStats).outStats.triangles =
        (g.m_triBuckets.map (fun b => b.indices.length / 3)).sum ∧
      (g.writeGlb h filename printStats outStats).outStats.lines =
        (g.m_edgeBuckets.map (fun e => e.indices.length / 2)).sum ∧
      (g.writeGlb h filename printStats outStats).outStats.materials = g.m_materials.length ∧
      (g.writeGlb h filename printStats outStats).outStats.primitives =
        (serialize h g).primitives.length ∧
      (g.writeGlb h filename printStats outStats).outStats.bufferBytes =
        pad4 (serialize h g).bin.length ∧
      (g.writeGlb h filename printStats outStats).outStats.jsonBytes =
        pad4 (jsonText h g).length) ∧
    ((sampleQuadBuilder.writeGlb sampleHost "quad.glb" false {}).ok = true ∧
      (serialize sampleHost sampleQuadBuilder).primitives.map (fun p => p.mode) = [4] ∧
      (sampleQuadBuilder.writeGlb sampleHost "quad.glb" false {}).outStats.primitives = 1 ∧
      (sampleQuadBuilder.writeGlb sampleHost "quad.glb" false {}).outStats.triangles = 2 ∧
      (sampleQuadBuilder.writeGlb sampleHost "quad.glb" false {}).outStats.vertices = 4 ∧
      (sampleQuadBuilder.writeGlb sampleHost "quad.glb" false {}).outStats.lines = 0) := by
  obtain ⟨_, hstats⟩ := writeGlb_of_ok hok
  refine ⟨?_, by decide⟩
  rw [hstats]
  unfold computeStats
  rw [statsEdge_foldl, statsTri_foldl]
  refine ⟨?_, ?_, ?_, rfl, rfl, paddedBin_length h g, paddedJson_length h g⟩
  · simp
  · simp
  · simp

set_option maxRecDepth 100000 in
/-- Witness for `writeGlb_statistics`: the sample builder with one triangle bucket of
three vertices and one edge bucket. -/
theorem writeGlb_statistics_witness :
    (sampleBuilder.writeGlb sampleHost "out.glb" true {}).ok = true ∧
    (sampleBuilder.writeGlb sampleHost "out.glb" true {}).outStats.vertices =
      (sampleBuilder.m_triBuckets.map (fun b => b.vertices.length)).sum ∧
    (sampleBuilder.writeGlb sampleHost "out.glb" true {}).outStats.vertices = 3 :=
  have hok : (sampleBuilder.writeGlb sampleHost "out.glb" true {}).ok = true := by decide
  ⟨hok, (writeGlb_statistics sampleBuilder sampleHost "out.glb" true {} hok).1.1, by decide⟩

/-! ## Theorems: `calcMinMax` -/

theorem ite_lt_eq_min (a b : ℚ) : (if a < b then a else b) = min a b := by
  by_cases h : a < b
  · rw [if_pos h, min_eq_left (le_of_lt h)]
  · rw [if_neg h, min_eq_right (not_lt.mp h)]

theorem ite_gt_eq_max (a b : ℚ) : (if a > b then a else b) = max a b := by
  by_cases h : a > b
  · rw [if_pos h, max_eq_left (le_of_lt h)]
  · rw [if_neg h, max_eq_right (not_lt.mp h)]

theorem foldr_min_init (f : α → ℚ) (a b : ℚ) (l : List α) :
    l.foldr (fun p m => min (f p) m) (min a b) = min a (l.foldr (fun p m => min (f p) m) b) := by
  induction l with
  | nil => rfl
  | cons p l ih => simp only [List.foldr_cons, ih, min_left_comm]

theorem foldr_max_init (f : α → ℚ) (a b : ℚ) (l : List α) :
    l.foldr (fun p m => max (f p) m) (max a b) = max a (l.foldr (fun p m => max (f p) m) b) := by
  induction l with
  | nil => rfl
  | cons p l ih => simp only [List.foldr_cons, ih, max_left_comm]

theorem minMax_foldl {V : Type} [Vec3 V] (l : List V) (acc : Array6) :
    l.foldl minMaxStep acc =
      ⟨l.foldr (fun p m => min (Vec3.x p) m) acc.e0,
        l.foldr (fun p m => min (Vec3.y p) m) acc.e1,
        l.foldr (fun p m => min (Vec3.z p) m) acc.e2,
        l.foldr (fun p m => max (Vec3.x p) m) acc.e3,
        l.foldr (fun p m => max (Vec3.y p) m) acc.e4,
        l.foldr (fun p m => max (Vec3.z p) m) acc.e5⟩ := by
  induction l generalizing acc with
  | nil => rfl
  | cons p l ih =>
    rw [List.foldl_cons, ih]
    simp only [minMaxStep, ite_lt_eq_min, ite_gt_eq_max, foldr_min_init, foldr_max_init,
      List.foldr_cons]

theorem minOver_le {V : Type} (f : V → ℚ) (v0 : V) (rest : List V) :
    ∀ p ∈ v0 :: rest, minOver f v0 rest ≤ f p := by
  induction rest with
  | nil =>
    intro p hp
    rw [List.mem_singleton] at hp
    rw [hp]
    exact le_refl _
  | cons q rest ih =>
    intro p hp
    have e : minOver f v0 (q :: rest) = min (f q) (minOver f v0 rest) := rfl
    rw [e]
    rcases List.mem_cons.mp hp with rfl | hp2
    · exact le_trans (min_le_right _ _) (ih p (List.mem_cons_self _ _))
    · rcases List.mem_cons.mp hp2 with rfl | hp3
      · exact min_le_left _ _
      · exact le_trans (min_le_right _ _) (ih p (List.mem_cons_of_mem _ hp3))

theorem minOver_mem {V : Type} (f : V → ℚ) (v0 : V) (rest : List V) :
    ∃ p ∈ v0 :: rest, minOver f v0 rest = f p := by
  induction rest with
  | nil => exact ⟨v0, List.mem_singleton.mpr rfl, rfl⟩
  | cons q rest ih =>
    have e : minOver f v0 (q :: rest) = min (f q) (minOver f v0 rest) := rfl
    obtain ⟨p, hp, hpe⟩ := ih
    rw [e]
    rcases min_choice (f q) (minOver f v0 rest) with hm | hm
    · exact ⟨q, by simp, hm⟩
    · refine ⟨p, ?_, by rw [hm, hpe]⟩
      rcases List.mem_cons.mp hp with rfl | hp2
      · exact List.mem_cons_self _ _
      · exact List.mem_cons_of_mem _ (List.mem_cons_of_mem _ hp2)

theorem le_maxOver {V : Type} (f : V → ℚ) (v0 : V) (rest : List V) :
    ∀ p ∈ v0 :: rest, f p ≤ maxOver f v0 rest := by
  induction rest with
  | nil =>
    intro p hp
    rw [List.mem_singleton] at hp
    rw [hp]
    exact le_refl _
  | cons q rest ih =>
    intro p hp
    have e : maxOver f v0 (q :: rest) = max (f q) (maxOver f v0 rest) := rfl
    rw [e]
    rcases List.mem_cons.mp hp with rfl | hp2
    · exact le_trans (ih p (List.mem_cons_self _ _)) (le_max_right _ _)
    · rcases List.mem_cons.mp hp2 with rfl | hp3
      · exact le_max_left _ _
      · exact le_trans (ih p (List.mem_cons_of_mem _ hp3)) (le_max_right _ _)

theorem maxOver_mem {V : Type} (f : V → ℚ) (v0 : V) (rest : List V) :
    ∃ p ∈ v0 :: rest, maxOver f v0 rest = f p := by
  induction rest with
  | nil => exact ⟨v0, List.mem_singleton.mpr rfl, rfl⟩
  | cons q rest ih =>
    have e : maxOver f v0 (q :: rest) = max (f q) (maxOver f v0 rest) := rfl
    obtain ⟨p, hp, hpe⟩ := ih
    rw [e]
    rcases max_choice (f q) (maxOver f v0 rest) with hm | hm
    · exact ⟨q, by simp, hm⟩
    · refine ⟨p, ?_, by rw [hm, hpe]⟩
      rcases List.mem_cons.mp hp with rfl | hp2
      · exact List.mem_cons_self _ _
      · exact List.mem_cons_of_mem _ (List.mem_cons_of_mem _ hp2)

theorem calcMinMax_cons_false {V : Type} [Vec3 V] (v0 : V) (rest : List V) :
    calcMinMax (v0 :: rest) false =
      ⟨snap (minOver Vec3.x v0 rest), snap (minOver Vec3.y v0 rest),
        snap (minOver Vec3.z v0 rest), snap (maxOver Vec3.x v0 rest),
        snap (maxOver Vec3.y v0 rest), snap (maxOver Vec3.z v0 rest)⟩ := by
  unfold calcMinMax
  simp only [Bool.false_eq_true, if_false, minMax_foldl, List.foldr_cons, minOver, maxOver]
  simp only [← foldr_min_init, ← foldr_max_init, min_self, max_self]

/-- C20. `calcMinMax` equals its reference definition `calcMinMaxRef`: for a non-empty
list with `isNormal = false` it returns the snapped minimum of x, y, z and the snapped
maximum of x, y, z over all elements (the minimum is a lower bound that is attained,
the maximum an upper bound that is attained), where `snap v` is 0 when `|v|` is below
the float literal `1e-9f` and `v` otherwise; for a non-empty list with
`isNormal = true` it returns (-1,-1,-1,1,1,1) whatever the contents; for the empty
list it returns six zeros. -/
theorem calcMinMax_eq_reference {V : Type} [Vec3 V] (v : List V) (isNormal : Bool)
    (v0 : V) (rest : List V) (f : V → ℚ) (x : ℚ) :
    calcMinMax v isNormal = calcMinMaxRef v isNormal ∧
    calcMinMax (v0 :: rest) false =
      ⟨snap (minOver Vec3.x v0 rest), snap (minOver Vec3.y v0 rest),
        snap (minOver Vec3.z v0 rest), snap (maxOver Vec3.x v0 rest),
        snap (maxOver Vec3.y v0 rest), snap (maxOver Vec3.z v0 rest)⟩ ∧
    calcMinMax (v0 :: rest) true = ⟨-1, -1, -1, 1, 1, 1⟩ ∧
    calcMinMax ([] : List V) isNormal = ⟨0, 0, 0, 0, 0, 0⟩ ∧
    ((∀ p ∈ v0 :: rest, minOver f v0 rest ≤ f p) ∧ (∃ p ∈ v0 :: rest, minOver f v0 rest = f p)) ∧
    ((∀ p ∈ v0 :: rest, f p ≤ maxOver f v0 rest) ∧ (∃ p ∈ v0 :: rest, maxOver f v0 rest = f p)) ∧
    ((|x| < float1em9 → snap x = 0) ∧ (¬ |x| < float1em9 → snap x = x)) ∧
    |float1em9 - 1 / 10 ^ 9| < 1 / 10 ^ 16 := by
  refine ⟨?_, calcMinMax_cons_false v0 rest, rfl, rfl, ⟨minOver_le f v0 rest, minOver_mem f v0 rest⟩,
    ⟨le_maxOver f v0 rest, maxOver_mem f v0 rest⟩, ⟨?_, ?_⟩, ?_⟩
  · cases v with
    | nil => rfl
    | cons w ws =>
      cases isNormal with
      | true => rfl
      | false =>
        rw [calcMinMax_cons_false]
        rfl
  · intro hx
    unfold snap
    rw [if_pos hx]
  · intro hx
    unfold snap
    rw [if_neg hx]
  · unfold float1em9
    rw [abs_lt]
    constructor <;> norm_num

/-! ## Theorems: `MeshShape` -/

theorem modifyAt_length {α : Type} (l : List α) (i : Nat) (f : α → α) :
    (modifyAt l i f).length = l.length := by
  unfold modifyAt
  cases l[i]? with
  | none => rfl
  | some x => simp

theorem modifyAt_getElem?_ne {α : Type} (l : List α) {i j : Nat} (f : α → α) (hij : i ≠ j) :
    (modifyAt l i f)[j]? = l[j]? := by
  unfold modifyAt
  cases l[i]? with
  | none => rfl
  | some x => simp [List.getElem?_set, hij]

theorem modifyAt_getElem?_eq {α : Type} (l : List α) (i : Nat) (f : α → α) :
    (modifyAt l i f)[i]? = (l[i]?).map f := by
  unfold modifyAt
  cases hx : l[i]? with
  | none => simp [hx]
  | some x =>
    have hi : i < l.length := (List.getElem?_eq_some.mp hx).1
    simp [List.getElem?_set, hi]

theorem mem_modifyAt {α : Type} {l : List α} {i : Nat} {f : α → α} {b : α}
    (hb : b ∈ modifyAt l i f) : b ∈ l ∨ ∃ x ∈ l, b = f x := by
  obtain ⟨j, hj⟩ := List.mem_iff_getElem?.mp hb
  by_cases hij : i = j
  · subst hij
    rw [modifyAt_getElem?_eq] at hj
    cases hx : l[i]? with
    | none => rw [hx] at hj; simp at hj
    | some x =>
      rw [hx] at hj
      simp only [Option.map_some', Option.some.injEq] at hj
      exact Or.inr ⟨x, List.getElem?_mem hx, hj.symm⟩
  · rw [modifyAt_getElem?_ne l f hij] at hj
    exact Or.inl (List.getElem?_mem hj)

theorem mem_resize {α : Type} {l : List α} {n : Nat} {fill b : α}
    (hb : b ∈ resize l n fill) : b ∈ l ∨ b = fill := by
  unfold resize at hb
  rcases List.mem_append.mp hb with h1 | h1
  · exact Or.inl (List.mem_of_mem_take h1)
  · exact Or.inr (List.eq_of_mem_replicate h1)

theorem toUInt32_le (n : Nat) : toUInt32 n ≤ n := Nat.mod_le _ _

theorem segmentIndices_length (baseEdge k : Nat) :
    (segmentIndices baseEdge k).length = 2 * (k - 1) := by
  unfold segmentIndices
  rw [flatMap_block_length
    (fun i => [toUInt32 (baseEdge + i), toUInt32 (baseEdge + i + 1)]) 2 (fun _ => rfl),
    List.length_range]

theorem segmentIndices_lt {baseEdge k i : Nat} (hi : i ∈ segmentIndices baseEdge k) :
    i < baseEdge + k := by
  unfold segmentIndices at hi
  obtain ⟨j, hj, hij⟩ := List.mem_flatMap.mp hi
  have hjk : j < k - 1 := List.mem_range.mp hj
  have h1 := toUInt32_le (baseEdge + j)
  have h2 := toUInt32_le (baseEdge + j + 1)
  simp only [List.mem_cons, List.mem_singleton, List.not_mem_nil, or_false] at hij
  rcases hij with rfl | rfl <;> omega

theorem processEdge_inv (K : Kernel) (st : EdgeLoopState) (e : Edge)
    (hb : st.baseEdge = st.eB.vertices.length) (hinv : EdgeBucketInv st.eB) :
    (processEdge K st e).baseEdge = (processEdge K st e).eB.vertices.length ∧
    EdgeBucketInv (processEdge K st e).eB := by
  unfold processEdge
  by_cases hc : e.curve = true
  · simp only [hc, Bool.not_true, Bool.false_eq_true, if_false]
    cases hs : e.sample (edgeDeflection (match e.length with | some l => l | none => 10)) with
    | none => exact ⟨hb, hinv⟩
    | some pts =>
      simp only
      by_cases hk : pts.length < 2
      · rw [if_pos hk]
        exact ⟨hb, hinv⟩
      · rw [if_neg hk]
        refine ⟨?_, ?_, ?_⟩
        · simp [hb]
        · simp only [List.length_append, segmentIndices_length]
          have := hinv.1
          omega
        · intro i hi
          simp only [List.length_append, List.length_map]
          rcases List.mem_append.mp hi with h1 | h1
          · have := hinv.2 i h1
            omega
          · have := segmentIndices_lt h1
            omega
  · simp only [Bool.not_eq_true] at hc
    simp only [hc, Bool.not_false, if_true]
    exact ⟨hb, hinv⟩

theorem edgeLoop_inv (K : Kernel) (edges : List Edge) (st : EdgeLoopState)
    (hb : st.baseEdge = st.eB.vertices.length) (hinv : EdgeBucketInv st.eB) :
    EdgeBucketInv (edges.foldl (processEdge K) st).eB := by
  induction edges generalizing st with
  | nil => exact hinv
  | cons e edges ih =>
    rw [List.foldl_cons]
    obtain ⟨h1, h2⟩ := processEdge_inv K st e hb hinv
    exact ih _ h1 h2

theorem edgeBucketInv_default : EdgeBucketInv {} := by
  constructor
  · rfl
  · intro i hi
    cases hi

theorem tagEdgeBucket_inv (edgeBuckets : List EdgeBucket) (k : Int)
    (h : ∀ e ∈ edgeBuckets, EdgeBucketInv e) : ∀ e ∈ tagEdgeBucket edgeBuckets k, EdgeBucketInv e := by
  intro e he
  unfold tagEdgeBucket at he
  have hbase : ∀ x ∈ (if k ≥ toInt32 edgeBuckets.length then
      resize edgeBuckets (k + 1).toNat {} else edgeBuckets), EdgeBucketInv x := by
    intro x hx
    split_ifs at hx
    · rcases mem_resize hx with h1 | h1
      · exact h x h1
      · rw [h1]
        exact edgeBucketInv_default
    · exact h x hx
  rcases mem_modifyAt he with h1 | ⟨x, hx, rfl⟩
  · exact hbase e h1
  · exact hbase x hx

theorem meshShape_edges_inv (K : Kernel) (root : Shape) (c : RGBA) (s : MeshState)
    (h : ∀ e ∈ s.edgeBuckets, EdgeBucketInv e) :
    ∀ e ∈ (MeshShape K root c s).edgeBuckets, EdgeBucketInv e := by
  unfold MeshShape
  by_cases hn : root.isNull = true
  · rw [if_pos hn]
    exact h
  · rw [if_neg hn]
    intro e he
    simp only at he
    rcases mem_modifyAt he with h1 | ⟨x, hx, rfl⟩
    · exact tagEdgeBucket_inv _ _ h e h1
    · exact edgeLoop_inv K root.edges ⟨x, x.vertices.length⟩ rfl (tagEdgeBucket_inv _ _ h x hx)

theorem meshShapes_edges_inv (K : Kernel) (calls : List (Shape × RGBA)) (s : MeshState)
    (h : ∀ e ∈ s.edgeBuckets, EdgeBucketInv e) :
    ∀ e ∈ (meshShapes K calls s).edgeBuckets, EdgeBucketInv e := by
  induction calls generalizing s with
  | nil => exact h
  | cons call calls ih =>
    unfold meshShapes
    rw [List.foldl_cons]
    exact ih _ (meshShape_edges_inv K call.1 call.2 s h)

/-- C17. Edge-bucket invariant of `MeshShape`. Starting from edge buckets that all have
an even number of indices, each below the number of vertices of its bucket (in
particular from no buckets), for every shape, every base colour and every outcome of
the kernel calls on its curve segments, after `MeshShape` every edge bucket again has
an even number of indices, each below the number of vertices; the same holds after any
sequence of `MeshShape` calls that share the bucket vectors and the palette. -/
theorem meshShape_edge_bucket_invariant (K : Kernel) (root : Shape) (c : RGBA)
    (calls : List (Shape × RGBA)) (s : MeshState)
    (h : ∀ e ∈ s.edgeBuckets, EdgeBucketInv e) :
    (∀ e ∈ (MeshShape K root c s).edgeBuckets,
      e.indices.length % 2 = 0 ∧ ∀ i ∈ e.indices, i < e.vertices.length) ∧
    (∀ e ∈ (meshShapes K calls s).edgeBuckets,
      e.indices.length % 2 = 0 ∧ ∀ i ∈ e.indices, i < e.vertices.length) ∧
    (∀ e ∈ (meshShapes K calls MeshState.fresh).edgeBuckets,
      e.indices.length % 2 = 0 ∧ ∀ i ∈ e.indices, i < e.vertices.length) :=
  ⟨meshShape_edges_inv K root c s h, meshShapes_edges_inv K calls s h,
    meshShapes_edges_inv K calls MeshState.fresh (fun e he => by cases he)⟩

/-- Witness for `meshShape_edge_bucket_invariant`: a shape with one sampled curve,
accumulated into a state that already holds an edge bucket. -/
theorem meshShape_edge_bucket_invariant_witness :
    (∀ e ∈ sampleMeshState.edgeBuckets, EdgeBucketInv e) ∧
    (∀ e ∈ (MeshShape sampleKernel flatShape ⟨1, 0, 0, 1⟩ sampleMeshState).edgeBuckets,
      e.indices.length % 2 = 0 ∧ ∀ i ∈ e.indices, i < e.vertices.length) :=
  have h : ∀ e ∈ sampleMeshState.edgeBuckets, EdgeBucketInv e := by
    intro e he
    rw [show sampleMeshState.edgeBuckets = [sampleEdge] from rfl, List.mem_singleton] at he
    subst he
    exact ⟨rfl, by decide⟩
  ⟨h, (meshShape_edge_bucket_invariant sampleKernel flatShape ⟨1, 0, 0, 1⟩ [] sampleMeshState
    h).1⟩

theorem processFace_materialIndex (K : Kernel) (b : TriBucket) (f : Face) :
    (processFace K b f).materialIndex = b.materialIndex := by
  unfold processFace
  cases f.triangulation with
  | none => rfl
  | some t =>
    simp only
    split_ifs
    · rfl
    · cases normalizeAll K _ <;> rfl
    · rfl

theorem faces_materialIndex (K : Kernel) (faces : List Face) (b : TriBucket) :
    (faces.foldl (processFace K) b).materialIndex = b.materialIndex := by
  induction faces generalizing b with
  | nil => rfl
  | cons f faces ih => rw [List.foldl_cons, ih, processFace_materialIndex]

theorem modifyAt_map_eq {α β : Type} (l : List α) (i : Nat) (f : α → α) (g : α → β)
    (hf : ∀ x, g (f x) = g x) : (modifyAt l i f).map g = l.map g := by
  apply List.ext_getElem?
  intro j
  rw [List.getElem?_map, List.getElem?_map]
  by_cases hij : i = j
  · subst hij
    rw [modifyAt_getElem?_eq]
    cases l[i]? with
    | none => rfl
    | some x => simp [hf]
  · rw [modifyAt_getElem?_ne l f hij]

theorem meshShape_tri_materialIndex (K : Kernel) (root : Shape) (c : RGBA) (s : MeshState)
    (hnull : root.isNull = false) :
    (MeshShape K root c s).triBuckets.map (fun b => b.materialIndex) =
      (tagTriBucket s.triBuckets (s.matReg.getOrCreate (shapeColorOf c)).1).map
        (fun b => b.materialIndex) := by
  unfold MeshShape
  rw [hnull]
  simp only [Bool.false_eq_true, if_false]
  exact modifyAt_map_eq _ _ _ _ (fun x => faces_materialIndex K root.faces x)

theorem meshShape_matReg (K : Kernel) (root : Shape) (c : RGBA) (s : MeshState)
    (hnull : root.isNull = false) :
    (MeshShape K root c s).matReg =
      ((s.matReg.getOrCreate (shapeColorOf c)).2.getOrCreate
        (edgeColorOf (shapeColorOf c))).2 := by
  unfold MeshShape
  rw [hnull]
  rfl

/-- C18. For every base colour with `r = g = b = 0` passed to `MeshShape` with a shape
that is not null, the colour looked up in the palette is gray (0.7, 0.7, 0.7, 1); with
a fresh palette the palette afterwards is gray followed by the dark edge colour, the
only triangle bucket has material index 0, which is the gray entry, and no palette
entry is black. A base colour with a non-zero `r`, `g` or `b` is looked up unchanged. -/
theorem black_base_colour_becomes_gray (K : Kernel) (root : Shape) (c : RGBA) (s : MeshState)
    (hnull : root.isNull = false) :
    (MeshShape K root c s).matReg =
      ((s.matReg.getOrCreate (shapeColorOf c)).2.getOrCreate
        (edgeColorOf (shapeColorOf c))).2 ∧
    (c.r = 0 ∧ c.g = 0 ∧ c.b = 0 → shapeColorOf c = gray) ∧
    (¬ (c.r = 0 ∧ c.g = 0 ∧ c.b = 0) → shapeColorOf c = c) ∧
    gray = ⟨11744051 / 16777216, 11744051 / 16777216, 11744051 / 16777216, 1⟩ ∧
    (c.r = 0 ∧ c.g = 0 ∧ c.b = 0 →
      (MeshShape K root c MeshState.fresh).matReg.mats =
        [gray, ⟨float01, float01, float01, 1⟩] ∧
      (MeshShape K root c MeshState.fresh).triBuckets.map (fun b => b.materialIndex) = [0] ∧
      (MeshShape K root c MeshState.fresh).matReg.mats[0]? = some gray ∧
      ∀ m ∈ (MeshShape K root c MeshState.fresh).matReg.mats,
        ¬ (m.r = 0 ∧ m.g = 0 ∧ m.b = 0)) := by
  have hgray : c.r = 0 ∧ c.g = 0 ∧ c.b = 0 → shapeColorOf c = gray := by
    intro hc
    unfold shapeColorOf
    rw [if_pos hc]
  refine ⟨meshShape_matReg K root c s hnull, hgray, ?_, rfl, ?_⟩
  · intro hc
    unfold shapeColorOf
    rw [if_neg hc]
  · intro hc
    have hm : (MeshShape K root c MeshState.fresh).matReg.mats =
        [gray, ⟨float01, float01, float01, 1⟩] := by
      rw [meshShape_matReg K root c _ hnull, hgray hc]
      decide!
    have ht : (MeshShape K root c MeshState.fresh).triBuckets.map (fun b => b.materialIndex)
        = [0] := by
      rw [meshShape_tri_materialIndex K root c _ hnull, hgray hc]
      decide!
    refine ⟨hm, ht, by rw [hm]; rfl, ?_⟩
    rw [hm]
    intro m hmem
    simp only [List.mem_cons, List.mem_singleton, List.not_mem_nil, or_false] at hmem
    rcases hmem with rfl | rfl
    · intro hz
      exact absurd hz.1 (by decide!)
    · intro hz
      exact absurd hz.1 (by decide!)

/-- Witness for `black_base_colour_becomes_gray`: a black shape meshed into a fresh
state. -/
theorem black_base_colour_becomes_gray_witness :
    flatShape.isNull = false ∧
    (MeshShape sampleKernel flatShape ⟨0, 0, 0, 1⟩ MeshState.fresh).matReg.mats =
      [gray, ⟨float01, float01, float01, 1⟩] :=
  ⟨rfl, ((black_base_colour_becomes_gray sampleKernel flatShape ⟨0, 0, 0, 1⟩ MeshState.fresh
    rfl).2.2.2.2 ⟨rfl, rfl, rfl⟩).1⟩

theorem processEdge_materialIndex (K : Kernel) (st : EdgeLoopState) (e : Edge) :
    (processEdge K st e).eB.materialIndex = st.eB.materialIndex := by
  unfold processEdge
  by_cases hc : e.curve = true
  · simp only [hc, Bool.not_true, Bool.false_eq_true, if_false]
    cases hs : e.sample (edgeDeflection (match e.length with | some l => l | none => 10)) with
    | none => rfl
    | some pts =>
      simp only
      by_cases hk : pts.length < 2
      · rw [if_pos hk]
      · rw [if_neg hk]
  · simp only [Bool.not_eq_true] at hc
    simp only [hc, Bool.not_false, if_true]

theorem edges_materialIndex (K : Kernel) (edges : List Edge) (st : EdgeLoopState) :
    (edges.foldl (processEdge K) st).eB.materialIndex = st.eB.materialIndex := by
  induction edges generalizing st with
  | nil => rfl
  | cons e edges ih => rw [List.foldl_cons, ih, processEdge_materialIndex]

theorem meshShape_edge_materialIndex (K : Kernel) (root : Shape) (c : RGBA) (s : MeshState)
    (hnull : root.isNull = false) :
    (MeshShape K root c s).edgeBuckets.map (fun e => e.materialIndex) =
      (tagEdgeBucket s.edgeBuckets
        ((s.matReg.getOrCreate (shapeColorOf c)).2.getOrCreate
          (edgeColorOf (shapeColorOf c))).1).map (fun e => e.materialIndex) := by
  unfold MeshShape
  rw [hnull]
  simp only [Bool.false_eq_true, if_false]
  exact modifyAt_map_eq _ _ _ _ (fun x => edges_materialIndex K root.edges ⟨x, x.vertices.length⟩)

theorem grow_and_tag {α : Type} (l : List α) (dflt : α) (f : α → α) (k : Nat)
    (hk : l.length ≤ k) :
    (modifyAt (resize l (k + 1) dflt) k f).length = k + 1 ∧
    (∀ i, i < l.length → (modifyAt (resize l (k + 1) dflt) k f)[i]? = l[i]?) ∧
    (∀ i, l.length ≤ i → i < k → (modifyAt (resize l (k + 1) dflt) k f)[i]? = some dflt) ∧
    (modifyAt (resize l (k + 1) dflt) k f)[k]? = some (f dflt) := by
  have hr : resize l (k + 1) dflt = l ++ List.replicate (k + 1 - l.length) dflt :=
    resize_of_le l (k + 1) dflt (by omega)
  refine ⟨?_, ?_, ?_, ?_⟩
  · rw [modifyAt_length, resize_length]
  · intro i hi
    rw [modifyAt_getElem?_ne _ f (by omega : k ≠ i), hr, List.getElem?_append_left hi]
  · intro i hi hik
    rw [modifyAt_getElem?_ne _ f (by omega : k ≠ i), hr, List.getElem?_append_right hi,
      List.getElem?_replicate]
    rw [if_pos (by omega)]
  · rw [modifyAt_getElem?_eq, hr, List.getElem?_append_right hk, List.getElem?_replicate,
      if_pos (by omega)]
    rfl

/-- C19 (counterexample). A red shape meshed into a state with no buckets and a fresh
palette obtains material index 1 for its edges; the edge bucket vector grows from 0 to
2 entries, and the newly created bucket at position 0 carries material index -1, not 0:
only the bucket at position 1 is tagged. -/
theorem growth_leaves_other_new_buckets_untagged :
    MeshState.fresh.edgeBuckets.length = 0 ∧
    ((MeshState.fresh.matReg.getOrCreate (shapeColorOf ⟨1, 0, 0, 1⟩)).2.getOrCreate
      (edgeColorOf (shapeColorOf ⟨1, 0, 0, 1⟩))).1 = 1 ∧
    (MeshShape sampleKernel flatShape ⟨1, 0, 0, 1⟩ MeshState.fresh).edgeBuckets.map
      (fun e => e.materialIndex) = [-1, 1] ∧
    (tagEdgeBucket [] 1).map (fun e => e.materialIndex) = [-1, 1] ∧
    ((MeshShape sampleKernel flatShape ⟨1, 0, 0, 1⟩ MeshState.fresh).edgeBuckets[0]?).map
      (fun e => e.materialIndex) ≠ some 0 := by
  decide!

/-- C19 (amended). When `MeshShape` obtains a material index `k` (a non-negative `int`)
and the bucket vector, triangle or edge, has fewer than `k + 1` entries, the vector
grows to exactly `k + 1` entries; the bucket at position `k` is tagged with `k`; every
other newly created bucket is a default bucket, empty and with material index -1; the
buckets that existed keep their contents. The material indices of the buckets after
`MeshShape` are those after this step. -/
theorem bucket_growth_tags_target_bucket (triBuckets : List TriBucket)
    (edgeBuckets : List EdgeBucket) (k j : Int) (K : Kernel) (root : Shape) (c : RGBA)
    (s : MeshState) (hk : 0 ≤ k ∧ k < 2 ^ 31) (hkt : (triBuckets.length : Int) ≤ k)
    (hj : 0 ≤ j ∧ j < 2 ^ 31) (hje : (edgeBuckets.length : Int) ≤ j)
    (hnull : root.isNull = false) :
    ((tagTriBucket triBuckets k).length = k.toNat + 1 ∧
      (∀ i, i < triBuckets.length → (tagTriBucket triBuckets k)[i]? = triBuckets[i]?) ∧
      (∀ i, triBuckets.length ≤ i → i < k.toNat →
        (tagTriBucket triBuckets k)[i]? = some { materialIndex := -1 }) ∧
      (tagTriBucket triBuckets k)[k.toNat]? = some { materialIndex := k }) ∧
    ((tagEdgeBucket edgeBuckets j).length = j.toNat + 1 ∧
      (∀ i, i < edgeBuckets.length → (tagEdgeBucket edgeBuckets j)[i]? = edgeBuckets[i]?) ∧
      (∀ i, edgeBuckets.length ≤ i → i < j.toNat →
        (tagEdgeBucket edgeBuckets j)[i]? = some { materialIndex := -1 }) ∧
      (tagEdgeBucket edgeBuckets j)[j.toNat]? = some { materialIndex := j }) ∧
    ((MeshShape K root c s).triBuckets.map (fun b => b.materialIndex) =
        (tagTriBucket s.triBuckets (s.matReg.getOrCreate (shapeColorOf c)).1).map
          (fun b => b.materialIndex) ∧
      (MeshShape K root c s).edgeBuckets.map (fun e => e.materialIndex) =
        (tagEdgeBucket s.edgeBuckets
          ((s.matReg.getOrCreate (shapeColorOf c)).2.getOrCreate
            (edgeColorOf (shapeColorOf c))).1).map (fun e => e.materialIndex)) := by
  refine ⟨?_, ?_, meshShape_tri_materialIndex K root c s hnull,
    meshShape_edge_materialIndex K root c s hnull⟩
  · have h1 : toInt32 triBuckets.length = (triBuckets.length : Int) :=
      toInt32_of_lt (by omega)
    have h2 : (k + 1).toNat = k.toNat + 1 := by omega
    unfold tagTriBucket
    rw [h1, if_pos (by omega), h2]
    exact grow_and_tag triBuckets {} _ k.toNat (by omega)
  · have h1 : toInt32 edgeBuckets.length = (edgeBuckets.length : Int) :=
      toInt32_of_lt (by omega)
    have h2 : (j + 1).toNat = j.toNat + 1 := by omega
    unfold tagEdgeBucket
    rw [h1, if_pos (by omega), h2]
    exact grow_and_tag edgeBuckets {} _ j.toNat (by omega)

/-- Witness for `bucket_growth_tags_target_bucket`: no triangle bucket and index 0, no
edge bucket and index 1. -/
theorem bucket_growth_tags_target_bucket_witness :
    ((0 : Int) ≤ 0 ∧ (0 : Int) < 2 ^ 31) ∧ ((0 : Int) ≤ 1 ∧ (1 : Int) < 2 ^ 31) ∧
    flatShape.isNull = false ∧
    (tagEdgeBucket [] 1).length = (1 : Int).toNat + 1 ∧
    (tagEdgeBucket [] 1)[(1 : Int).toNat]? = some { materialIndex := 1 } :=
  ⟨by decide, by decide, rfl,
    (bucket_growth_tags_target_bucket [] [] 0 1 sampleKernel flatShape ⟨1, 0, 0, 1⟩
      MeshState.fresh (by decide) (by decide) (by decide) (by decide) rfl).2.1.1,
    (bucket_growth_tags_target_bucket [] [] 0 1 sampleKernel flatShape ⟨1, 0, 0, 1⟩
      MeshState.fresh (by decide) (by decide) (by decide) (by decide) rfl).2.1.2.2.2⟩

/-- C16 (failing input). A shape with one patch of three collinear nodes and the one
triangle (1, 2, 3), meshed into a state with no buckets: the node numbers are in range,
the cross product is the zero vector, so nothing is normalized in the triangle loop and
the three accumulator entries stay zero; `Normalize` raises on the first of them, the
handler is entered, and the bucket keeps the three vertices and three indices of the
patch but receives no normals: `normals.length = 0` and `vertices.length = 3`. -/
theorem degenerate_patch_leaves_vertices_without_normals :
    (∀ b ∈ MeshState.fresh.triBuckets, TriBucketInv b) ∧
    degenerateShape.faces.map (fun f => f.triangulation.map
      (fun t => (t.nodes.length, t.triangles))) = [some (3, [⟨1, 2, 3⟩])] ∧
    sampleKernel.magnitude Vec3d.zero = 0 ∧
    sampleKernel.normalize Vec3d.zero = none ∧
    (MeshShape sampleKernel degenerateShape ⟨1, 0, 0, 1⟩ MeshState.fresh).triBuckets.map
      (fun b => (b.vertices.length, b.normals.length, b.indices)) = [(3, 0, [0, 1, 2])] ∧
    ¬ (∀ b ∈ (MeshShape sampleKernel degenerateShape ⟨1, 0, 0, 1⟩
        MeshState.fresh).triBuckets, b.normals.length = b.vertices.length) := by
  refine ⟨?_, ?_, ?_, ?_, ?_, ?_⟩
  · intro b hb
    cases hb
  · decide!
  · decide!
  · decide!
  · decide!
  · decide!

theorem node_some_range {t : Triangulation} {n : Int} {p : Vec3d}
    (h : t.node n = some p) : 1 ≤ n ∧ n ≤ (t.nodes.length : Int) := by
  unfold Triangulation.node at h
  by_cases hr : 1 ≤ n ∧ n ≤ (t.nodes.length : Int)
  · exact hr
  · rw [if_neg hr] at h
    cases h

theorem triangleStep_some {K : Kernel} {t : Triangulation} {rev : Bool} {base : Nat}
    {st st1 : PatchState} {tr : PolyTriangle}
    (h : triangleStep K t rev base st tr = some st1) :
    st1.acc.length = st.acc.length ∧
    ∃ extra, st1.indices = st.indices ++ extra ∧ extra.length = 3 ∧
      ∀ i ∈ extra, i < base + t.nodes.length := by
  unfold triangleStep at h
  simp only at h
  cases h1 : t.node tr.n1 with
  | none => rw [h1] at h; simp at h
  | some p1 =>
    cases h2 : t.node (if rev then tr.n3 else tr.n2) with
    | none => rw [h1, h2] at h; simp at h
    | some p2 =>
      cases h3 : t.node (if rev then tr.n2 else tr.n3) with
      | none => rw [h1, h2, h3] at h; simp at h
      | some p3 =>
        rw [h1, h2, h3] at h
        simp only at h
        cases hn : faceNormal K p1 p2 p3 with
        | none => rw [hn] at h; simp at h
        | some nrm =>
          rw [hn] at h
          simp only [Option.some.injEq] at h
          subst h
          have r1 := node_some_range h1
          have r2 := node_some_range h2
          have r3 := node_some_range h3
          refine ⟨by simp only [modifyAt_length], _, rfl, rfl, ?_⟩
          intro i hi
          simp only [List.mem_cons, List.mem_singleton, List.not_mem_nil, or_false] at hi
          have u1 := toUInt32_le (base + (tr.n1 - 1).toNat)
          have u2 := toUInt32_le (base + ((if rev then tr.n3 else tr.n2) - 1).toNat)
          have u3 := toUInt32_le (base + ((if rev then tr.n2 else tr.n3) - 1).toNat)
          rcases hi with rfl | rfl | rfl <;> omega

theorem triangleLoop_spec (K : Kernel) (t : Triangulation) (rev : Bool) (base : Nat)
    (trs : List PolyTriangle) (st : PatchState) :
    (triangleLoop K t rev base st trs).1.acc.length = st.acc.length ∧
    ∃ extra, (triangleLoop K t rev base st trs).1.indices = st.indices ++ extra ∧
      extra.length % 3 = 0 ∧ ∀ i ∈ extra, i < base + t.nodes.length := by
  induction trs generalizing st with
  | nil => exact ⟨rfl, [], by simp [triangleLoop], rfl, fun i hi => by cases hi⟩
  | cons tr trs ih =>
    unfold triangleLoop
    cases hs : triangleStep K t rev base st tr with
    | none => exact ⟨rfl, [], by simp, rfl, fun i hi => by cases hi⟩
    | some st1 =>
      simp only
      obtain ⟨a1, e1, he1, hl1, hb1⟩ := triangleStep_some hs
      obtain ⟨a2, e2, he2, hl2, hb2⟩ := ih st1
      refine ⟨by rw [a2, a1], e1 ++ e2, by rw [he2, he1, List.append_assoc], ?_, ?_⟩
      · rw [List.length_append]
        omega
      · intro i hi
        rcases List.mem_append.mp hi with h1 | h1
        · exact hb1 i h1
        · exact hb2 i h1

theorem normalizeAll_length {K : Kernel} {l ns : List Vec3d}
    (h : normalizeAll K l = some ns) : ns.length = l.length := by
  induction l generalizing ns with
  | nil =>
    unfold normalizeAll at h
    simp only [Option.some.injEq] at h
    rw [← h]
  | cons v vs ih =>
    unfold normalizeAll at h
    cases hv : K.normalize v with
    | none => rw [hv] at h; simp at h
    | some n =>
      rw [hv] at h
      simp only at h
      cases hvs : normalizeAll K vs with
      | none => rw [hvs] at h; simp at h
      | some ms =>
        rw [hvs] at h
        simp only [Option.some.injEq] at h
        rw [← h, List.length_cons, List.length_cons, ih hvs]

theorem triangleStep_acc_congr (K : Kernel) (t : Triangulation) (rev : Bool)
    (base base' : Nat) (st st' : PatchState) (tr : PolyTriangle) (hacc : st.acc = st'.acc) :
    (triangleStep K t rev base st tr).map (fun s => s.acc) =
      (triangleStep K t rev base' st' tr).map (fun s => s.acc) := by
  unfold triangleStep
  simp only
  cases t.node tr.n1 with
  | none => rfl
  | some p1 =>
    cases t.node (if rev then tr.n3 else tr.n2) with
    | none => rfl
    | some p2 =>
      cases t.node (if rev then tr.n2 else tr.n3) with
      | none => rfl
      | some p3 =>
        simp only
        cases faceNormal K p1 p2 p3 with
        | none => rfl
        | some nrm => simp [hacc]

theorem triangleLoop_acc_congr (K : Kernel) (t : Triangulation) (rev : Bool)
    (base base' : Nat) (trs : List PolyTriangle) (st st' : PatchState)
    (hacc : st.acc = st'.acc) :
    (triangleLoop K t rev base st trs).2 = (triangleLoop K t rev base' st' trs).2 ∧
    (triangleLoop K t rev base st trs).1.acc = (triangleLoop K t rev base' st' trs).1.acc := by
  induction trs generalizing st st' with
  | nil => exact ⟨rfl, hacc⟩
  | cons tr trs ih =>
    have hc := triangleStep_acc_congr K t rev base base' st st' tr hacc
    unfold triangleLoop
    cases h1 : triangleStep K t rev base st tr with
    | none =>
      cases h2 : triangleStep K t rev base' st' tr with
      | none => exact ⟨rfl, hacc⟩
      | some s2 => rw [h1, h2] at hc; simp at hc
    | some s1 =>
      cases h2 : triangleStep K t rev base' st' tr with
      | none => rw [h1, h2] at hc; simp at hc
      | some s2 =>
        rw [h1, h2] at hc
        simp only [Option.map_some', Option.some.injEq] at hc
        exact ih s1 s2 hc

theorem processFace_cases (K : Kernel) (b : TriBucket) (f : Face) :
    processFace K b f = b ∨
    ∃ (t : Triangulation) (extra : List Nat),
      f.triangulation = some t ∧ ¬ (t.nodes.length < 3 || t.triangles.length < 1) = true ∧
      extra.length % 3 = 0 ∧ (∀ i ∈ extra, i < b.vertices.length + t.nodes.length) ∧
      (processFace K b f).vertices = b.vertices ++ t.nodes.map (toVertex K) ∧
      (processFace K b f).indices = b.indices ++ extra ∧
      ((processFace K b f).normals = b.normals ∨
        ∃ ns : List Vec3d, ns.length = t.nodes.length ∧
          (processFace K b f).normals = b.normals ++ ns.map (toNormal K)) ∧
      (faceRaises K f = false →
        ∃ ns : List Vec3d, ns.length = t.nodes.length ∧
          (processFace K b f).normals = b.normals ++ ns.map (toNormal K)) := by
  unfold processFace
  cases ht : f.triangulation with
  | none => exact Or.inl rfl
  | some t =>
    simp only
    by_cases hsmall : (t.nodes.length < 3 || t.triangles.length < 1) = true
    · rw [if_pos hsmall]
      exact Or.inl rfl
    · rw [if_neg hsmall]
      right
      obtain ⟨hacc, extra, hidx, hlen, hlt⟩ := triangleLoop_spec K t f.reversed b.vertices.length
        t.triangles ⟨List.replicate t.nodes.length Vec3d.zero, b.indices⟩
      obtain ⟨cflag, cacc⟩ := triangleLoop_acc_congr K t f.reversed b.vertices.length 0
        t.triangles ⟨List.replicate t.nodes.length Vec3d.zero, b.indices⟩
        ⟨List.replicate t.nodes.length Vec3d.zero, []⟩ rfl
      have hraise : faceRaises K f = false →
          (triangleLoop K t f.reversed b.vertices.length
            ⟨List.replicate t.nodes.length Vec3d.zero, b.indices⟩ t.triangles).2 = true ∧
          (normalizeAll K (triangleLoop K t f.reversed b.vertices.length
            ⟨List.replicate t.nodes.length Vec3d.zero, b.indices⟩ t.triangles).1.acc).isSome
            = true := by
        intro hf
        unfold faceRaises at hf
        rw [ht] at hf
        simp only at hf
        rw [if_neg hsmall, ← cflag, ← cacc] at hf
        simpa using hf
      simp only [List.length_replicate] at hacc
      refine ⟨t, extra, rfl, hsmall, hlen, hlt, ?_, ?_, ?_, ?_⟩
      · split_ifs
        · cases normalizeAll K _ <;> rfl
        · rfl
      · split_ifs
        · cases normalizeAll K _ <;> exact hidx
        · exact hidx
      · split_ifs
        · cases hn : normalizeAll K _ with
          | none => exact Or.inl rfl
          | some ns =>
            right
            exact ⟨ns, by rw [normalizeAll_length hn, hacc], rfl⟩
        · exact Or.inl rfl
      · intro hf
        obtain ⟨h1, h2⟩ := hraise hf
        rw [if_pos h1]
        cases hn : normalizeAll K _ with
        | none => rw [hn] at h2; simp at h2
        | some ns => exact ⟨ns, by rw [normalizeAll_length hn, hacc], rfl⟩

theorem processFace_index_inv (K : Kernel) (b : TriBucket) (f : Face)
    (h : TriBucketIndexInv b) : TriBucketIndexInv (processFace K b f) := by
  rcases processFace_cases K b f with he | ⟨t, extra, _, _, hlen, hlt, hv, hi, hn, _⟩
  · rw [he]
    exact h
  · obtain ⟨h1, h2, h3⟩ := h
    unfold TriBucketIndexInv
    rw [hv, hi]
    refine ⟨?_, ?_, ?_⟩
    · rcases hn with hn | ⟨ns, hns, hn⟩
      · rw [hn, List.length_append]
        omega
      · rw [hn, List.length_append, List.length_append, List.length_map, List.length_map]
        omega
    · rw [List.length_append]
      omega
    · intro i hmem
      rw [List.length_append, List.length_map]
      rcases List.mem_append.mp hmem with hm | hm
      · have := h3 i hm
        omega
      · exact hlt i hm

theorem processFace_inv (K : Kernel) (b : TriBucket) (f : Face)
    (h : TriBucketInv b) (hf : faceRaises K f = false) : TriBucketInv (processFace K b f) := by
  rcases processFace_cases K b f with he | ⟨t, extra, _, _, hlen, hlt, hv, hi, _, hn⟩
  · rw [he]
    exact h
  · obtain ⟨h1, h2, h3⟩ := h
    obtain ⟨ns, hns, hn2⟩ := hn hf
    unfold TriBucketInv
    rw [hv, hi, hn2]
    refine ⟨?_, ?_, ?_⟩
    · rw [List.length_append, List.length_append, List.length_map, List.length_map]
      omega
    · rw [List.length_append]
      omega
    · intro i hmem
      rw [List.length_append, List.length_map]
      rcases List.mem_append.mp hmem with hm | hm
      · have := h3 i hm
        omega
      · exact hlt i hm

theorem faces_index_inv (K : Kernel) (faces : List Face) (b : TriBucket)
    (h : TriBucketIndexInv b) : TriBucketIndexInv (faces.foldl (processFace K) b) := by
  induction faces generalizing b with
  | nil => exact h
  | cons f faces ih =>
    rw [List.foldl_cons]
    exact ih _ (processFace_index_inv K b f h)

theorem faces_inv (K : Kernel) (faces : List Face) (b : TriBucket)
    (h : TriBucketInv b) (hf : ∀ f ∈ faces, faceRaises K f = false) :
    TriBucketInv (faces.foldl (processFace K) b) := by
  induction faces generalizing b with
  | nil => exact h
  | cons f faces ih =>
    rw [List.foldl_cons]
    exact ih _ (processFace_inv K b f h (hf f (List.mem_cons_self _ _)))
      (fun x hx => hf x (List.mem_cons_of_mem _ hx))

theorem tagTriBucket_pred (P : TriBucket → Prop) (hd : P {})
    (hm : ∀ b k, P b → P { b with materialIndex := k })
    (triBuckets : List TriBucket) (k : Int) (h : ∀ b ∈ triBuckets, P b) :
    ∀ b ∈ tagTriBucket triBuckets k, P b := by
  intro b hb
  unfold tagTriBucket at hb
  have hbase : ∀ x ∈ (if k ≥ toInt32 triBuckets.length then
      resize triBuckets (k + 1).toNat {} else triBuckets), P x := by
    intro x hx
    split_ifs at hx
    · rcases mem_resize hx with h1 | h1
      · exact h x h1
      · rw [h1]
        exact hd
    · exact h x hx
  rcases mem_modifyAt hb with h1 | ⟨x, hx, rfl⟩
  · exact hbase b h1
  · exact hm x k (hbase x hx)

theorem meshShape_tris_index_inv (K : Kernel) (root : Shape) (c : RGBA) (s : MeshState)
    (h : ∀ b ∈ s.triBuckets, TriBucketIndexInv b) :
    ∀ b ∈ (MeshShape K root c s).triBuckets, TriBucketIndexInv b := by
  unfold MeshShape
  by_cases hn : root.isNull = true
  · rw [if_pos hn]
    exact h
  · rw [if_neg hn]
    intro b hb
    simp only at hb
    have ht := tagTriBucket_pred TriBucketIndexInv
      ⟨Nat.le_refl _, rfl, fun i hi => by cases hi⟩ (fun b k hb => hb) s.triBuckets
      (s.matReg.getOrCreate (shapeColorOf c)).1 h
    rcases mem_modifyAt hb with h1 | ⟨x, hx, rfl⟩
    · exact ht b h1
    · exact faces_index_inv K root.faces x (ht x hx)

theorem meshShape_tris_inv (K : Kernel) (root : Shape) (c : RGBA) (s : MeshState)
    (h : ∀ b ∈ s.triBuckets, TriBucketInv b)
    (hf : ∀ f ∈ root.faces, faceRaises K f = false) :
    ∀ b ∈ (MeshShape K root c s).triBuckets, TriBucketInv b := by
  unfold MeshShape
  by_cases hn : root.isNull = true
  · rw [if_pos hn]
    exact h
  · rw [if_neg hn]
    intro b hb
    simp only at hb
    have ht := tagTriBucket_pred TriBucketInv
      ⟨rfl, rfl, fun i hi => by cases hi⟩ (fun b k hb => hb) s.triBuckets
      (s.matReg.getOrCreate (shapeColorOf c)).1 h
    rcases mem_modifyAt hb with h1 | ⟨x, hx, rfl⟩
    · exact ht b h1
    · exact faces_inv K root.faces x (ht x hx) hf

/-- Supplement to C16: what `MeshShape` does preserve. For every kernel, shape and base
colour, triangle buckets whose indices come in triples and are below the vertex count,
with at most as many normals as vertices, stay so; and when no patch of the shape
makes a kernel call raise, buckets with `normals.length = vertices.length` stay so. -/
theorem meshShape_tri_bucket_invariant_when_no_patch_raises (K : Kernel) (root : Shape)
    (c : RGBA) (s : MeshState) :
    ((∀ b ∈ s.triBuckets, TriBucketIndexInv b) →
      ∀ b ∈ (MeshShape K root c s).triBuckets, TriBucketIndexInv b) ∧
    ((∀ b ∈ s.triBuckets, TriBucketInv b) → (∀ f ∈ root.faces, faceRaises K f = false) →
      ∀ b ∈ (MeshShape K root c s).triBuckets, TriBucketInv b) :=
  ⟨meshShape_tris_index_inv K root c s, meshShape_tris_inv K root c s⟩

theorem faceNormal_le (K : Kernel) (p1 p2 p3 : Vec3d)
    (h : K.magnitude (crossOf p1 p2 p3) ≤ double1em12) :
    faceNormal K p1 p2 p3 = some (crossOf p1 p2 p3) := by
  unfold faceNormal crossOf at *
  simp only
  rw [if_neg (not_lt.mpr h)]

theorem faceNormal_gt (K : Kernel) (p1 p2 p3 : Vec3d)
    (h : double1em12 < K.magnitude (crossOf p1 p2 p3)) :
    faceNormal K p1 p2 p3 = K.normalize (crossOf p1 p2 p3) := by
  unfold faceNormal crossOf at *
  simp only
  rw [if_pos h]

theorem Vec3d.add_zero (v : Vec3d) : v.add Vec3d.zero = v := by
  cases v
  simp [Vec3d.add, Vec3d.zero]

theorem modifyAt_id {α : Type} (l : List α) (i : Nat) (f : α → α) (hf : ∀ x, f x = x) :
    modifyAt l i f = l := by
  apply List.ext_getElem?
  intro j
  by_cases hij : i = j
  · subst hij
    rw [modifyAt_getElem?_eq]
    cases l[i]? with
    | none => rfl
    | some x => exact congrArg some (hf x)
  · rw [modifyAt_getElem?_ne l f hij]

theorem triangleStep_eq (K : Kernel) (t : Triangulation) (rev : Bool) (base : Nat)
    (st : PatchState) (tr : PolyTriangle) (p1 p2 p3 nrm : Vec3d)
    (h1 : t.node tr.n1 = some p1)
    (h2 : t.node (if rev then tr.n3 else tr.n2) = some p2)
    (h3 : t.node (if rev then tr.n2 else tr.n3) = some p3)
    (hn : faceNormal K p1 p2 p3 = some nrm) :
    triangleStep K t rev base st tr = some
      { acc := modifyAt (modifyAt (modifyAt st.acc (tr.n1 - 1).toNat (fun v => v.add nrm))
          ((if rev then tr.n3 else tr.n2) - 1).toNat (fun v => v.add nrm))
          ((if rev then tr.n2 else tr.n3) - 1).toNat (fun v => v.add nrm)
        indices := st.indices ++
          [toUInt32 (base + (tr.n1 - 1).toNat),
            toUInt32 (base + ((if rev then tr.n3 else tr.n2) - 1).toNat),
            toUInt32 (base + ((if rev then tr.n2 else tr.n3) - 1).toNat)] } := by
  unfold triangleStep
  simp only [h1, h2, h3, hn]

theorem triangleStep_accumulated (K : Kernel) (t : Triangulation) (rev : Bool) (base : Nat)
    (st : PatchState) (tr : PolyTriangle) (p1 p2 p3 nrm : Vec3d)
    (h1 : t.node tr.n1 = some p1)
    (h2 : t.node (if rev then tr.n3 else tr.n2) = some p2)
    (h3 : t.node (if rev then tr.n2 else tr.n3) = some p3)
    (hn : faceNormal K p1 p2 p3 = some nrm) :
    triangleStep K t rev base st tr = some
      { acc := accumulated st.acc rev tr nrm
        indices := st.indices ++ pushedIndices base rev tr } :=
  triangleStep_eq K t rev base st tr p1 p2 p3 nrm h1 h2 h3 hn

theorem accumulated_zero (acc : List Vec3d) (rev : Bool) (tr : PolyTriangle) :
    accumulated acc rev tr Vec3d.zero = acc := by
  unfold accumulated
  rw [modifyAt_id _ _ _ Vec3d.add_zero, modifyAt_id _ _ _ Vec3d.add_zero,
    modifyAt_id _ _ _ Vec3d.add_zero]

/-- C21 (counterexample). A triangle with corners `(0,0,0)`, `(2^-24,0,0)`,
`(0,2^-24,0)` has the cross product `(0,0,2^-48)`, whose magnitude is below `1e-12`:
normalization is skipped, and the face normal added to the three accumulator entries is
this cross product, not the zero vector; the final normalization turns each entry into
`(0,0,1)`, so the triangle does determine the vertex normals of the patch. At a
magnitude equal to `1e-12` normalization is skipped as well, and the vector added has
magnitude `1e-12`, not unit length. -/
theorem skipped_normalization_adds_cross_product :
    sampleKernel.magnitude (crossOf ⟨0, 0, 0⟩ ⟨1 / 2 ^ 24, 0, 0⟩ ⟨0, 1 / 2 ^ 24, 0⟩)
      < double1em12 ∧
    faceNormal sampleKernel ⟨0, 0, 0⟩ ⟨1 / 2 ^ 24, 0, 0⟩ ⟨0, 1 / 2 ^ 24, 0⟩
      = some ⟨0, 0, 1 / 2 ^ 48⟩ ∧
    faceNormal sampleKernel ⟨0, 0, 0⟩ ⟨1 / 2 ^ 24, 0, 0⟩ ⟨0, 1 / 2 ^ 24, 0⟩
      ≠ some Vec3d.zero ∧
    (sliverFace.triangulation.map (fun t =>
      (triangleLoop sampleKernel t false 0 ⟨List.replicate 3 Vec3d.zero, []⟩
        t.triangles).1.acc)) =
      some [⟨0, 0, 1 / 2 ^ 48⟩, ⟨0, 0, 1 / 2 ^ 48⟩, ⟨0, 0, 1 / 2 ^ 48⟩] ∧
    (processFace sampleKernel {} sliverFace).normals = [⟨0, 0, 1⟩, ⟨0, 0, 1⟩, ⟨0, 0, 1⟩] ∧
    sampleKernel.magnitude
      (crossOf ⟨0, 0, 0⟩ ⟨4951760157141521 / 2 ^ 52, 0, 0⟩ ⟨0, 1 / 2 ^ 40, 0⟩)
      = double1em12 ∧
    faceNormal sampleKernel ⟨0, 0, 0⟩ ⟨4951760157141521 / 2 ^ 52, 0, 0⟩ ⟨0, 1 / 2 ^ 40, 0⟩
      = some ⟨0, 0, double1em12⟩ ∧
    sampleKernel.normalize ⟨0, 0, double1em12⟩ = some ⟨0, 0, 1⟩ ∧
    (processFace sampleKernel {} thresholdFace).normals =
      [⟨0, 0, 1⟩, ⟨0, 0, 1⟩, ⟨0, 0, 1⟩] := by
  refine ⟨?_, ?_, ?_, ?_, ?_, ?_, ?_, ?_, ?_⟩
  · decide!
  · decide!
  · decide!
  · decide!
  · decide!
  · decide!
  · decide!
  · decide!
  · decide!

/-- C21 (amended). For every triangle of a patch whose node numbers are in range, with
corners `p1`, `p2`, `p3` after the winding swap: when the magnitude of the cross product
of its first two edge vectors is at most `1e-12`, normalization is skipped and the
vector added into the accumulator entries of its three nodes is the cross product
itself, unscaled; when the cross product is the zero vector (of magnitude at most
`1e-12`) the accumulator is left as it was; when the magnitude exceeds `1e-12` the
vector added is the result of `Normalize` on the cross product. -/
theorem face_normal_is_unscaled_cross_product_up_to_threshold (K : Kernel)
    (t : Triangulation) (rev : Bool) (base : Nat) (st : PatchState) (tr : PolyTriangle)
    (p1 p2 p3 : Vec3d) (h1 : t.node tr.n1 = some p1)
    (h2 : t.node (if rev then tr.n3 else tr.n2) = some p2)
    (h3 : t.node (if rev then tr.n2 else tr.n3) = some p3) :
    (K.magnitude (crossOf p1 p2 p3) ≤ double1em12 →
      triangleStep K t rev base st tr = some
        { acc := accumulated st.acc rev tr (crossOf p1 p2 p3)
          indices := st.indices ++ pushedIndices base rev tr }) ∧
    (K.magnitude (crossOf p1 p2 p3) ≤ double1em12 → crossOf p1 p2 p3 = Vec3d.zero →
      (triangleStep K t rev base st tr).map (fun s => s.acc) = some st.acc) ∧
    (double1em12 < K.magnitude (crossOf p1 p2 p3) →
      ∀ u, K.normalize (crossOf p1 p2 p3) = some u →
        triangleStep K t rev base st tr = some
          { acc := accumulated st.acc rev tr u
            indices := st.indices ++ pushedIndices base rev tr }) := by
  refine ⟨?_, ?_, ?_⟩
  · intro hle
    exact triangleStep_accumulated K t rev base st tr p1 p2 p3 _ h1 h2 h3
      (faceNormal_le K p1 p2 p3 hle)
  · intro hle hz
    rw [triangleStep_accumulated K t rev base st tr p1 p2 p3 _ h1 h2 h3
      (faceNormal_le K p1 p2 p3 hle), hz, accumulated_zero]
    rfl
  · intro hgt u hu
    exact triangleStep_accumulated K t rev base st tr p1 p2 p3 u h1 h2 h3
      ((faceNormal_gt K p1 p2 p3 hgt).trans hu)

/-- Witness for `face_normal_is_unscaled_cross_product_up_to_threshold`: the triangle
of the sliver face, whose cross product `(0,0,2^-48)` is added unscaled. -/
theorem face_normal_is_unscaled_cross_product_up_to_threshold_witness :
    sampleKernel.magnitude (crossOf ⟨0, 0, 0⟩ ⟨1 / 2 ^ 24, 0, 0⟩ ⟨0, 1 / 2 ^ 24, 0⟩)
      ≤ double1em12 ∧
    triangleStep sampleKernel
        ⟨[⟨0, 0, 0⟩, ⟨1 / 2 ^ 24, 0, 0⟩, ⟨0, 1 / 2 ^ 24, 0⟩], [⟨1, 2, 3⟩]⟩ false 0
        ⟨List.replicate 3 Vec3d.zero, []⟩ ⟨1, 2, 3⟩ = some
      { acc := accumulated (List.replicate 3 Vec3d.zero) false ⟨1, 2, 3⟩
          (crossOf ⟨0, 0, 0⟩ ⟨1 / 2 ^ 24, 0, 0⟩ ⟨0, 1 / 2 ^ 24, 0⟩)
        indices := [] ++ pushedIndices 0 false ⟨1, 2, 3⟩ } :=
  ⟨by decide!,
    (face_normal_is_unscaled_cross_product_up_to_threshold sampleKernel
      ⟨[⟨0, 0, 0⟩, ⟨1 / 2 ^ 24, 0, 0⟩, ⟨0, 1 / 2 ^ 24, 0⟩], [⟨1, 2, 3⟩]⟩ false 0
      ⟨List.replicate 3 Vec3d.zero, []⟩ ⟨1, 2, 3⟩ ⟨0, 0, 0⟩ ⟨1 / 2 ^ 24, 0, 0⟩
      ⟨0, 1 / 2 ^ 24, 0⟩ (by decide!) (by decide!) (by decide!)).1 (by decide!)⟩

/-- C23 (failing input). The degenerate face makes `Normalize` raise after its three
vertices and three indices were written: the bucket after that patch is not the bucket
before it. In a shape where the flat face follows the degenerate face, the flat face is
accumulated behind the leftovers: the triangle bucket holds 6 vertices, 3 normals and
the indices 0 to 5, while the shape without the degenerate face gives 3 vertices, 3
normals and the indices 0 to 2. The edges are accumulated alike in both shapes. -/
theorem failed_patch_is_not_rolled_back :
    faceRaises sampleKernel degenerateFace = true ∧
    processFace sampleKernel {} degenerateFace =
      { vertices := [⟨0, 0, 0⟩, ⟨1, 0, 0⟩, ⟨2, 0, 0⟩], normals := [], indices := [0, 1, 2] } ∧
    processFace sampleKernel {} degenerateFace ≠ {} ∧
    (MeshShape sampleKernel mixedShape ⟨1, 0, 0, 1⟩ MeshState.fresh).triBuckets.map
      (fun b => (b.vertices.length, b.normals.length, b.indices)) =
      [(6, 3, [0, 1, 2, 3, 4, 5])] ∧
    (MeshShape sampleKernel flatShape ⟨1, 0, 0, 1⟩ MeshState.fresh).triBuckets.map
      (fun b => (b.vertices.length, b.normals.length, b.indices)) = [(3, 3, [0, 1, 2])] ∧
    (MeshShape sampleKernel mixedShape ⟨1, 0, 0, 1⟩ MeshState.fresh).triBuckets ≠
      (MeshShape sampleKernel flatShape ⟨1, 0, 0, 1⟩ MeshState.fresh).triBuckets ∧
    (MeshShape sampleKernel mixedShape ⟨1, 0, 0, 1⟩ MeshState.fresh).edgeBuckets =
      (MeshShape sampleKernel flatShape ⟨1, 0, 0, 1⟩ MeshState.fresh).edgeBuckets := by
  refine ⟨?_, ?_, ?_, ?_, ?_, ?_, ?_⟩
  · decide!
  · decide!
  · decide!
  · decide!
  · decide!
  · decide!
  · decide!

theorem toInt32_le (n : Nat) : toInt32 n ≤ (n : Int) := by
  unfold toInt32
  have h := Nat.mod_le n (2 ^ 32)
  split_ifs <;> omega

theorem matIndexOf_valid (r : Int) {n : Nat} (hn : 0 < n) :
    0 ≤ matIndexOf r n ∧ matIndexOf r n < (n : Int) := by
  unfold matIndexOf
  have h := toInt32_le n
  split_ifs with hc
  · omega
  · omega

/-- Supplement to C25: the case the selection of `matIndex` covers. For every builder
with at least one material, every primitive that `writeGlb` emits has a material index
`m` with `0 ≤ m` and `m` below the number of materials written. -/
theorem primitive_material_valid_of_nonempty_palette (h : Host) (g : GlbBuilder) :
    0 < g.m_materials.length →
    ∀ p ∈ (serialize h g).primitives,
      0 ≤ p.material ∧ p.material < (g.m_materials.length : Int) := by
  intro hn p hp
  have hmem : p.material ∈ (serialize h g).primitives.map (fun p => p.material) :=
    List.mem_map_of_mem _ hp
  rw [serialize_primitives, List.map_append, triPrims_map_material,
    edgePrims_map_material] at hmem
  rcases List.mem_append.mp hmem with hm | hm
  · obtain ⟨b, _, hb⟩ := List.mem_map.mp hm
    rw [← hb]
    exact matIndexOf_valid _ hn
  · obtain ⟨e, _, he⟩ := List.mem_map.mp hm
    rw [← he]
    exact matIndexOf_valid _ hn

/-- C25 (failing input). A builder that received one triangle bucket together with an
empty palette: `writeGlb` succeeds, the materials array written has no entry, and the
one primitive emitted carries material index 0, which is not below the number of
materials written. -/
theorem empty_palette_primitive_material_dangles :
    sampleBuilderNoPalette.m_triBuckets = [sampleTri] ∧
    sampleBuilderNoPalette.m_materials = [] ∧
    (sampleBuilderNoPalette.writeGlb sampleHost "out.glb" false {}).ok = true ∧
    (serialize sampleHost sampleBuilderNoPalette).primitives.map (fun p => p.material)
      = [0] ∧
    renderItems (sampleBuilderNoPalette.m_materials.map (jsonMaterial sampleHost)) = [] ∧
    ¬ (∀ p ∈ (serialize sampleHost sampleBuilderNoPalette).primitives,
        0 ≤ p.material ∧ p.material < (sampleBuilderNoPalette.m_materials.length : Int)) := by
  refine ⟨?_, ?_, ?_, ?_, ?_, ?_⟩
  · decide!
  · decide!
  · decide!
  · decide!
  · decide!
  · decide!

theorem float1em9_pos : 0 < float1em9 := by
  unfold float1em9
  norm_num

theorem snap_lower {m a : ℚ} (h : m ≤ a) :
    snap m - float1em9 < a ∧ (¬ (-float1em9 < m ∧ m < 0) → snap m ≤ a) := by
  have hp := float1em9_pos
  unfold snap
  by_cases hc : |m| < float1em9
  · rw [if_pos hc]
    have h2 := abs_lt.mp hc
    constructor
    · linarith [h2.1]
    · intro hn
      have : 0 ≤ m := by
        by_contra hneg
        exact hn ⟨h2.1, not_le.mp hneg⟩
      linarith
  · rw [if_neg hc]
    exact ⟨by linarith, fun _ => h⟩

theorem snap_upper {m a : ℚ} (h : a ≤ m) :
    a < snap m + float1em9 ∧ (¬ (0 < m ∧ m < float1em9) → a ≤ snap m) := by
  have hp := float1em9_pos
  unfold snap
  by_cases hc : |m| < float1em9
  · rw [if_pos hc]
    have h2 := abs_lt.mp hc
    constructor
    · linarith [h2.2]
    · intro hn
      have : m ≤ 0 := by
        by_contra hpos
        exact hn ⟨not_le.mp hpos, h2.2⟩
      linarith
  · rw [if_neg hc]
    exact ⟨by linarith, fun _ => h⟩

theorem snapped_min_bound {V : Type} (f : V → ℚ) (v0 : V) (rest : List V) (p : V)
    (hp : p ∈ v0 :: rest) :
    snap (minOver f v0 rest) - float1em9 < f p ∧
    ((∀ q ∈ v0 :: rest, ¬ (-float1em9 < f q ∧ f q < 0)) → snap (minOver f v0 rest) ≤ f p) := by
  obtain ⟨h1, h2⟩ := snap_lower (minOver_le f v0 rest p hp)
  refine ⟨h1, fun hall => h2 ?_⟩
  obtain ⟨q, hq, he⟩ := minOver_mem f v0 rest
  rw [he]
  exact hall q hq

theorem snapped_max_bound {V : Type} (f : V → ℚ) (v0 : V) (rest : List V) (p : V)
    (hp : p ∈ v0 :: rest) :
    f p < snap (maxOver f v0 rest) + float1em9 ∧
    ((∀ q ∈ v0 :: rest, ¬ (0 < f q ∧ f q < float1em9)) → f p ≤ snap (maxOver f v0 rest)) := by
  obtain ⟨h1, h2⟩ := snap_upper (le_maxOver f v0 rest p hp)
  refine ⟨h1, fun hall => h2 ?_⟩
  obtain ⟨q, hq, he⟩ := maxOver_mem f v0 rest
  rw [he]
  exact hall q hq

/-- C26 (counterexample). For the one-element vertex list holding `(-2^-40, 0, 0)` the
least x-coordinate is snapped to 0: the lower x bound returned is 0, which exceeds the
x-coordinate of the element. -/
theorem snapped_bound_excludes_small_negative :
    calcMinMax [(⟨-(1 / 2 ^ 40), 0, 0⟩ : Vertex)] false = ⟨0, 0, 0, 0, 0, 0⟩ ∧
    ¬ (∀ p ∈ [(⟨-(1 / 2 ^ 40), 0, 0⟩ : Vertex)],
        (calcMinMax [(⟨-(1 / 2 ^ 40), 0, 0⟩ : Vertex)] false).e0 ≤ p.x) := by
  refine ⟨?_, ?_⟩
  · decide!
  · decide!

/-- C26 (amended). The position bounds returned by `calcMinMax` enclose the data up to
the snap tolerance: for every non-empty list `v` (`isNormal = false`) and every element
`p` of `v`, `result[0] - 1e-9f < p.x < result[3] + 1e-9f`, and likewise for y and z;
`result[0] ≤ p.x` holds when no x-coordinate of `v` lies strictly between `-1e-9f` and
0, and `p.x ≤ result[3]` holds when none lies strictly between 0 and `1e-9f`, and
likewise for y and z. -/
theorem calcMinMax_encloses_up_to_snap {V : Type} [Vec3 V] (v0 : V) (rest : List V) (p : V)
    (hp : p ∈ v0 :: rest) :
    ((calcMinMax (v0 :: rest) false).e0 - float1em9 < Vec3.x p ∧
      Vec3.x p < (calcMinMax (v0 :: rest) false).e3 + float1em9 ∧
      (calcMinMax (v0 :: rest) false).e1 - float1em9 < Vec3.y p ∧
      Vec3.y p < (calcMinMax (v0 :: rest) false).e4 + float1em9 ∧
      (calcMinMax (v0 :: rest) false).e2 - float1em9 < Vec3.z p ∧
      Vec3.z p < (calcMinMax (v0 :: rest) false).e5 + float1em9) ∧
    ((∀ q ∈ v0 :: rest, ¬ (-float1em9 < Vec3.x q ∧ Vec3.x q < 0)) →
      (calcMinMax (v0 :: rest) false).e0 ≤ Vec3.x p) ∧
    ((∀ q ∈ v0 :: rest, ¬ (0 < Vec3.x q ∧ Vec3.x q < float1em9)) →
      Vec3.x p ≤ (calcMinMax (v0 :: rest) false).e3) ∧
    ((∀ q ∈ v0 :: rest, ¬ (-float1em9 < Vec3.y q ∧ Vec3.y q < 0)) →
      (calcMinMax (v0 :: rest) false).e1 ≤ Vec3.y p) ∧
    ((∀ q ∈ v0 :: rest, ¬ (0 < Vec3.y q ∧ Vec3.y q < float1em9)) →
      Vec3.y p ≤ (calcMinMax (v0 :: rest) false).e4) ∧
    ((∀ q ∈ v0 :: rest, ¬ (-float1em9 < Vec3.z q ∧ Vec3.z q < 0)) →
      (calcMinMax (v0 :: rest) false).e2 ≤ Vec3.z p) ∧
    ((∀ q ∈ v0 :: rest, ¬ (0 < Vec3.z q ∧ Vec3.z q < float1em9)) →
      Vec3.z p ≤ (calcMinMax (v0 :: rest) false).e5) := by
  rw [calcMinMax_cons_false]
  exact ⟨⟨(snapped_min_bound Vec3.x v0 rest p hp).1, (snapped_max_bound Vec3.x v0 rest p hp).1,
      (snapped_min_bound Vec3.y v0 rest p hp).1, (snapped_max_bound Vec3.y v0 rest p hp).1,
      (snapped_min_bound Vec3.z v0 rest p hp).1, (snapped_max_bound Vec3.z v0 rest p hp).1⟩,
    (snapped_min_bound Vec3.x v0 rest p hp).2, (snapped_max_bound Vec3.x v0 rest p hp).2,
    (snapped_min_bound Vec3.y v0 rest p hp).2, (snapped_max_bound Vec3.y v0 rest p hp).2,
    (snapped_min_bound Vec3.z v0 rest p hp).2, (snapped_max_bound Vec3.z v0 rest p hp).2⟩

/-- Witness for `calcMinMax_encloses_up_to_snap`: the first of two vertices, whose
x-coordinate is the least of the list and is snapped. -/
theorem calcMinMax_encloses_up_to_snap_witness :
    (⟨-(1 / 2 ^ 40), 0, 0⟩ : Vertex) ∈ [(⟨-(1 / 2 ^ 40), 0, 0⟩ : Vertex), ⟨3, 4, 5⟩] ∧
    (calcMinMax [(⟨-(1 / 2 ^ 40), 0, 0⟩ : Vertex), ⟨3, 4, 5⟩] false).e0 - float1em9
      < Vec3.x (⟨-(1 / 2 ^ 40), 0, 0⟩ : Vertex) :=
  ⟨by decide!,
    (calcMinMax_encloses_up_to_snap (⟨-(1 / 2 ^ 40), 0, 0⟩ : Vertex) [⟨3, 4, 5⟩]
      ⟨-(1 / 2 ^ 40), 0, 0⟩ (by decide!)).1.1⟩

theorem regionOK_bytes_dvd {r : Region} (h : RegionOK r) : 4 ∣ r.bytes := by
  rcases h.2 with ⟨_, _, hb, _⟩ | ⟨_, _, hb, _⟩
  · rw [hb]
    exact ⟨r.count * 3, by omega⟩
  · rw [hb]
    exact ⟨r.count, by omega⟩

theorem totalBytes_dvd {rs : List Region} (hok : ∀ r ∈ rs, RegionOK r) :
    4 ∣ totalBytes rs := by
  induction rs with
  | nil => exact ⟨0, rfl⟩
  | cons r rs ih =>
    rw [totalBytes_cons]
    exact Nat.dvd_add (regionOK_bytes_dvd (hok r (List.mem_cons_self _ _)))
      (ih (fun x hx => hok x (List.mem_cons_of_mem _ hx)))

theorem toUInt32_dvd {n : Nat} (h : 4 ∣ n) : 4 ∣ toUInt32 n := by
  unfold toUInt32
  omega

theorem totalBytes_flatMap {α : Type} (f : α → List Region) (l : List α) :
    totalBytes (l.flatMap f) = (l.map (fun a => totalBytes (f a))).sum := by
  induction l with
  | nil => rfl
  | cons a l ih =>
    rw [List.flatMap_cons, totalBytes_append, ih, List.map_cons, List.sum_cons]

theorem totalBytes_triRegions (h : Host) (b : TriBucket) :
    totalBytes (triRegions h b) =
      12 * (b.vertices.length + b.normals.length) + 4 * b.indices.length := by
  simp only [totalBytes, triRegions, List.map_cons, List.map_nil, List.sum_cons, List.sum_nil,
    sizeofVertex, sizeofNormal, sizeofUInt32]
  omega

theorem totalBytes_edgeRegions (h : Host) (e : EdgeBucket) :
    totalBytes (edgeRegions h e) = 12 * e.vertices.length + 4 * e.indices.length := by
  simp only [totalBytes, edgeRegions, List.map_cons, List.map_nil, List.sum_cons, List.sum_nil,
    sizeofVertex, sizeofUInt32]
  omega

theorem serialize_bin_length_sum (h : Host) (g : GlbBuilder) :
    (serialize h g).bin.length =
      ((emittedTris g).map (fun b =>
        12 * (b.vertices.length + b.normals.length) + 4 * b.indices.length)).sum +
      ((emittedEdges g).map (fun e => 12 * e.vertices.length + 4 * e.indices.length)).sum := by
  rw [serialize_bin_length, regions, totalBytes_append, totalBytes_flatMap,
    totalBytes_flatMap]
  simp only [totalBytes_triRegions, totalBytes_edgeRegions]

theorem paddedBin_eq_of_dvd (h : Host) (g : GlbBuilder)
    (hsize : (serialize h g).bin.length < 2 ^ 32) : paddedBin h g = (serialize h g).bin := by
  have hd : 4 ∣ (serialize h g).bin.length := by
    rw [serialize_bin_length]
    exact totalBytes_dvd (regions_ok h g)
  have hp : pad4 (serialize h g).bin.length = (serialize h g).bin.length := by
    rw [pad4_eq _ (by omega)]
    omega
  unfold paddedBin
  rw [hp, resize_of_le _ _ _ (Nat.le_refl _), Nat.sub_self]
  simp

/-- C28. For every builder whose payload is shorter than `2^32` bytes: the byte offset
and the byte length of every buffer view are multiples of 4; the payload length before
padding is a multiple of 4; the padding step leaves the payload as it is; and the
binary chunk length is the sum of `12 * (vertices + normals) + 4 * indices` over the
triangle buckets and of `12 * vertices + 4 * indices` over the edge buckets that pass
the guard of their loop, which are the buckets that yield a primitive. -/
theorem payload_is_aligned_without_padding (h : Host) (g : GlbBuilder)
    (hsize : (serialize h g).bin.length < 2 ^ 32) :
    (∀ bv ∈ (serialize h g).bufferViews, 4 ∣ bv.byteOffset ∧ 4 ∣ bv.byteLength) ∧
    4 ∣ (serialize h g).bin.length ∧
    paddedBin h g = (serialize h g).bin ∧
    binChunkLen h g =
      ((emittedTris g).map (fun b =>
        12 * (b.vertices.length + b.normals.length) + 4 * b.indices.length)).sum +
      ((emittedEdges g).map (fun e => 12 * e.vertices.length + 4 * e.indices.length)).sum ∧
    (serialize h g).primitives.length = (emittedTris g).length + (emittedEdges g).length := by
  refine ⟨?_, ?_, paddedBin_eq_of_dvd h g hsize, ?_, ?_⟩
  · intro bv hbv
    obtain ⟨k, hk⟩ := List.getElem?_of_mem hbv
    obtain ⟨r, hr, hv⟩ := view_at h g hk
    rw [hv]
    constructor
    · exact toUInt32_dvd (totalBytes_dvd
        (fun x hx => regions_ok h g x (List.mem_of_mem_take hx)))
    · exact toUInt32_dvd (regionOK_bytes_dvd (regions_ok h g r (List.getElem?_mem hr)))
  · rw [serialize_bin_length]
    exact totalBytes_dvd (regions_ok h g)
  · unfold binChunkLen
    rw [paddedBin_eq_of_dvd h g hsize, toUInt32_of_lt hsize, serialize_bin_length_sum]
  · rw [serialize_primitives, List.length_append, triPrims_length, edgePrims_length]

set_option maxRecDepth 100000 in
/-- Witness for `payload_is_aligned_without_padding`: the sample builder, whose payload
has 116 bytes. -/
theorem payload_is_aligned_without_padding_witness :
    (serialize sampleHost sampleBuilder).bin.length < 2 ^ 32 ∧
    paddedBin sampleHost sampleBuilder = (serialize sampleHost sampleBuilder).bin ∧
    binChunkLen sampleHost sampleBuilder = 116 :=
  ⟨by decide,
    (payload_is_aligned_without_padding sampleHost sampleBuilder (by decide)).2.2.1,
    (payload_is_aligned_without_padding sampleHost sampleBuilder (by decide)).2.2.2.1.trans
      (by decide)⟩

theorem quantize_cell {v : ℚ} {k : Nat} (hk : quantize v = k) (h0 : 0 < k) (h255 : k < 255) :
    (0 ≤ v ∧ v ≤ 1) ∧
    (k : ℚ) - 1 / 2 - 1 / 2 ^ 17 ≤ v * 255 ∧ v * 255 < (k : ℚ) + 1 / 2 + 1 / 2 ^ 17 := by
  rw [quantize_eq_ref] at hk
  obtain ⟨c0, c1⟩ := clampUnit_range v
  obtain ⟨_, _, herr⟩ := scaled_range v
  have hcell := (quantizeRef_eq_iff v (k : Int) (by omega)).mp (by simpa using hk)
  have e1 := (abs_le.mp herr).1
  have e2 := (abs_le.mp herr).2
  have hk0 : (1 : ℚ) ≤ (k : ℚ) := by exact_mod_cast h0
  have hk1 : (k : ℚ) ≤ 254 := by exact_mod_cast (by omega : k ≤ 254)
  simp only [Int.cast_natCast] at hcell
  have hlo : (k : ℚ) - 1 / 2 - 1 / 2 ^ 17 ≤ clampUnit v * 255 := by linarith [hcell.1]
  have hhi : clampUnit v * 255 < (k : ℚ) + 1 / 2 + 1 / 2 ^ 17 := by linarith [hcell.2]
  have hpos : 0 < clampUnit v := by
    norm_num at hlo
    linarith
  have hlt : clampUnit v < 1 := by
    norm_num at hhi
    linarith
  have hv : clampUnit v = v := by
    unfold clampUnit at hpos hlt ⊢
    have h1 : min v 1 = v := by
      by_contra hne
      have : min v 1 = 1 := by
        rcases min_choice v 1 with h | h
        · exact absurd h hne
        · exact h
      rw [this] at hlt
      norm_num at hlt
    rw [h1] at hpos hlt ⊢
    have h2 : 0 < v := by
      by_contra hneg
      rw [max_eq_left (not_lt.mp hneg)] at hpos
      exact lt_irrefl _ hpos
    exact max_eq_right h2.le
  rw [hv] at hlo hhi c0 c1
  exact ⟨⟨c0, c1⟩, hlo, hhi⟩

theorem quantize_float01 : quantize float01 = 26 := by decide!

theorem quantize_float09 : quantize float09 = 230 := by decide!

theorem roundF32_near {x : ℚ} (h : 0 ≤ x) (hx : x < 256) :
    0 ≤ roundF32 x ∧ x - 1 / 2 ^ 17 ≤ roundF32 x ∧ roundF32 x ≤ x + 1 / 2 ^ 17 := by
  have herr := abs_le.mp (roundF32_err h hx)
  exact ⟨roundF32_nonneg h, by linarith [herr.1], by linarith [herr.2]⟩

theorem brightness_near (s : RGBA) (hr : 0 ≤ s.r ∧ s.r ≤ 1) (hg : 0 ≤ s.g ∧ s.g ≤ 1)
    (hb : 0 ≤ s.b ∧ s.b ≤ 1) :
    float0299 * s.r + float0587 * s.g + float0114 * s.b - 5 / 2 ^ 17 ≤ brightness s ∧
    brightness s ≤ float0299 * s.r + float0587 * s.g + float0114 * s.b + 5 / 2 ^ 17 := by
  have a0 : (0 : ℚ) ≤ float0299 * s.r := mul_nonneg (by norm_num [float0299]) hr.1
  have a1 : float0299 * s.r ≤ 1 := by
    have : float0299 * s.r ≤ float0299 * 1 := mul_le_mul_of_nonneg_left hr.2 (by norm_num [float0299])
    norm_num [float0299] at this ⊢
    linarith
  have b0 : (0 : ℚ) ≤ float0587 * s.g := mul_nonneg (by norm_num [float0587]) hg.1
  have b1 : float0587 * s.g ≤ 1 := by
    have : float0587 * s.g ≤ float0587 * 1 := mul_le_mul_of_nonneg_left hg.2 (by norm_num [float0587])
    norm_num [float0587] at this ⊢
    linarith
  have c0 : (0 : ℚ) ≤ float0114 * s.b := mul_nonneg (by norm_num [float0114]) hb.1
  have c1 : float0114 * s.b ≤ 1 := by
    have : float0114 * s.b ≤ float0114 * 1 := mul_le_mul_of_nonneg_left hb.2 (by norm_num [float0114])
    norm_num [float0114] at this ⊢
    linarith
  obtain ⟨pa0, pa1, pa2⟩ := roundF32_near a0 (by linarith)
  obtain ⟨pb0, pb1, pb2⟩ := roundF32_near b0 (by linarith)
  obtain ⟨pc0, pc1, pc2⟩ := roundF32_near c0 (by linarith)
  have hs1 : roundF32 (float0299 * s.r) + roundF32 (float0587 * s.g) < 256 := by
    norm_num at pa2 pb2 ⊢
    linarith
  obtain ⟨ps0, ps1, ps2⟩ := roundF32_near (add_nonneg pa0 pb0) hs1
  have hs2 : roundF32 (roundF32 (float0299 * s.r) + roundF32 (float0587 * s.g))
      + roundF32 (float0114 * s.b) < 256 := by
    norm_num at pa2 pb2 pc2 ps2 ⊢
    linarith
  obtain ⟨_, pt1, pt2⟩ := roundF32_near (add_nonneg ps0 pc0) hs2
  unfold brightness
  constructor <;> linarith

theorem pack_shape_ne_edge (s : RGBA) : pack s ≠ pack (edgeColorOf s) := by
  intro h
  obtain ⟨hr, hg, hb, _⟩ := (pack_eq_iff _ _).mp h
  unfold edgeColorOf at hr hg hb
  by_cases hbri : brightness s > 1 / 2
  · rw [if_pos hbri] at hr hg hb
    simp only at hr hg hb
    rw [quantize_float01] at hr hg hb
    obtain ⟨ur, _, h1⟩ := quantize_cell hr (by norm_num) (by norm_num)
    obtain ⟨ug, _, h2⟩ := quantize_cell hg (by norm_num) (by norm_num)
    obtain ⟨ub, _, h3⟩ := quantize_cell hb (by norm_num) (by norm_num)
    have hnear := (brightness_near s ur ug ub).2
    unfold float0299 float0587 float0114 at hnear
    push_cast at h1 h2 h3
    norm_num at h1 h2 h3 hnear
    linarith
  · rw [if_neg hbri] at hr hg hb
    simp only at hr hg hb
    rw [quantize_float09] at hr hg hb
    obtain ⟨ur, h1, _⟩ := quantize_cell hr (by norm_num) (by norm_num)
    obtain ⟨ug, h2, _⟩ := quantize_cell hg (by norm_num) (by norm_num)
    obtain ⟨ub, h3, _⟩ := quantize_cell hb (by norm_num) (by norm_num)
    have hnear := (brightness_near s ur ug ub).1
    unfold float0299 float0587 float0114 at hnear
    push_cast at h1 h2 h3
    norm_num at h1 h2 h3 hnear
    linarith

theorem meshShapes_matReg_reachable (K : Kernel) (calls : List (Shape × RGBA))
    (cs : List RGBA) :
    ∃ cs1, (meshShapes K calls ⟨MaterialRegistry.empty.afterCalls cs, [], []⟩).matReg =
      MaterialRegistry.empty.afterCalls cs1 := by
  suffices hgen : ∀ (s : MeshState) (cs : List RGBA),
      s.matReg = MaterialRegistry.empty.afterCalls cs →
      ∃ cs1, (meshShapes K calls s).matReg = MaterialRegistry.empty.afterCalls cs1 from
    hgen _ cs rfl
  induction calls with
  | nil =>
    intro s cs hs
    exact ⟨cs, hs⟩
  | cons call calls ih =>
    intro s cs hs
    unfold meshShapes
    rw [List.foldl_cons]
    by_cases hn : call.1.isNull = true
    · have : MeshShape K call.1 call.2 s = s := by
        unfold MeshShape
        rw [if_pos hn]
      rw [this]
      exact ih s cs hs
    · simp only [Bool.not_eq_true] at hn
      apply ih (MeshShape K call.1 call.2 s)
        (cs ++ [shapeColorOf call.2, edgeColorOf (shapeColorOf call.2)])
      rw [meshShape_matReg K call.1 call.2 s hn, hs]
      unfold MaterialRegistry.afterCalls
      rw [List.foldl_append]
      rfl

/-- C27. For every base colour `c` passed to `MeshShape` and every palette reached from
the empty palette by `getOrCreate` calls: the quantized key of the surface colour (after
black substitution) differs from the quantized key of the edge colour chosen from its
luminance, and the material index obtained for the surface colour differs from the
material index obtained next for the edge colour. The palette of every state reached
from fresh by `MeshShape` calls is such a palette. Keys and luminance are those of the
`float` computation: the dark edge colour has the channel value 26 and the light one
230, and the luminance of `{0.5, 0.5, 0.5, 1}` is exactly 0.5, which selects the light
edge colour. -/
theorem surface_and_edge_material_differ (cs : List RGBA) (c : RGBA) (K : Kernel)
    (calls : List (Shape × RGBA)) :
    pack (shapeColorOf c) ≠ pack (edgeColorOf (shapeColorOf c)) ∧
    ((MaterialRegistry.empty.afterCalls cs).getOrCreate (shapeColorOf c)).1 ≠
      (((MaterialRegistry.empty.afterCalls cs).getOrCreate (shapeColorOf c)).2.getOrCreate
        (edgeColorOf (shapeColorOf c))).1 ∧
    (∃ cs1, (meshShapes K calls MeshState.fresh).matReg =
      MaterialRegistry.empty.afterCalls cs1) ∧
    quantize float01 = 26 ∧ quantize float09 = 230 ∧
    brightness ⟨1 / 2, 1 / 2, 1 / 2, 1⟩ = 1 / 2 ∧
    edgeColorOf ⟨1 / 2, 1 / 2, 1 / 2, 1⟩ = ⟨float09, float09, float09, 1⟩ := by
  refine ⟨pack_shape_ne_edge _, ?_, meshShapes_matReg_reachable K calls [],
    quantize_float01, quantize_float09, by decide!, by decide!⟩
  intro h
  exact pack_shape_ne_edge _
    ((getOrCreate_twice_iff (regInv_afterCalls regInv_empty cs) _ _).mp h)

end StepGuru
